import Mathlib

/-!
# Refinement management in oomph-lib: a shallow embedding

The definitions below embed the parts of `src/generic/refineable_elements.h`
and `src/generic/refineable_line_spectral_element.h` that deal with the
refinement bookkeeping of a `RefineableElement`.

Conventions of the embedding:

* a pointer is an `Option Nat`: `none` is the null pointer `0`, `some a` is the
  address `a` of a live object; the objects themselves are read from address
  indexed stores (`Nat → Tree`, `Nat → RefineableElement`, `Nat → Node`);
* `unsigned` is a natural number below `2 ^ 32`, `int` is an integer in
  `[-2 ^ 31, 2 ^ 31)`; the conversions between the two are the modular ones;
* a member function that can throw, or that can touch storage it was not
  given, returns an `Outcome`.
-/

namespace oomph

/-! ## Machine integers -/

/-- Number of values of the type `unsigned`. -/
def UNSIGNED_RANGE : Nat := 2 ^ 32

/-- Arithmetic in the type `unsigned`: the sum of two `unsigned` values. -/
def unsigned_add (a b : Nat) : Nat := (a + b) % UNSIGNED_RANGE

/-- Conversion of an `unsigned` to an `int` (two's complement). -/
def int_of_unsigned (u : Nat) : Int :=
  if u % UNSIGNED_RANGE < 2 ^ 31 then ((u % UNSIGNED_RANGE : Nat) : Int)
  else ((u % UNSIGNED_RANGE : Nat) : Int) - (UNSIGNED_RANGE : Int)

/-- Conversion of an `int` to an `unsigned` (reduction modulo `2 ^ 32`). -/
def unsigned_of_int (i : Int) : Nat := (i % (UNSIGNED_RANGE : Int)).toNat

/-! ## Errors and outcomes -/

/-- The `OomphLibError`s thrown by the embedded functions, one constructor per
`throw` site; the fields are the data streamed into the message. -/
inductive OomphLibError where
  /-- "Range Error: Value `value` is not in the range (0,`range_max`)",
  thrown by `RefineableElement::local_hang_eqn()`. -/
  | Range_Error (value : Nat) (range_max : Nat)
  /-- "The vertex node (0) does not exist". -/
  | Vertex_node_does_not_exist
  /-- "Cannot handle periodic nodes in refineable spectral elements". -/
  | Cannot_handle_periodic_nodes
  /-- "I am trying to rebuild one of the (two) vertex nodes in this 1D
  element. It should not have been possible to delete either of these!" -/
  | Rebuilding_vertex_node
  /-- "Have not implemented rebuilding from sons for Algebraic Spectral
  elements yet". -/
  | Not_implemented_for_algebraic_spectral_elements
  /-- "LinearAlgebraDistribution has not been built : Comm_pt == 0." -/
  | Distribution_not_built
  /-- "Requested nrow_local(`p`), but this distribution is defined on `nproc`
  processors." -/
  | Requested_nrow_local (p : Nat) (nproc : Nat)
  /-- "Requested first_row(`p`), but this distribution is defined on `nproc`
  processors." -/
  | Requested_first_row (p : Nat) (nproc : Nat)
  /-- "Requested global row outside the number of global rows". -/
  | Requested_global_row_outside
  /-- "Please use another region id different from zero. It is internally
  used as the default region number." -/
  | Region_id_zero
  /-- "Vector specifying zeta coordinates of point in region has be length 2;
  yours has length `n`". -/
  | Zeta_in_region_length (n : Nat)
deriving DecidableEq, Repr

/-- What a call does: it returns, it throws, or it reads or writes outside the
storage it owns (a null pointer is dereferenced, a vector is indexed past its
end), where the code defines no behaviour. -/
inductive Outcome (α : Type) where
  | returned (a : α)
  | thrown (e : OomphLibError)
  | unchecked
deriving DecidableEq, Repr

/-- Sequencing of calls: the second call is made when the first returns. -/
def Outcome.bind {α β : Type} (x : Outcome α) (f : α → Outcome β) : Outcome β :=
  match x with
  | .returned a => f a
  | .thrown e => .thrown e
  | .unchecked => .unchecked

/-! ## Data model -/

/-- Modelled from the spec: the class `Tree` of `tree.h`, which is not part of
the sources at hand. A tree node holds a back-reference to its father (null
for a root), its sons and a back-reference to the element it represents. -/
structure Tree where
  Father_pt : Option Nat
  Son_pt : List (Option Nat)
  Object_pt : Option Nat
deriving DecidableEq, Repr

/-- Modelled from the spec: the part of the class `Node` of `nodes.h` (not part
of the sources at hand) that the embedded functions use. `D` stands for
`double`. `Obsolete` marks a node as eligible for deletion, `Value t i` is
`value(t,i)`, `X t i` is `x(t,i)`, `Eqn_number i` is the global equation
number of value `i` (negative when the value is pinned or constrained) and
`Hanging_pt i` is the hanging-node record of value `i`: null when the node is
not hanging in that value, else the list of (master node, weight) pairs. -/
structure Node (D : Type) where
  Obsolete : Bool
  Time_stepper_pt : Nat
  Nvalue : Nat
  Value : Nat → Nat → D
  X : Nat → Nat → D
  Eqn_number : Nat → Int
  Hanging_pt : Nat → Option (List (Nat × D))

namespace Node

variable {D : Type}

def set_obsolete (nd : Node D) : Node D := { nd with Obsolete := true }

def set_non_obsolete (nd : Node D) : Node D := { nd with Obsolete := false }

def is_obsolete (nd : Node D) : Bool := nd.Obsolete

def nvalue (nd : Node D) : Nat := nd.Nvalue

/-- The assignment `x(t,i) = x_new`. -/
def set_x (nd : Node D) (t i : Nat) (x_new : D) : Node D :=
  { nd with X := fun t1 i1 => if t1 = t ∧ i1 = i then x_new else nd.X t1 i1 }

/-- The member function `set_value(t,i,value)`. -/
def set_value (nd : Node D) (t i : Nat) (value : D) : Node D :=
  { nd with Value := fun t1 i1 => if t1 = t ∧ i1 = i then value else nd.Value t1 i1 }

end Node

/-- The data members of a `RefineableElement`, together with the vector of
node pointers it inherits from `FiniteElement`. `Local_hang_eqn` is a pointer
to an array of `std::map<Node*,int>`, one map per continuously interpolated
value; a map is a list of (key, value) pairs read from the front. -/
structure RefineableElement where
  Node_pt : List (Option Nat)
  Tree_pt : Option Nat
  Refine_level : Nat
  To_be_refined : Bool
  Sons_to_be_unrefined : Bool
  Number : Int
  Local_hang_eqn : Option (List (List (Nat × Int)))
deriving DecidableEq, Repr

namespace RefineableElement

/-- The constructor `RefineableElement()`: `Tree_pt(0)`, `Refine_level(0)`,
`To_be_refined(false)`, `Sons_to_be_unrefined(false)`, `Number(-1)`,
`Local_hang_eqn(0)`. The node pointers are those that the constructor of the
concrete element class has set up. -/
def construct (Node_pt : List (Option Nat)) : RefineableElement :=
  { Node_pt := Node_pt, Tree_pt := none, Refine_level := 0,
    To_be_refined := false, Sons_to_be_unrefined := false, Number := -1,
    Local_hang_eqn := none }

def tree_pt (e : RefineableElement) : Option Nat := e.Tree_pt

def set_tree_pt (e : RefineableElement) (my_tree_pt : Option Nat) : RefineableElement :=
  { e with Tree_pt := my_tree_pt }

/-- The default `required_nsons()`: none. -/
def required_nsons : Nat := 0

/-- `set_refinement_level(const int&)`: the `int` is stored in the `unsigned`
member. -/
def set_refinement_level (e : RefineableElement) (refine_level : Int) : RefineableElement :=
  { e with Refine_level := unsigned_of_int refine_level }

def refinement_level (e : RefineableElement) : Nat := e.Refine_level

def select_for_refinement (e : RefineableElement) : RefineableElement :=
  { e with To_be_refined := true }

def deselect_for_refinement (e : RefineableElement) : RefineableElement :=
  { e with To_be_refined := false }

def select_sons_for_unrefinement (e : RefineableElement) : RefineableElement :=
  { e with Sons_to_be_unrefined := true }

def deselect_sons_for_unrefinement (e : RefineableElement) : RefineableElement :=
  { e with Sons_to_be_unrefined := false }

def to_be_refined (e : RefineableElement) : Bool := e.To_be_refined

def sons_to_be_unrefined (e : RefineableElement) : Bool := e.Sons_to_be_unrefined

def number (e : RefineableElement) : Int := e.Number

def nnode (e : RefineableElement) : Nat := e.Node_pt.length

/-- `std::vector::resize(n)` on a vector of pointers: the first `n` entries
are kept, missing ones are null. -/
def resize {α : Type} (v : List (Option α)) (n : Nat) : List (Option α) :=
  v.take n ++ List.replicate (n - v.length) none

/-- The loop `for(unsigned i=0;i<n_sons;i++)` of `split`, from index `i` on,
with `todo` iterations left: `son_pt[i]=new ELEMENT;` followed by
`son_pt[i]->set_refinement_level(son_refine_level);`. -/
def split_loop (new_ELEMENT : RefineableElement) (son_refine_level : Int) :
    Nat → Nat → List (Option RefineableElement) → List (Option RefineableElement)
  | 0, _, son_pt => son_pt
  | todo + 1, i, son_pt =>
      split_loop new_ELEMENT son_refine_level todo (i + 1)
        (son_pt.set i (some (new_ELEMENT.set_refinement_level son_refine_level)))

/-- The member function `split(Vector<ELEMENT*>& son_pt) const`. `n_sons` is
what the virtual `required_nsons()` returns for the element, `new_ELEMENT` is
the object that `new ELEMENT` creates. The result is the father after the
call and the vector of sons. -/
def split (father : RefineableElement) (n_sons : Nat) (new_ELEMENT : RefineableElement)
    (son_pt : List (Option RefineableElement)) :
    RefineableElement × List (Option RefineableElement) :=
  let son_refine_level : Int := int_of_unsigned (unsigned_add father.Refine_level 1)
  (father, split_loop new_ELEMENT son_refine_level n_sons 0 (resize son_pt n_sons))

/-- The member function `father_element_pt() const`; `tree_at` is the store
of `Tree` objects. -/
def father_element_pt (tree_at : Nat → Tree) (e : RefineableElement) : Option Nat :=
  match e.Tree_pt with
  | none => none
  | some t =>
      match (tree_at t).Father_pt with
      | none => none
      | some father_pt => (tree_at father_pt).Object_pt

/-- The base class `nodes_built()`: `return node_pt(0)!=0;`. An element
without nodes has no `node_pt(0)`. -/
def nodes_built (e : RefineableElement) : Outcome Bool :=
  match e.Node_pt with
  | [] => .unchecked
  | p :: _ => .returned (p != none)

/-- `std::map<Node*,int>::operator[]`: the value stored under the key, and a
value-initialised entry (0) is inserted when there is none. -/
def map_index (m : List (Nat × Int)) (key : Nat) : Int × List (Nat × Int) :=
  match m.lookup key with
  | some v => (v, m)
  | none => (0, (key, 0) :: m)

/-- The access function `local_hang_eqn(Node* const &node_pt, const unsigned &i)`.
`RANGE_CHECKING` tells whether the library was compiled with that flag,
`ncont_interpolated_values` is what the pure virtual function of that name
returns. The result is the local equation number and the element after the
call (the look-up may have inserted an entry). -/
def local_hang_eqn (RANGE_CHECKING : Bool) (ncont_interpolated_values : Nat)
    (e : RefineableElement) (node_pt : Nat) (i : Nat) :
    Outcome (Int × RefineableElement) :=
  if RANGE_CHECKING && decide (i > ncont_interpolated_values) then
    .thrown (.Range_Error i ((ncont_interpolated_values + (UNSIGNED_RANGE - 1)) % UNSIGNED_RANGE))
  else
    match e.Local_hang_eqn with
    | none => .unchecked
    | some maps =>
        match maps[i]? with
        | none => .unchecked
        | some m =>
            let r := map_index m node_pt
            .returned (r.1, { e with Local_hang_eqn := some (maps.set i r.2) })

/-- Modelled from the spec: the ordinary local equation numbering of the
element, as `FiniteElement::assign_all_generic_local_eqn_numbers()` of
`elements.h` (not part of the sources at hand) leaves it: the number of local
equations `Ndof` and the local equation number `Nodal_local_eqn n i` of value
`i` at local node `n` (negative when the value is pinned). -/
structure Local_numbering where
  Ndof : Nat
  Nodal_local_eqn : Nat → Nat → Int

/-- Modelled from the spec: what the hanging-node pass of
`assign_hanging_local_eqn_numbers()` carries along: the look-up scheme (one
map per continuously interpolated value), the next unused local equation
number, and the global equation numbers of the local equations it added. -/
structure Hanging_numbering where
  Local_hang_eqn : List (List (Nat × Int))
  local_eqn_number : Nat
  global_eqn_number_queue : List Int

/-- Modelled from the spec: the search for a master node among the nodes of
the element: the local number of the first node pointer that equals the
master node, and the number of nodes when there is none. -/
def find_local_node_index (master_node_pt : Nat) : List (Option Nat) → Nat
  | [] => 0
  | p :: rest =>
      if p = some master_node_pt then 0 else find_local_node_index master_node_pt rest + 1

/-- Modelled from the spec: the treatment of one master node for value `j` in
`RefineableElement::assign_hanging_local_eqn_numbers()` of
`refineable_elements.cc` (not part of the sources at hand): "for each master
not already assigned a local equation number in this element, assign one (or
mark pinned, with code -1, if the master value is pinned globally)". A master
that is already in the look-up scheme is skipped; a master that is a node of
the element has its ordinary local equation number entered in the look-up
scheme; any other master gets the next local equation number when its value
is free and -1 when it is pinned. -/
def assign_master_eqn {D : Type} (e : RefineableElement) (node_at : Nat → Node D)
    (ordinary : Local_numbering) (j master_node_pt : Nat) (s : Hanging_numbering) :
    Hanging_numbering :=
  match s.Local_hang_eqn[j]? with
  | none => s
  | some map_j =>
      match map_j.lookup master_node_pt with
      | some _ => s
      | none =>
          let local_node_index := find_local_node_index master_node_pt e.Node_pt
          if local_node_index < e.nnode then
            { s with Local_hang_eqn := (s.Local_hang_eqn.set j
                ((master_node_pt, ordinary.Nodal_local_eqn local_node_index j) :: map_j)) }
          else
            let eqn_number := (node_at master_node_pt).Eqn_number j
            if eqn_number ≥ 0 then
              { Local_hang_eqn := (s.Local_hang_eqn.set j
                  ((master_node_pt, (s.local_eqn_number : Int)) :: map_j)),
                local_eqn_number := s.local_eqn_number + 1,
                global_eqn_number_queue := s.global_eqn_number_queue ++ [eqn_number] }
            else
              { s with Local_hang_eqn := s.Local_hang_eqn.set j ((master_node_pt, -1) :: map_j) }

/-- Modelled from the spec: "walk its master list": the loop over the master
nodes of a node that is hanging in value `j`. -/
def master_loop {D : Type} (e : RefineableElement) (node_at : Nat → Node D)
    (ordinary : Local_numbering) (j : Nat) : List (Nat × D) → Hanging_numbering → Hanging_numbering
  | [], s => s
  | (master_node_pt, _) :: rest, s =>
      master_loop e node_at ordinary j rest (assign_master_eqn e node_at ordinary j master_node_pt s)

/-- Modelled from the spec: "for each node that is hanging for
continuously-interpolated value index i": the loop over the continuously
interpolated values `j` of the node `nd`, from `j` on with `todo` values
left. -/
def value_loop {D : Type} (e : RefineableElement) (node_at : Nat → Node D)
    (ordinary : Local_numbering) (nd : Node D) : Nat → Nat → Hanging_numbering → Hanging_numbering
  | 0, _, s => s
  | todo + 1, j, s =>
      value_loop e node_at ordinary nd todo (j + 1)
        (match nd.Hanging_pt j with
         | none => s
         | some hang_info => master_loop e node_at ordinary j hang_info s)

/-- Modelled from the spec: "walk every node of the element": the loop over
the node pointers of the element. -/
def node_loop {D : Type} (e : RefineableElement) (node_at : Nat → Node D)
    (ordinary : Local_numbering) (ncont_interpolated_values : Nat) :
    List (Option Nat) → Hanging_numbering → Outcome Hanging_numbering
  | [], s => .returned s
  | none :: _, _ => .unchecked
  | some a :: rest, s =>
      node_loop e node_at ordinary ncont_interpolated_values rest
        (value_loop e node_at ordinary (node_at a) ncont_interpolated_values 0 s)

/-- Modelled from the spec: `RefineableElement::assign_hanging_local_eqn_numbers()`
of `refineable_elements.cc` (not part of the sources at hand), section 4.3
of the specification: run after the ordinary local equation numbers have
been assigned, it walks every node of the element and the master list of
every value in which the node hangs, and builds the look-up scheme
`Local_hang_eqn` afresh. The result is the element with its look-up scheme,
the local numbering with the added equations, and their global equation
numbers. -/
def assign_hanging_local_eqn_numbers {D : Type} (node_at : Nat → Node D)
    (ncont_interpolated_values : Nat) (ordinary : Local_numbering) (e : RefineableElement) :
    Outcome (RefineableElement × Local_numbering × List Int) :=
  if e.nnode > 0 then
    (node_loop e node_at ordinary ncont_interpolated_values e.Node_pt
        { Local_hang_eqn := List.replicate ncont_interpolated_values [],
          local_eqn_number := ordinary.Ndof,
          global_eqn_number_queue := [] }).bind
      (fun s => .returned
        ({ e with Local_hang_eqn := some s.Local_hang_eqn },
         { ordinary with Ndof := s.local_eqn_number },
         s.global_eqn_number_queue))
  else .returned (e, ordinary, [])

/-- The entry of a look-up scheme for value `j` and master node `m`, when
there is one. -/
def lookup_hang_eqn (maps : List (List (Nat × Int))) (j m : Nat) : Option Int :=
  match maps[j]? with
  | none => none
  | some map_j => map_j.lookup m

/-- Consistency of the look-up scheme during the hanging-node pass: there is
one map per continuously interpolated value; an entry for a master that is a
node of the element is its ordinary local equation number, an entry for
another master whose value is free is one of the local equation numbers
added by the pass, an entry for another master whose value is pinned is -1;
and the added local equation numbers are used once. -/
structure Hanging_numbering_ok {D : Type} (e : RefineableElement) (node_at : Nat → Node D)
    (ordinary : Local_numbering) (ncont_interpolated_values : Nat) (s : Hanging_numbering) :
    Prop where
  size : s.Local_hang_eqn.length = ncont_interpolated_values
  first_free : ordinary.Ndof ≤ s.local_eqn_number
  entry : ∀ j m v, lookup_hang_eqn s.Local_hang_eqn j m = some v →
    (some m ∈ e.Node_pt ∧ v = ordinary.Nodal_local_eqn (find_local_node_index m e.Node_pt) j) ∨
    (some m ∉ e.Node_pt ∧ 0 ≤ (node_at m).Eqn_number j ∧
      (ordinary.Ndof : Int) ≤ v ∧ v < (s.local_eqn_number : Int)) ∨
    (some m ∉ e.Node_pt ∧ (node_at m).Eqn_number j < 0 ∧ v = -1)
  once : ∀ j m j1 m1 v, lookup_hang_eqn s.Local_hang_eqn j m = some v →
    lookup_hang_eqn s.Local_hang_eqn j1 m1 = some v →
    some m ∉ e.Node_pt → some m1 ∉ e.Node_pt →
    0 ≤ (node_at m).Eqn_number j → 0 ≤ (node_at m1).Eqn_number j1 → j = j1 ∧ m = m1

/-- The member function `assign_all_generic_local_eqn_numbers()`: the
standard `FiniteElement` local numbering scheme, whose result is `ordinary`,
followed by `assign_hanging_local_eqn_numbers()`. -/
def assign_all_generic_local_eqn_numbers {D : Type} (node_at : Nat → Node D)
    (ncont_interpolated_values : Nat) (ordinary : Local_numbering) (e : RefineableElement) :
    Outcome (RefineableElement × Local_numbering × List Int) :=
  assign_hanging_local_eqn_numbers node_at ncont_interpolated_values ordinary e

/-- The master degrees of freedom that the hanging nodes of the element
reach: the pairs (value index `j`, master node) for the nodes of the element
that hang in value `j < ncont_interpolated_values`. -/
def hanging_master_dofs {D : Type} (node_at : Nat → Node D) (ncont_interpolated_values : Nat)
    (e : RefineableElement) : List (Nat × Nat) :=
  e.Node_pt.flatMap (fun p =>
    match p with
    | none => []
    | some a =>
        (List.range ncont_interpolated_values).flatMap (fun j =>
          match (node_at a).Hanging_pt j with
          | none => []
          | some hang_info => hang_info.map (fun master => (j, master.1))))

/-- The genuinely free master degrees of freedom that the hanging nodes of
the element reach, each listed once: those whose global equation number is
not negative. -/
def free_master_dofs {D : Type} (node_at : Nat → Node D) (ncont_interpolated_values : Nat)
    (e : RefineableElement) : List (Nat × Nat) :=
  ((hanging_master_dofs node_at ncont_interpolated_values e).filter
    (fun jm => decide (0 ≤ (node_at jm.2).Eqn_number jm.1))).dedup

/-- Modelled from the spec: `FiniteElement::get_node_number(Node* const&)` of
`elements.h` (not part of the sources at hand), searching from local number
`i` on: the local number of the node in the element, -1 when the node is not
one of the element's nodes. -/
def get_node_number_from (global_node_pt : Option Nat) : List (Option Nat) → Nat → Int
  | [], _ => -1
  | p :: rest, i =>
      if global_node_pt = p then (i : Int) else get_node_number_from global_node_pt rest (i + 1)

/-- Modelled from the spec: `FiniteElement::get_node_number(Node* const&)`. -/
def get_node_number (e : RefineableElement) (global_node_pt : Option Nat) : Int :=
  get_node_number_from global_node_pt e.Node_pt 0

/-- The loop over the nodes in `unbuild()`; the list holds the node pointers
`node_pt(n)` still to be visited, `node_at` is the store of `Node` objects. -/
def unbuild_loop {D : Type} (father : RefineableElement) :
    List (Option Nat) → (Nat → Node D) → Outcome (Nat → Node D)
  | [], node_at => .returned node_at
  | p :: rest, node_at =>
      if father.get_node_number p ≥ 0 then
        match p with
        | none => .unchecked
        | some a =>
            unbuild_loop father rest
              (fun b => if b = a then (node_at a).set_non_obsolete else node_at b)
      else unbuild_loop father rest node_at

/-- The member function `unbuild()`; `tree_at`, `element_at` and `node_at`
are the stores of `Tree`, element and `Node` objects. The result is the
store of nodes after the call. -/
def unbuild {D : Type} (tree_at : Nat → Tree) (element_at : Nat → RefineableElement)
    (e : RefineableElement) (node_at : Nat → Node D) : Outcome (Nat → Node D) :=
  match e.father_element_pt tree_at with
  | none => .returned node_at
  | some father_pt => unbuild_loop (element_at father_pt) e.Node_pt node_at

end RefineableElement

namespace RefineableQSpectralElement

/-- What `RefineableQSpectralElement<1>::rebuild_from_sons` takes from code
that is not under `src/`, and the compile-time flag `PARANOID`:
`nnode_1d()` and `local_one_d_fraction_of_node(n,i)` of the element,
`node_created_by_neighbour(s_fraction,is_periodic)` (the node pointer it
returns and the flag it sets), the `BinaryTreeNames` `L` and `R`, the store
of `Tree` objects, whether the object at an address is a
`RefineableQSpectralElement<1>` (the `dynamic_cast` of the son), the
interpolants `get_x(t,s,x)` (as `x[0]`) and `get_interpolated_values(t,s,values)`
of the element at an address, whether the element itself is an
`AlgebraicElementBase`, the number of values `construct_node` gives node `n`,
and `ntstorage()` of the time stepper at an address. The neighbours and the
sons are not modified by the call, so what is read from them is a function
of the arguments only. -/
structure Rebuild_environment (D : Type) where
  PARANOID : Bool
  nnode_1d : Nat
  local_one_d_fraction_of_node : Nat → Nat → D
  node_created_by_neighbour : D → Option Nat × Bool
  L : Nat
  R : Nat
  tree_at : Nat → Tree
  is_RefineableQSpectralElement : Nat → Bool
  get_x : Nat → Nat → D → D
  get_interpolated_values : Nat → Nat → D → List D
  is_AlgebraicElementBase : Bool
  required_nvalue : Nat → Nat
  ntstorage : Nat → Nat

/-- The objects `rebuild_from_sons` works on: the element itself, the store
of nodes, the address the next `new Node` returns (the addresses from there
on are free), and the vector of node pointers of the mesh. -/
structure Rebuild_state (D : Type) where
  element : RefineableElement
  node_at : Nat → Node D
  next_node : Nat
  mesh_Node_pt : List (Option Nat)

variable {D : Type} [OfScientific D] [Neg D] [Add D] [Sub D] [Mul D] [LT D]
  [DecidableRel (fun a b : D => a < b)]

/-- Modelled from the spec: the node that `FiniteElement::construct_node(n,
time_stepper_pt)` of `elements.h` (not part of the sources at hand)
allocates: a node with the values required at local node `n`, not yet
classified, not hanging, with zeroed values and position. -/
def constructed_node (env : Rebuild_environment D) (n : Nat) (time_stepper_pt : Nat) : Node D :=
  { Obsolete := false, Time_stepper_pt := time_stepper_pt, Nvalue := env.required_nvalue n,
    Value := fun _ _ => 0.0, X := fun _ _ => 0.0, Eqn_number := fun _ => -10,
    Hanging_pt := fun _ => none }

/-- `dynamic_cast<RefineableQSpectralElement<1>*>(this->tree_pt()->son_pt(son)->object_pt())`. -/
def son_el_pt (env : Rebuild_environment D) (e : RefineableElement) (son : Nat) :
    Outcome (Option Nat) :=
  match e.tree_pt with
  | none => .unchecked
  | some t =>
      match (env.tree_at t).Son_pt[son]? with
      | none => .unchecked
      | some none => .unchecked
      | some (some son_tree) =>
          match (env.tree_at son_tree).Object_pt with
          | none => .returned none
          | some obj =>
              .returned (if env.is_RefineableQSpectralElement obj then some obj else none)

/-- The loop `for(unsigned v=0;v<n_value;v++)` over the values of the new
node, from `v` on with `todo` iterations left:
`set_value(t,v,prev_values[v])`. -/
def set_values_loop (prev_values : List D) (t : Nat) : Nat → Nat → Node D → Outcome (Node D)
  | 0, _, nd => .returned nd
  | todo + 1, v, nd =>
      match prev_values[v]? with
      | none => .unchecked
      | some value => set_values_loop prev_values t todo (v + 1) (nd.set_value t v value)

/-- The loop `for(unsigned t=0;t<ntstorage;t++)` over the history values,
from `t` on with `todo` iterations left, acting on the new node. -/
def history_loop (env : Rebuild_environment D) (son_el_pt : Option Nat) (s_in_son : D) :
    Nat → Nat → Node D → Outcome (Node D)
  | 0, _, nd => .returned nd
  | todo + 1, t, nd =>
      match son_el_pt with
      | none => .unchecked
      | some son_el =>
          let x_prev := env.get_x son_el t s_in_son
          let nd1 := nd.set_x t 0 x_prev
          let prev_values := env.get_interpolated_values son_el t s_in_son
          let n_value := nd1.nvalue
          (set_values_loop prev_values t n_value 0 nd1).bind
            (fun nd2 => history_loop env son_el_pt s_in_son todo (t + 1) nd2)

/-- The son in which node `n` lives and its coordinate there: the left son
for `s_fraction[0] < 0.5`, else the right son. -/
def son_and_coordinate (env : Rebuild_environment D) (s_fraction : D) : Nat × D :=
  if s_fraction < 0.5 then (env.L, -1.0 + 4.0 * s_fraction)
  else (env.R, -1.0 + 4.0 * (s_fraction - 0.5))

/-- The branch "Otherwise, we need to build it" of `rebuild_from_sons` for
node `n`: the son is looked up, the node is constructed, its positions and
values are set from the son for every history value, and the node is added to
the mesh (`Mesh::add_node_pt`). -/
def build_node (env : Rebuild_environment D) (time_stepper_pt ntstorage n_node n : Nat)
    (s_fraction : D) (st : Rebuild_state D) : Outcome (Rebuild_state D) :=
  let son := (son_and_coordinate env s_fraction).1
  let s_in_son := (son_and_coordinate env s_fraction).2
  (son_el_pt env st.element son).bind (fun son_el =>
    if env.PARANOID && (n == 0 || n == (n_node + (UNSIGNED_RANGE - 1)) % UNSIGNED_RANGE) then
      .thrown .Rebuilding_vertex_node
    else
      (history_loop env son_el s_in_son ntstorage 0
          (constructed_node env n time_stepper_pt)).bind (fun nd =>
        .returned
          { element := { st.element with Node_pt := st.element.Node_pt.set n (some st.next_node) },
            node_at := fun a => if a = st.next_node then nd else st.node_at a,
            next_node := st.next_node + 1,
            mesh_Node_pt := st.mesh_Node_pt ++ [some st.next_node] }))

/-- What `rebuild_from_sons` does with a node `n` that has not been built,
up to the check for algebraic elements: the node created by a neighbour is
taken over (a periodic one is refused), else the node is built. -/
def handle_unbuilt_node (env : Rebuild_environment D) (time_stepper_pt ntstorage n_node n : Nat)
    (s_fraction : D) (st : Rebuild_state D) : Outcome (Rebuild_state D) :=
  match env.node_created_by_neighbour s_fraction with
  | (some created_node_pt, is_periodic) =>
      if is_periodic then .thrown .Cannot_handle_periodic_nodes
      else .returned { st with element :=
        { st.element with Node_pt := st.element.Node_pt.set n (some created_node_pt) } }
  | (none, _) => build_node env time_stepper_pt ntstorage n_node n s_fraction st

/-- The body of the loop over the nodes of `rebuild_from_sons`, for node `n`.
The local coordinate `s[0] = -1.0 + 2.0*s_fraction[0]` in the father, which
the source computes at this point, is not used afterwards. -/
def rebuild_node (env : Rebuild_environment D) (time_stepper_pt ntstorage n_node n : Nat)
    (st : Rebuild_state D) : Outcome (Rebuild_state D) :=
  let s_fraction := env.local_one_d_fraction_of_node n 0
  match st.element.Node_pt[n]? with
  | none => .unchecked
  | some (some _) => .returned st
  | some none =>
      (handle_unbuilt_node env time_stepper_pt ntstorage n_node n s_fraction st).bind
        (fun st1 =>
          if env.is_AlgebraicElementBase then
            .thrown .Not_implemented_for_algebraic_spectral_elements
          else .returned st1)

/-- The loop `for(unsigned n=0;n<n_node;n++)` of `rebuild_from_sons`, from
`n` on with `todo` iterations left. -/
def rebuild_loop (env : Rebuild_environment D) (time_stepper_pt ntstorage n_node : Nat) :
    Nat → Nat → Rebuild_state D → Outcome (Rebuild_state D)
  | 0, _, st => .returned st
  | todo + 1, n, st =>
      (rebuild_node env time_stepper_pt ntstorage n_node n st).bind
        (fun st1 => rebuild_loop env time_stepper_pt ntstorage n_node todo (n + 1) st1)

/-- The member function `rebuild_from_sons(Mesh* &mesh_pt)`. -/
def rebuild_from_sons (env : Rebuild_environment D) (st : Rebuild_state D) :
    Outcome (Rebuild_state D) :=
  match st.element.Node_pt[0]? with
  | none => .unchecked
  | some none => .thrown .Vertex_node_does_not_exist
  | some (some node_0) =>
      let time_stepper_pt := (st.node_at node_0).Time_stepper_pt
      let ntstorage := env.ntstorage time_stepper_pt
      let n_node := env.nnode_1d
      rebuild_loop env time_stepper_pt ntstorage n_node n_node 0 st

/-- The node `nd` carries the data of the son element `son_el` at the
coordinate `s_in_son`: for each of the `ntstorage` history values its
position is the son's `get_x` and its first `n_value` values are the entries
of the son's `get_interpolated_values`. -/
def carries_son_data (env : Rebuild_environment D) (ntstorage n_value son_el : Nat)
    (s_in_son : D) (nd : Node D) : Prop :=
  ∀ t, t < ntstorage →
    nd.X t 0 = env.get_x son_el t s_in_son ∧
    ∀ v, v < n_value →
      (env.get_interpolated_values son_el t s_in_son)[v]? = some (nd.Value t v)

/-- Node `n` is one that the element has to construct itself: it is not
built and no neighbour supplies it. -/
def has_to_construct (env : Rebuild_environment D) (e : RefineableElement) (n : Nat) : Prop :=
  e.Node_pt[n]? = some none ∧
  (env.node_created_by_neighbour (env.local_one_d_fraction_of_node n 0)).1 = none

/-- What building node `n` needs: with `PARANOID` it is not a vertex node,
the son in which it lives is a spectral element, and the son interpolates at
least as many values as the node stores. -/
def can_construct (env : Rebuild_environment D) (e : RefineableElement)
    (ntstorage n_node n : Nat) : Prop :=
  (env.PARANOID = true → n ≠ 0 ∧ n ≠ (n_node + (UNSIGNED_RANGE - 1)) % UNSIGNED_RANGE) ∧
  ∃ son_el, son_el_pt env e
      (son_and_coordinate env (env.local_one_d_fraction_of_node n 0)).1 = .returned (some son_el) ∧
    ∀ t, t < ntstorage → env.required_nvalue n ≤ (env.get_interpolated_values son_el t
      (son_and_coordinate env (env.local_one_d_fraction_of_node n 0)).2).length

end RefineableQSpectralElement

/-- The class `RefineableQSpectralElement<1>`: its `nodes_built()` overload. -/
def RefineableQSpectralElement.nodes_built_loop : List (Option Nat) → Bool
  | [] => true
  | p :: rest => if p == none then false else nodes_built_loop rest

/-- `RefineableQSpectralElement<1>::nodes_built()`. -/
def RefineableQSpectralElement.nodes_built (e : RefineableElement) : Bool :=
  RefineableQSpectralElement.nodes_built_loop e.Node_pt

/-! ## Time and time steppers (`timesteppers.h`)

In this part `D` stands for `double` with exact arithmetic: it is a ring, the
literals `0.0` and `1.0` are its zero and one. -/

/-- The class `Time`: the value of the continuous time (the `double` that
`Time_pt` points to) and the vector `Dt` of the current and previous
timesteps. -/
structure Time (D : Type) where
  Time_pt : D
  Dt : List D

namespace Time

variable {D : Type}

/-- `time()`: the current value of the continuous time. -/
def time_now (tm : Time D) : D := tm.Time_pt

/-- `ndt()`: the number of timesteps stored. `Dt` is private and is sized
through `unsigned` arguments only (the constructor `Time(ndt)` and
`resize(n_dt)`), so its size is returned as it is. -/
def ndt (tm : Time D) : Nat := tm.Dt.length

/-- `dt(t)`: the value of the `t`-th stored timestep. -/
def dt (tm : Time D) (t : Nat) : Outcome D :=
  match tm.Dt[t]? with
  | none => .unchecked
  | some x => .returned x

/-- The loop `for (unsigned i=0;i<t;i++) {time_local -= Dt[i];}` of
`time(t)`, from `i` on with `todo` iterations left. -/
def time_loop [Sub D] (Dt : List D) : Nat → Nat → D → Outcome D
  | 0, _, time_local => .returned time_local
  | todo + 1, i, time_local =>
      match Dt[i]? with
      | none => .unchecked
      | some dt_i => time_loop Dt todo (i + 1) (time_local - dt_i)

/-- `time(const unsigned &t)`: the continuous time at the `t`-th previous time
level, together with the object after the call. -/
def time [Sub D] (tm : Time D) (t : Nat) : Outcome (D × Time D) :=
  (time_loop tm.Dt t 0 tm.Time_pt).bind (fun time_local => .returned (time_local, tm))

/-- The loop `for (unsigned i=(n_dt-1);i>0;i--) {Dt[i]=Dt[i-1];}` of
`shift_dt()`, with the loop variable at `i`. -/
def shift_dt_loop : Nat → List D → Outcome (List D)
  | 0, Dt => .returned Dt
  | i + 1, Dt =>
      match Dt[i]? with
      | none => .unchecked
      | some x => if i + 1 < Dt.length then shift_dt_loop i (Dt.set (i + 1) x) else .unchecked

/-- `shift_dt()`. -/
def shift_dt (tm : Time D) : Outcome (Time D) :=
  let n_dt := tm.Dt.length
  if n_dt = 0 then .returned tm
  else (shift_dt_loop (n_dt - 1) tm.Dt).bind (fun Dt => .returned { tm with Dt := Dt })

end Time

/-- Modelled from the spec: the class `DenseMatrix<double>` of `matrices.h`
(not part of the sources at hand): `N` rows, `M` columns and the entries; an
entry outside the `N` x `M` block is outside the storage. -/
structure DenseMatrix (D : Type) where
  N : Nat
  M : Nat
  entry : Nat → Nat → D

namespace DenseMatrix

variable {D : Type}

def nrow (w : DenseMatrix D) : Nat := w.N

def ncol (w : DenseMatrix D) : Nat := w.M

/-- Modelled from the spec: read access `w(i,j)`. -/
def get (w : DenseMatrix D) (i j : Nat) : Outcome D :=
  if i < w.N ∧ j < w.M then .returned (w.entry i j) else .unchecked

/-- Modelled from the spec: the assignment `w(i,j) = x`. -/
def assign (w : DenseMatrix D) (i j : Nat) (x : D) : Outcome (DenseMatrix D) :=
  if i < w.N ∧ j < w.M then
    .returned { w with entry := fun i1 j1 => if i1 = i ∧ j1 = j then x else w.entry i1 j1 }
  else .unchecked

/-- Modelled from the spec: `resize(n,m,initial_value)`: the entries of the
old block are kept, the new ones are `initial_value`. -/
def resize (w : DenseMatrix D) (n m : Nat) (initial_value : D) : DenseMatrix D :=
  { N := n, M := m,
    entry := fun i j => if i < w.N ∧ j < w.M then w.entry i j else initial_value }

/-- The matrix a default-constructed `DenseMatrix` holds: no rows, no
columns. -/
def empty (x : D) : DenseMatrix D := { N := 0, M := 0, entry := fun _ _ => x }

end DenseMatrix

/-- Modelled from the spec: the part of the class `Data` of `nodes.h` (not
part of the sources at hand) that the time steppers use: the number of
values, the values `value(t,j)` at the history levels `t`, and whether value
`j` is a copy of a value stored elsewhere. -/
structure Data (D : Type) where
  Nvalue : Nat
  Value : Nat → Nat → D
  Is_a_copy : Nat → Bool

namespace Data

variable {D : Type}

def nvalue (data : Data D) : Nat := data.Nvalue

def value (data : Data D) (t j : Nat) : D := data.Value t j

def is_a_copy (data : Data D) (j : Nat) : Bool := data.Is_a_copy j

def set_value (data : Data D) (t j : Nat) (x : D) : Data D :=
  { data with Value := fun t1 j1 => if t1 = t ∧ j1 = j then x else data.Value t1 j1 }

end Data

/-- The data members of the class `TimeStepper`; `Type_` is the member
`Type`. -/
structure TimeStepper (D : Type) where
  Time_pt : Option Nat
  Weight : DenseMatrix D
  Type_ : String
  Adaptive_Flag : Bool
  Is_steady : Bool

namespace TimeStepper

variable {D : Type}

/-- The constructor `TimeStepper(tstorage, max_deriv)`: the weights are
resized to `max_deriv+1` rows and `tstorage` columns of zeros and the weight
`Weight(0,0)` is set to one. -/
def construct [Zero D] [One D] (tstorage max_deriv : Nat) : Outcome (TimeStepper D) :=
  (((DenseMatrix.empty (0 : D)).resize (unsigned_add max_deriv 1) tstorage 0).assign 0 0 1).bind
    (fun w => .returned
      { Time_pt := none, Weight := w, Type_ := "", Adaptive_Flag := false, Is_steady := false })

/-- `highest_derivative()`: `Weight.nrow()-1`, as an `unsigned`. -/
def highest_derivative (ts : TimeStepper D) : Nat :=
  (ts.Weight.nrow + (UNSIGNED_RANGE - 1)) % UNSIGNED_RANGE

/-- `ntstorage()`: `Weight.ncol()`. -/
def ntstorage (ts : TimeStepper D) : Nat := ts.Weight.ncol

/-- `weight(i,j)`: `Weight(i,j)`. -/
def weight (ts : TimeStepper D) (i j : Nat) : Outcome D := ts.Weight.get i j

def is_steady (ts : TimeStepper D) : Bool := ts.Is_steady

def adaptive_flag (ts : TimeStepper D) : Bool := ts.Adaptive_Flag

/-- The loop `for(unsigned j=0;j<n_tstorage;j++) {Weight(i,j) = 0.0;}`, from
`j` on with `todo` iterations left. -/
def zero_row_loop [Zero D] (i : Nat) : Nat → Nat → DenseMatrix D → Outcome (DenseMatrix D)
  | 0, _, w => .returned w
  | todo + 1, j, w => (w.assign i j 0).bind (fun w1 => zero_row_loop i todo (j + 1) w1)

/-- The loop over the rows `i` that are set to zero, from `i` on with `todo`
rows left. -/
def zero_rows_loop [Zero D] (n_tstorage : Nat) : Nat → Nat → DenseMatrix D → Outcome (DenseMatrix D)
  | 0, _, w => .returned w
  | todo + 1, i, w =>
      (zero_row_loop i n_tstorage 0 w).bind (fun w1 => zero_rows_loop n_tstorage todo (i + 1) w1)

/-- `make_steady()`: the loop `for(unsigned i=1;i<n_rows;i++)` over the
non-zeroth order entries, then `Is_steady=true`. -/
def make_steady [Zero D] (ts : TimeStepper D) : Outcome (TimeStepper D) :=
  let n_rows := ts.Weight.nrow
  let n_tstorage := ts.ntstorage
  (zero_rows_loop n_tstorage (n_rows - 1) 1 ts.Weight).bind
    (fun w => .returned { ts with Weight := w, Is_steady := true })

/-- The loop `for (unsigned t=0;t<n_tstorage;t++) {deriv+=Weight(i,t)*data_pt->value(t,j);}`,
from `t` on with `todo` iterations left. -/
def time_derivative_loop [Add D] [Mul D] (ts : TimeStepper D) (i : Nat) (data : Data D) (j : Nat) :
    Nat → Nat → D → Outcome D
  | 0, _, deriv => .returned deriv
  | todo + 1, t, deriv =>
      (ts.Weight.get i t).bind
        (fun w => time_derivative_loop ts i data j todo (t + 1) (deriv + w * data.value t j))

/-- `time_derivative(i, data_pt, j)`: the `i`-th derivative of the `j`-th
value in `Data`. -/
def time_derivative [Zero D] [Add D] [Mul D] (ts : TimeStepper D) (i : Nat) (data : Data D)
    (j : Nat) : Outcome D :=
  time_derivative_loop ts i data j ts.ntstorage 0 0

/-- The loop over the values `j` of `time_derivative(i, data_pt, deriv)`,
from `j` on with `todo` values left: `deriv[j]=aux_deriv`. -/
def time_derivative_values_loop [Zero D] [Add D] [Mul D] (ts : TimeStepper D) (i : Nat)
    (data : Data D) : Nat → Nat → List D → Outcome (List D)
  | 0, _, deriv => .returned deriv
  | todo + 1, j, deriv =>
      (time_derivative_loop ts i data j ts.ntstorage 0 0).bind (fun aux_deriv =>
        if j < deriv.length then
          time_derivative_values_loop ts i data todo (j + 1) (deriv.set j aux_deriv)
        else .unchecked)

/-- `time_derivative(i, data_pt, deriv)`: the `i`-th derivative of all values
in `Data`, written into the vector `deriv`. -/
def time_derivative_values [Zero D] [Add D] [Mul D] (ts : TimeStepper D) (i : Nat)
    (data : Data D) (deriv : List D) : Outcome (List D) :=
  time_derivative_values_loop ts i data data.nvalue 0 deriv

end TimeStepper

/-- The class `BDF<NSTEPS>`: a `TimeStepper` with the template parameter and
the predictor weights. The member `Error_weight` is not initialised by the
constructor and not used by the functions embedded here. -/
structure BDF (D : Type) extends TimeStepper D where
  NSTEPS : Nat
  Predictor_weight : List D

namespace BDF

variable {D : Type}

/-- The two loops of the constructor that initialise each weight to zero,
row by row, from row `i` on with `todo` rows left. -/
def initialise_loop [Zero D] (n_col : Nat) : Nat → Nat → DenseMatrix D → Outcome (DenseMatrix D)
  | 0, _, w => .returned w
  | todo + 1, i, w =>
      (TimeStepper.zero_row_loop i n_col 0 w).bind (fun w1 => initialise_loop n_col todo (i + 1) w1)

/-- The constructor `BDF(bool adaptive=false) : TimeStepper(NSTEPS+1,1)`. -/
def construct [Zero D] [One D] (NSTEPS : Nat) (adaptive : Bool) : Outcome (BDF D) :=
  (TimeStepper.construct (unsigned_add NSTEPS 1) 1 : Outcome (TimeStepper D)).bind (fun base =>
    let ts : TimeStepper D := { base with Type_ := "BDF" }
    if adaptive then
      (initialise_loop (unsigned_add NSTEPS 3) 2 0
          (ts.Weight.resize 2 (unsigned_add NSTEPS 3) 0)).bind (fun w =>
        (w.assign 0 0 1).bind (fun w1 =>
          .returned
            { toTimeStepper := { ts with Adaptive_Flag := true, Weight := w1 },
              NSTEPS := NSTEPS,
              Predictor_weight := List.replicate (unsigned_add NSTEPS 2) 0 }))
    else
      .returned { toTimeStepper := ts, NSTEPS := NSTEPS, Predictor_weight := [] })

/-- `nprev_values()`: `NSTEPS`. -/
def nprev_values (bdf : BDF D) : Nat := bdf.NSTEPS

/-- `ndt()`: `NSTEPS`. -/
def ndt (bdf : BDF D) : Nat := bdf.NSTEPS

/-- `order()`: `NSTEPS`. -/
def order (bdf : BDF D) : Nat := bdf.NSTEPS

/-- The loop `for(unsigned t=NSTEPS;t>0;t--)` of `shift_time_values` for
value `j`, with the loop variable at `t`:
`set_value(t,j,data_pt->value(t-1,j))`. -/
def shift_history_loop (j : Nat) : Nat → Data D → Data D
  | 0, data => data
  | t + 1, data => shift_history_loop j t (data.set_value (t + 1) j (data.value t j))

/-- The loop over the values of `shift_time_values`, from `j` on with `todo`
values left. -/
def shift_values_loop (bdf : BDF D) (velocity : List D) : Nat → Nat → Data D → Outcome (Data D)
  | 0, _, data => .returned data
  | todo + 1, j, data =>
      if data.is_a_copy j = false then
        let data1 := shift_history_loop j bdf.NSTEPS data
        if bdf.adaptive_flag then
          match velocity[j]? with
          | none => .unchecked
          | some velocity_j =>
              shift_values_loop bdf velocity todo (j + 1)
                (data1.set_value (unsigned_add bdf.NSTEPS 1) j velocity_j)
        else shift_values_loop bdf velocity todo (j + 1) data1
      else shift_values_loop bdf velocity todo (j + 1) data

/-- `shift_time_values(Data* const &data_pt)`. -/
def shift_time_values [Zero D] [Add D] [Mul D] (bdf : BDF D) (data : Data D) : Outcome (Data D) :=
  let n_value := data.nvalue
  let velocity : List D := List.replicate n_value 0
  (if bdf.adaptive_flag then bdf.toTimeStepper.time_derivative_values 1 data velocity
   else .returned velocity).bind
    (fun velocity1 => shift_values_loop bdf velocity1 n_value 0 data)

end BDF

/-! ## Distribution of linear algebra objects (`linear_algebra_distribution.h`) -/

/-- Arithmetic in the type `int`: the difference of two `int` values; a
difference outside the range of `int` has no defined behaviour. -/
def int_sub (a b : Int) : Outcome Int :=
  if -(2 ^ 31 : Int) ≤ a - b ∧ a - b < (2 ^ 31 : Int) then .returned (a - b) else .unchecked

/-- Modelled from the spec: the part of the class `OomphCommunicator` of
`communicator.h` (not part of the sources at hand) that the distribution
reads: the number of processors and the rank of this processor. -/
structure OomphCommunicator where
  nproc : Nat
  my_rank : Nat
deriving DecidableEq, Repr

/-- The data members of the class `LinearAlgebraDistribution`. -/
structure LinearAlgebraDistribution where
  Nrow : Nat
  Nrow_local : List Nat
  First_row : List Nat
  Distributed : Bool
  Comm_pt : Option OomphCommunicator
deriving DecidableEq, Repr

namespace LinearAlgebraDistribution

/-- `built()`. -/
def built (d : LinearAlgebraDistribution) : Bool :=
  match d.Comm_pt with
  | none => false
  | some _ => true

/-- `distributed()`. -/
def distributed (d : LinearAlgebraDistribution) : Bool := d.Distributed

/-- `nrow_local(const unsigned& p)`; `PARANOID` and `OOMPH_HAS_MPI` tell
whether the library was compiled with these flags. -/
def nrow_local (PARANOID OOMPH_HAS_MPI : Bool) (d : LinearAlgebraDistribution) (p : Nat) :
    Outcome Nat :=
  let body : Outcome Nat :=
    if OOMPH_HAS_MPI && d.Distributed then
      match d.Nrow_local[p]? with
      | none => .unchecked
      | some n => .returned n
    else .returned d.Nrow
  if PARANOID then
    match d.Comm_pt with
    | none => .thrown .Distribution_not_built
    | some comm =>
        if p ≥ comm.nproc then .thrown (.Requested_nrow_local p comm.nproc) else body
  else body

/-- `first_row(const unsigned& p)`. -/
def first_row (PARANOID OOMPH_HAS_MPI : Bool) (d : LinearAlgebraDistribution) (p : Nat) :
    Outcome Nat :=
  let body : Outcome Nat :=
    if OOMPH_HAS_MPI && d.Distributed then
      match d.First_row[p]? with
      | none => .unchecked
      | some n => .returned n
    else .returned 0
  if PARANOID then
    match d.Comm_pt with
    | none => .thrown .Distribution_not_built
    | some comm =>
        if p ≥ comm.nproc then .thrown (.Requested_first_row p comm.nproc) else body
  else body

/-- The loop `while ((int)(local_i - (int)nrow_local(p)) >= 0)` of
`global_to_local_row_map`, with at most `fuel` evaluations of its condition:
`none` when the loop has not ended by then. In the body
`local_i -= (int)nrow_local(p); p++;`. -/
def global_to_local_row_map_loop (PARANOID OOMPH_HAS_MPI : Bool) (d : LinearAlgebraDistribution) :
    Nat → Int → Int → Option (Outcome Nat)
  | 0, _, _ => none
  | fuel + 1, local_i, p =>
      match d.nrow_local PARANOID OOMPH_HAS_MPI (unsigned_of_int p) with
      | .thrown e => some (.thrown e)
      | .unchecked => some .unchecked
      | .returned n =>
          match int_sub local_i (int_of_unsigned n) with
          | .thrown e => some (.thrown e)
          | .unchecked => some .unchecked
          | .returned difference =>
              if difference ≥ 0 then
                if p + 1 < (2 ^ 31 : Int) then
                  global_to_local_row_map_loop PARANOID OOMPH_HAS_MPI d fuel difference (p + 1)
                else some .unchecked
              else some (.returned (unsigned_of_int local_i))

/-- `global_to_local_row_map(const unsigned& global_i)`, with at most `fuel`
evaluations of the loop condition. -/
def global_to_local_row_map (PARANOID OOMPH_HAS_MPI : Bool) (d : LinearAlgebraDistribution)
    (fuel : Nat) (global_i : Nat) : Option (Outcome Nat) :=
  if PARANOID && decide (global_i ≥ d.Nrow) then some (.thrown .Requested_global_row_outside)
  else
    global_to_local_row_map_loop PARANOID OOMPH_HAS_MPI d fuel (int_of_unsigned global_i) 0

/-- The loop `while (i < first_row(p) || i >= first_row(p)+nrow_local(p))` of
`rank_of_global_row`, with at most `fuel` evaluations of its condition:
`none` when the loop has not ended by then. In the body `p++`. -/
def rank_of_global_row_loop (PARANOID OOMPH_HAS_MPI : Bool) (d : LinearAlgebraDistribution)
    (i : Nat) : Nat → Nat → Option (Outcome Nat)
  | 0, _ => none
  | fuel + 1, p =>
      match d.first_row PARANOID OOMPH_HAS_MPI p with
      | .thrown e => some (.thrown e)
      | .unchecked => some .unchecked
      | .returned first =>
          if i < first then
            rank_of_global_row_loop PARANOID OOMPH_HAS_MPI d i fuel (unsigned_add p 1)
          else
            match d.first_row PARANOID OOMPH_HAS_MPI p, d.nrow_local PARANOID OOMPH_HAS_MPI p with
            | .returned first1, .returned n =>
                if i ≥ unsigned_add first1 n then
                  rank_of_global_row_loop PARANOID OOMPH_HAS_MPI d i fuel (unsigned_add p 1)
                else some (.returned p)
            | .thrown e, _ => some (.thrown e)
            | .unchecked, _ => some .unchecked
            | .returned _, .thrown e => some (.thrown e)
            | .returned _, .unchecked => some .unchecked

/-- `rank_of_global_row(const unsigned i)`, with at most `fuel` evaluations
of the loop condition. -/
def rank_of_global_row (PARANOID OOMPH_HAS_MPI : Bool) (d : LinearAlgebraDistribution)
    (fuel : Nat) (i : Nat) : Option (Outcome Nat) :=
  rank_of_global_row_loop PARANOID OOMPH_HAS_MPI d i fuel 0

/-- The blocks of a distributed distribution are contiguous and cover the
rows: one block per processor, `first_row(0)=0`,
`first_row(p+1)=first_row(p)+nrow_local(p)`, and the `nrow_local(p)` sum to
`nrow`. -/
structure contiguous_blocks (d : LinearAlgebraDistribution) (nproc : Nat) : Prop where
  nrow_local_size : d.Nrow_local.length = nproc
  first_row_size : d.First_row.length = nproc
  first_row_zero : d.First_row[0]? = some 0
  first_row_next : ∀ p, p + 1 < nproc →
    d.First_row.getD (p + 1) 0 = d.First_row.getD p 0 + d.Nrow_local.getD p 0
  nrow_local_sum : d.Nrow_local.sum = d.Nrow

end LinearAlgebraDistribution

/-! ## The objects at the end of `rebuild_from_sons`, also when it throws -/

namespace RefineableQSpectralElement

variable {D : Type} [OfScientific D] [Neg D] [Add D] [Sub D] [Mul D] [LT D]
  [DecidableRel (fun a b : D => a < b)]

/-- The objects when the handling of the unbuilt node `n` ends. Both `throw`
statements of that part (the periodic node, and with `PARANOID` the vertex
node) come before the first assignment to `node_pt(n)`, so a throw leaves the
objects as they were. Nothing is said about a run with unchecked behaviour. -/
def handle_unbuilt_node_exit_state (env : Rebuild_environment D)
    (time_stepper_pt ntstorage n_node n : Nat) (s_fraction : D) (st : Rebuild_state D) :
    Option (Rebuild_state D) :=
  match handle_unbuilt_node env time_stepper_pt ntstorage n_node n s_fraction st with
  | .returned st1 => some st1
  | .thrown _ => some st
  | .unchecked => none

/-- The objects when the body of the loop for node `n` ends. The `throw` for
algebraic elements comes after the node has been set, so the objects are
then those that the handling of the node has left. -/
def rebuild_node_exit_state (env : Rebuild_environment D)
    (time_stepper_pt ntstorage n_node n : Nat) (st : Rebuild_state D) :
    Option (Rebuild_state D) :=
  let s_fraction := env.local_one_d_fraction_of_node n 0
  match st.element.Node_pt[n]? with
  | none => none
  | some (some _) => some st
  | some none => handle_unbuilt_node_exit_state env time_stepper_pt ntstorage n_node n s_fraction st

/-- The objects when the loop over the nodes ends, from `n` on with `todo`
iterations left: a body that throws ends the loop. -/
def rebuild_loop_exit_state (env : Rebuild_environment D)
    (time_stepper_pt ntstorage n_node : Nat) :
    Nat → Nat → Rebuild_state D → Option (Rebuild_state D)
  | 0, _, st => some st
  | todo + 1, n, st =>
      match rebuild_node env time_stepper_pt ntstorage n_node n st with
      | .returned st1 =>
          rebuild_loop_exit_state env time_stepper_pt ntstorage n_node todo (n + 1) st1
      | .thrown _ => rebuild_node_exit_state env time_stepper_pt ntstorage n_node n st
      | .unchecked => none

/-- The objects when `rebuild_from_sons(Mesh* &mesh_pt)` ends: the test
`this->node_pt(0)==0` and its `throw` are the first statements. -/
def rebuild_from_sons_exit_state (env : Rebuild_environment D) (st : Rebuild_state D) :
    Option (Rebuild_state D) :=
  match st.element.Node_pt[0]? with
  | none => none
  | some none => some st
  | some (some node_0) =>
      let time_stepper_pt := (st.node_at node_0).Time_stepper_pt
      let ntstorage := env.ntstorage time_stepper_pt
      let n_node := env.nnode_1d
      rebuild_loop_exit_state env time_stepper_pt ntstorage n_node n_node 0 st

end RefineableQSpectralElement

/-! ## Regions of a disk-like geometric object (`geom_obj_with_boundary.h`) -/

/-- The class `DiskLikeGeomObjectWithBoundaries`, as far as the regions go:
the member `std::map<unsigned, Vector<double> > Zeta_in_region`, a key without
an entry being `none`. -/
structure DiskLikeGeomObjectWithBoundaries (D : Type) where
  Zeta_in_region : Nat → Option (List D)

/-- What a call of `add_region_coordinates` leaves: the object when the call
ends, whether it returned or threw, and whether an `OomphLibWarning` has been
issued (the warning object is constructed, which prints its message, and is
not thrown). -/
structure Region_call (D : Type) where
  object : DiskLikeGeomObjectWithBoundaries D
  outcome : Outcome Unit
  warning_issued : Bool

namespace DiskLikeGeomObjectWithBoundaries

variable {D : Type}

/-- The member function `zeta_in_region()`: a copy of the map. -/
def zeta_in_region (g : DiskLikeGeomObjectWithBoundaries D) : Nat → Option (List D) :=
  g.Zeta_in_region

/-- The member function `add_region_coordinates(r, zeta_in_region)`. The
number of coordinates is stored in an `unsigned`. -/
def add_region_coordinates (g : DiskLikeGeomObjectWithBoundaries D) (r : Nat)
    (zeta_in_region : List D) : Region_call D :=
  if r = 0 then
    { object := g, outcome := .thrown .Region_id_zero, warning_issued := false }
  else
    let n := zeta_in_region.length % UNSIGNED_RANGE
    if n ≠ 2 then
      { object := g, outcome := .thrown (.Zeta_in_region_length n), warning_issued := false }
    else
      let it := g.Zeta_in_region r
      { object := { Zeta_in_region := fun k => if k = r then some zeta_in_region
                                               else g.Zeta_in_region k },
        outcome := .returned (),
        warning_issued := it.isSome }

end DiskLikeGeomObjectWithBoundaries


/-! ## A small configuration, used to run the definitions -/

namespace Example

/-- Three trees: trees 1 and 2 are the left and right son of the root tree
0; tree 0 represents the element at address 20, tree 1 the element at
address 10, tree 2 the element at address 11. -/
def tree_at (t : Nat) : Tree :=
  if t = 1 then ⟨some 0, [], some 10⟩
  else if t = 2 then ⟨some 0, [], some 11⟩
  else ⟨none, [some 1, some 2], some 20⟩

/-- The father element, at address 20, has the node at address 3 and an
interior node that is not built. -/
def father : RefineableElement :=
  { RefineableElement.construct [some 3, none] with Tree_pt := some 0 }

/-- The son element, at address 10, has the nodes at addresses 3 and 5. -/
def son : RefineableElement :=
  { RefineableElement.construct [some 3, some 5] with Tree_pt := some 1, Refine_level := 1 }

def element_at (a : Nat) : RefineableElement := if a = 10 then son else father

/-- The store of nodes: the node at address 3 is marked obsolete, the others
are not. -/
def node_at (a : Nat) : Node Rat :=
  { Obsolete := decide (a = 3), Time_stepper_pt := 0, Nvalue := 1,
    Value := fun _ _ => 0, X := fun _ _ => 0, Eqn_number := fun _ => 0,
    Hanging_pt := fun _ => none }

/-- An environment for `rebuild_from_sons` of the father of the example, a
four-node line element with nodes at the fractions 0, 1/3, 2/3 and 1: no
neighbour supplies a node, the sons of tree 0 are the trees 1 and 2, the
elements at the addresses 10 and 11 are spectral elements whose interpolants
are `x = (a + s) / 4` and the single value `10 * t + s`, where `a` is the
address of the element; one time stepper with two history values. -/
def environment (is_algebraic : Bool) : RefineableQSpectralElement.Rebuild_environment Rat :=
  { PARANOID := false, nnode_1d := 4,
    local_one_d_fraction_of_node := fun n _ => (n : Rat) / 3,
    node_created_by_neighbour := fun _ => (none, false),
    L := 0, R := 1, tree_at := tree_at,
    is_RefineableQSpectralElement := fun a => decide (a = 10 ∨ a = 11),
    get_x := fun a _ s => ((a : Rat) + s) / 4,
    get_interpolated_values := fun _ t s => [10 * (t : Rat) + s],
    is_AlgebraicElementBase := is_algebraic,
    required_nvalue := fun _ => 1,
    ntstorage := fun _ => 2 }

/-- The father of the example with all of its nodes built. -/
def built_state : RefineableQSpectralElement.Rebuild_state Rat :=
  { element := { father with Node_pt := [some 3, some 4, some 5, some 6] },
    node_at := node_at, next_node := 7, mesh_Node_pt := [some 3, some 4, some 5, some 6] }

/-- The father of the example with its two interior nodes missing. -/
def unbuilt_state : RefineableQSpectralElement.Rebuild_state Rat :=
  { element := { father with Node_pt := [some 3, none, none, some 6] },
    node_at := node_at, next_node := 7, mesh_Node_pt := [some 3, some 6] }

/-- A store of nodes with a hanging node: the node at address 2 hangs in the
values 0 and 1, with the masters 1 and 9 for value 0 and the masters 1 and 8
for value 1 (weights 1/2); its own values are constrained. The values of the
nodes 1 and 9 are free, those of node 8 are pinned. -/
def hanging_node_at (a : Nat) : Node Rat :=
  { Obsolete := false, Time_stepper_pt := 0, Nvalue := 2,
    Value := fun _ _ => 0, X := fun _ _ => 0,
    Eqn_number := fun i =>
      if a = 1 then 4 + (i : Int) else if a = 9 then 7 + (i : Int)
      else if a = 8 then -1 else -2,
    Hanging_pt := fun i =>
      if a = 2 then
        (if i = 0 then some [(1, 1 / 2), (9, 1 / 2)]
         else if i = 1 then some [(1, 1 / 2), (8, 1 / 2)] else none)
      else none }

/-- An element with the nodes 1 and 2 of `hanging_node_at`. -/
def hanging_element : RefineableElement := RefineableElement.construct [some 1, some 2]

/-- The ordinary local numbering of `hanging_element`: the two free values of
its node 1 are the local equations 0 and 1, the values of its hanging node 2
have no local equation. -/
def ordinary : RefineableElement.Local_numbering :=
  { Ndof := 2, Nodal_local_eqn := fun n i => if n = 0 then (i : Int) else -1 }

/-- A time stepper with two rows of three weights: `Weight(i,j) = 3 i + j + 1`. -/
def time_stepper : TimeStepper Int :=
  { Time_pt := none,
    Weight := { N := 2, M := 3, entry := fun i j => 3 * (i : Int) + (j : Int) + 1 },
    Type_ := "BDF", Adaptive_Flag := false, Is_steady := false }

/-- A `Data` with two values, the second of which is a copy; `value(t,j)` is
`10 t + j`. -/
def data : Data Int :=
  { Nvalue := 2, Value := fun t j => 10 * (t : Int) + (j : Int), Is_a_copy := fun j => decide (j = 1) }

/-- An adaptive `BDF<1>` with the weights of the backward Euler scheme for a
unit timestep: the first derivative is `value(0,j) - value(1,j)`. -/
def adaptive_bdf : BDF Int :=
  { Time_pt := none,
    Weight :=
      { N := 2, M := 4,
        entry := fun i j =>
          if i = 0 ∧ j = 0 then 1 else if i = 1 ∧ j = 0 then 1
          else if i = 1 ∧ j = 1 then -1 else 0 },
    Type_ := "BDF", Adaptive_Flag := true, Is_steady := false,
    NSTEPS := 1, Predictor_weight := [0, 0, 0] }

/-- Ten rows on three processors, in blocks of 4, 0 and 6 rows. -/
def distribution : LinearAlgebraDistribution :=
  { Nrow := 10, Nrow_local := [4, 0, 6], First_row := [0, 4, 4], Distributed := true,
    Comm_pt := some { nproc := 3, my_rank := 0 } }

/-- More rows than an `int` can count: `2^31 + 6` rows on two processors, in
blocks of 1 and `2^31 + 5` rows. -/
def large_distribution : LinearAlgebraDistribution :=
  { Nrow := 2147483654, Nrow_local := [1, 2147483653], First_row := [0, 1],
    Distributed := true, Comm_pt := some { nproc := 2, my_rank := 0 } }

/-- The father of the example with its vertex node 0 missing. -/
def vertexless_state : RefineableQSpectralElement.Rebuild_state Rat :=
  { element := { father with Node_pt := [none, none, none, some 6] },
    node_at := node_at, next_node := 7, mesh_Node_pt := [some 6] }

/-- A disk-like object with the single region 1, identified by the point
`(0, 0)`. -/
def disk : DiskLikeGeomObjectWithBoundaries Rat :=
  { Zeta_in_region := fun k => if k = 1 then some [0, 0] else none }

/-- A disk-like object without regions. -/
def plain_disk : DiskLikeGeomObjectWithBoundaries Rat :=
  { Zeta_in_region := fun _ => none }

end Example

/-! ## Theorems -/

namespace RefineableElement

/-! ### Machine integers -/

theorem unsigned_of_int_of_unsigned (u : Nat) (h : u < UNSIGNED_RANGE) :
    unsigned_of_int (int_of_unsigned u) = u := by
  unfold unsigned_of_int int_of_unsigned UNSIGNED_RANGE at *
  rw [Nat.mod_eq_of_lt h]
  split <;> omega

/-! ### `split` -/

theorem split_loop_length (new_ELEMENT : RefineableElement) (lvl : Int) (todo i : Nat)
    (v : List (Option RefineableElement)) :
    (split_loop new_ELEMENT lvl todo i v).length = v.length := by
  induction todo generalizing i v with
  | zero => rfl
  | succ k ih => simp [split_loop, ih]

theorem split_loop_get (new_ELEMENT : RefineableElement) (lvl : Int) (todo i : Nat)
    (v : List (Option RefineableElement)) (hlen : i + todo ≤ v.length) (j : Nat) :
    (split_loop new_ELEMENT lvl todo i v).get? j =
      if i ≤ j ∧ j < i + todo then some (some (new_ELEMENT.set_refinement_level lvl))
      else v.get? j := by
  induction todo generalizing i v with
  | zero =>
      have h3 : ¬ (i ≤ j ∧ j < i + 0) := by omega
      simp only [split_loop, if_neg h3]
  | succ k ih =>
      have h1 : i + 1 + k ≤ (v.set i (some (new_ELEMENT.set_refinement_level lvl))).length := by
        simp; omega
      rw [split_loop, ih (i + 1) _ h1]
      by_cases hj : j = i
      · subst hj
        have : j < v.length := by omega
        simp [List.getElem?_set, this]
      · have hne : i ≠ j := fun h => hj h.symm
        by_cases h2 : i + 1 ≤ j ∧ j < i + 1 + k
        · have h3 : i ≤ j ∧ j < i + (k + 1) := by omega
          simp [h2, h3]
        · have h3 : ¬ (i ≤ j ∧ j < i + (k + 1)) := by omega
          simp [h2, h3, List.getElem?_set, hne]

theorem resize_length {α : Type} (v : List (Option α)) (n : Nat) : (resize v n).length = n := by
  simp [resize]; omega

theorem split_sons_eq (father : RefineableElement) (n_sons : Nat) (new_ELEMENT : RefineableElement)
    (son_pt : List (Option RefineableElement)) :
    (father.split n_sons new_ELEMENT son_pt).2 =
      List.replicate n_sons (some (new_ELEMENT.set_refinement_level
        (int_of_unsigned (unsigned_add father.Refine_level 1)))) := by
  apply List.ext_get?
  intro j
  have hlen : 0 + n_sons ≤ (resize son_pt n_sons).length := by rw [resize_length]; omega
  simp only [split]
  rw [split_loop_get _ _ _ _ _ hlen]
  by_cases hj : j < n_sons
  · simp [hj, List.getElem?_replicate]
  · have h1 : (resize son_pt n_sons).length ≤ j := by rw [resize_length]; omega
    simp [hj, List.getElem?_replicate, List.getElem?_eq_none h1]

/-- C1 (as amended): for a father of refinement level `L` with `L + 1`
representable as an `unsigned`, `split` returns exactly `n_sons` sons, each
the freshly constructed element with its refinement level set to `L + 1`,
and leaves the father as it was; with the default `required_nsons()` the
vector of sons is empty. -/
theorem split_sons_one_level_up (father : RefineableElement) (n_sons : Nat)
    (new_ELEMENT : RefineableElement) (son_pt : List (Option RefineableElement))
    (hL : father.refinement_level + 1 < UNSIGNED_RANGE) :
    (father.split n_sons new_ELEMENT son_pt).2.length = n_sons ∧
    (∀ s ∈ (father.split n_sons new_ELEMENT son_pt).2, ∃ son : RefineableElement,
        s = some son ∧ son.refinement_level = father.refinement_level + 1 ∧
        son = { new_ELEMENT with Refine_level := father.refinement_level + 1 }) ∧
    (father.split n_sons new_ELEMENT son_pt).1 = father ∧
    (father.split required_nsons new_ELEMENT son_pt).2 = [] := by
  have hlvl : unsigned_of_int (int_of_unsigned (unsigned_add father.Refine_level 1)) =
      father.Refine_level + 1 := by
    have h1 : unsigned_add father.Refine_level 1 = father.Refine_level + 1 := by
      unfold unsigned_add
      exact Nat.mod_eq_of_lt hL
    rw [h1]
    exact unsigned_of_int_of_unsigned _ hL
  refine ⟨?_, ?_, rfl, ?_⟩
  · rw [split_sons_eq]; simp
  · intro s hs
    rw [split_sons_eq] at hs
    have hs2 := (List.mem_replicate.mp hs).2
    refine ⟨_, hs2, ?_, ?_⟩
    · simp only [refinement_level, set_refinement_level, hlvl]
    · simp only [refinement_level, set_refinement_level, hlvl]
  · rw [split_sons_eq]; rfl

/-- Witness for C1: a father of level 3 split into two sons. -/
theorem split_sons_one_level_up_witness :
    ((construct [none, none]).set_refinement_level 3).split 2 (construct [none, none]) []
      = ((construct [none, none]).set_refinement_level 3,
         [some ((construct [none, none]).set_refinement_level 4),
          some ((construct [none, none]).set_refinement_level 4)]) ∧
    (((construct [none, none]).set_refinement_level 3).split 2
        (construct [none, none]) []).2.length = 2 :=
  ⟨by decide,
   (split_sons_one_level_up ((construct [none, none]).set_refinement_level 3) 2
      (construct [none, none]) [] (by decide)).1⟩

/-- Counterexample to C1 as stated: a father whose refinement level is the
largest `unsigned` (reached by `set_refinement_level(-1)`) gets sons of
refinement level 0, not `L + 1`. -/
theorem split_level_wraps_at_max :
    ((construct []).set_refinement_level (-1)).refinement_level = 4294967295 ∧
    ¬ (∀ s ∈ (((construct []).set_refinement_level (-1)).split 2 (construct []) []).2,
        ∃ son : RefineableElement, s = some son ∧
          son.refinement_level =
            ((construct []).set_refinement_level (-1)).refinement_level + 1) := by
  refine ⟨by decide, ?_⟩
  intro h
  have hmem : some ((construct []).set_refinement_level 0) ∈
      (((construct []).set_refinement_level (-1)).split 2 (construct []) []).2 := by decide
  obtain ⟨son, hson, hlvl⟩ := h _ hmem
  cases hson
  revert hlvl
  decide

/-! ### Selection flags -/

/-- C5: each of the four selection operations sets its own flag, leaves every
other member of the element unchanged, and is idempotent. -/
theorem selection_operations_are_flag_setters (e : RefineableElement) :
    (e.select_for_refinement.to_be_refined = true ∧
     e.deselect_for_refinement.to_be_refined = false ∧
     e.select_sons_for_unrefinement.sons_to_be_unrefined = true ∧
     e.deselect_sons_for_unrefinement.sons_to_be_unrefined = false) ∧
    (e.select_for_refinement = { e with To_be_refined := true } ∧
     e.deselect_for_refinement = { e with To_be_refined := false } ∧
     e.select_sons_for_unrefinement = { e with Sons_to_be_unrefined := true } ∧
     e.deselect_sons_for_unrefinement = { e with Sons_to_be_unrefined := false }) ∧
    (∀ op ∈ [select_for_refinement, deselect_for_refinement],
        (op e).sons_to_be_unrefined = e.sons_to_be_unrefined ∧
        (op e).refinement_level = e.refinement_level ∧
        (op e).number = e.number ∧ (op e).tree_pt = e.tree_pt) ∧
    (∀ op ∈ [select_sons_for_unrefinement, deselect_sons_for_unrefinement],
        (op e).to_be_refined = e.to_be_refined ∧
        (op e).refinement_level = e.refinement_level ∧
        (op e).number = e.number ∧ (op e).tree_pt = e.tree_pt) ∧
    (∀ op ∈ [select_for_refinement, deselect_for_refinement,
              select_sons_for_unrefinement, deselect_sons_for_unrefinement],
        op (op e) = op e) := by
  refine ⟨⟨rfl, rfl, rfl, rfl⟩, ⟨rfl, rfl, rfl, rfl⟩, ?_, ?_, ?_⟩
  · intro op hop
    simp only [List.mem_cons, List.mem_singleton, List.mem_nil_iff, or_false] at hop
    rcases hop with rfl | rfl <;> exact ⟨rfl, rfl, rfl, rfl⟩
  · intro op hop
    simp only [List.mem_cons, List.mem_singleton, List.mem_nil_iff, or_false] at hop
    rcases hop with rfl | rfl <;> exact ⟨rfl, rfl, rfl, rfl⟩
  · intro op hop
    simp only [List.mem_cons, List.mem_singleton, List.mem_nil_iff, or_false] at hop
    rcases hop with rfl | rfl | rfl | rfl <;> rfl

/-! ### `father_element_pt` -/

/-- C6 (amended): `father_element_pt()` returns on every input; it is null
exactly when the element has no tree, or its tree has no father, or the
father of its tree stores a null object pointer; whenever the tree has a
father it returns the object pointer stored in that father. Hence, when the
father of the tree stores an element object, it is null exactly when the
element has no tree or its tree has no father, and else it is that object. -/
theorem father_element_pt_null_iff_no_father_object (tree_at : Nat → Tree)
    (e : RefineableElement) :
    (e.father_element_pt tree_at = none ↔
      (e.Tree_pt = none ∨ ∃ t, e.Tree_pt = some t ∧
        ((tree_at t).Father_pt = none ∨
          ∃ f, (tree_at t).Father_pt = some f ∧ (tree_at f).Object_pt = none))) ∧
    (∀ t f, e.Tree_pt = some t → (tree_at t).Father_pt = some f →
      e.father_element_pt tree_at = (tree_at f).Object_pt) ∧
    ((∀ t f, e.Tree_pt = some t → (tree_at t).Father_pt = some f →
        (tree_at f).Object_pt ≠ none) →
      (e.father_element_pt tree_at = none ↔
        (e.Tree_pt = none ∨ ∃ t, e.Tree_pt = some t ∧ (tree_at t).Father_pt = none)) ∧
      ∀ t f, e.Tree_pt = some t → (tree_at t).Father_pt = some f →
        ∃ father, e.father_element_pt tree_at = some father ∧
          (tree_at f).Object_pt = some father) := by
  unfold father_element_pt
  cases ht : e.Tree_pt with
  | none => simp
  | some t =>
      cases hf : (tree_at t).Father_pt with
      | none =>
          refine ⟨by simp [hf], ?_, ?_⟩
          · intro t1 f1 ht1 hf1
            cases ht1
            rw [hf] at hf1
            cases hf1
          · intro _
            refine ⟨by simp [hf], ?_⟩
            intro t1 f1 ht1 hf1
            cases ht1
            rw [hf] at hf1
            cases hf1
      | some f =>
          refine ⟨by simp [hf], ?_, ?_⟩
          · intro t1 f1 ht1 hf1
            cases ht1
            rw [hf] at hf1
            cases hf1
            simp only [hf]
          · intro hobj
            have h := hobj t f rfl hf
            obtain ⟨obj, hobj2⟩ := Option.ne_none_iff_exists'.mp h
            refine ⟨by simp [hf, hobj2], ?_⟩
            intro t1 f1 ht1 hf1
            cases ht1
            rw [hf] at hf1
            cases hf1
            exact ⟨obj, by simp only [hf, hobj2], hobj2⟩

/-- Witness for C6: element 10 sits in tree 1, whose father is tree 0, which
stores element 20. -/
theorem father_element_pt_null_iff_no_father_object_witness :
    ({ construct [] with Tree_pt := some 1 } : RefineableElement).father_element_pt
      (fun t => if t = 1 then ⟨some 0, [], some 10⟩ else ⟨none, [some 1], some 20⟩)
      = (⟨none, [some 1], some 20⟩ : Tree).Object_pt :=
  (father_element_pt_null_iff_no_father_object
      (fun t => if t = 1 then ⟨some 0, [], some 10⟩ else ⟨none, [some 1], some 20⟩)
      { construct [] with Tree_pt := some 1 }).2.1 1 0 rfl rfl

/-- Counterexample to C6 as stated: element 10 sits in tree 1, whose father
is tree 0, so it has a tree and its tree is not a root; tree 0 stores a null
object pointer, and `father_element_pt()` is null. -/
theorem father_element_pt_null_for_non_root :
    ({ construct [] with Tree_pt := some 1 } : RefineableElement).Tree_pt = some 1 ∧
    ((fun t => if t = 1 then ⟨some 0, [], some 10⟩ else ⟨none, [some 1], none⟩ : Nat → Tree)
      1).Father_pt = some 0 ∧
    ({ construct [] with Tree_pt := some 1 } : RefineableElement).father_element_pt
      (fun t => if t = 1 then ⟨some 0, [], some 10⟩ else ⟨none, [some 1], none⟩) = none :=
  ⟨rfl, rfl, rfl⟩

/-! ### `local_hang_eqn` -/

/-- C9: with range checking compiled in, `local_hang_eqn` throws (its range
error) exactly for `i > ncont_interpolated_values()`; in particular the index
`i = ncont_interpolated_values()`, which is outside `0 .. ncont-1`, raises no
error: for two continuously interpolated values and two maps the call with
`i = 2` reads past the end of the array of maps. -/
theorem local_hang_eqn_range_check_off_by_one (ncont : Nat) (e : RefineableElement)
    (node_pt : Nat) :
    (∀ i, (∃ err, e.local_hang_eqn true ncont node_pt i = .thrown err) ↔ ncont < i) ∧
    (∀ i, ncont < i → e.local_hang_eqn true ncont node_pt i =
        .thrown (.Range_Error i ((ncont + (UNSIGNED_RANGE - 1)) % UNSIGNED_RANGE))) ∧
    (∀ err, e.local_hang_eqn true ncont node_pt ncont ≠ .thrown err) ∧
    ({ construct [some 7] with Local_hang_eqn := some [[], []] } : RefineableElement).local_hang_eqn
      true 2 7 2 = .unchecked := by
  have hthrow : ∀ i, ncont < i → e.local_hang_eqn true ncont node_pt i =
      .thrown (.Range_Error i ((ncont + (UNSIGNED_RANGE - 1)) % UNSIGNED_RANGE)) := by
    intro i hi
    simp [local_hang_eqn, hi]
  have hnot : ∀ i, ¬ ncont < i → ∀ err, e.local_hang_eqn true ncont node_pt i ≠ .thrown err := by
    intro i hi err
    simp only [local_hang_eqn, gt_iff_lt, hi, decide_False, Bool.and_false]
    cases e.Local_hang_eqn with
    | none => simp
    | some maps =>
        cases hm : maps[i]? with
        | none => simp [hm]
        | some m => simp [hm]
  refine ⟨?_, hthrow, hnot ncont (lt_irrefl _), by decide⟩
  intro i
  constructor
  · rintro ⟨err, herr⟩
    by_contra hi
    exact hnot i hi err herr
  · intro hi
    exact ⟨_, hthrow i hi⟩

/-! ### `nodes_built` -/

/-- C10: the base class `nodes_built()` looks at node 0 only: it returns true
as soon as the first node pointer is non-null. For an element whose node 0 is
built and whose node 1 is not, it returns true while the overload of
`RefineableQSpectralElement<1>`, which tests every node, returns false. -/
theorem nodes_built_tests_node_zero_only :
    (∀ (e : RefineableElement) (a : Nat) (rest : List (Option Nat)),
        e.Node_pt = some a :: rest → e.nodes_built = .returned true) ∧
    (construct [some 7, none]).nodes_built = .returned true ∧
    RefineableQSpectralElement.nodes_built (construct [some 7, none]) = false := by
  refine ⟨?_, by decide, by decide⟩
  intro e a rest h
  simp [nodes_built, h]

/-! ### `unbuild` -/

theorem get_node_number_from_nonneg_iff (p : Option Nat) (l : List (Option Nat)) (i : Nat) :
    0 ≤ get_node_number_from p l i ↔ p ∈ l := by
  induction l generalizing i with
  | nil => simp [get_node_number_from]
  | cons q rest ih =>
      unfold get_node_number_from
      by_cases h : p = q
      · simp [h]
      · simp [h, ih]

theorem unbuild_loop_spec {D : Type} (father : RefineableElement) (l : List (Option Nat))
    (node_at : Nat → Node D) (hbuilt : none ∉ l) :
    ∃ node_at1, unbuild_loop father l node_at = .returned node_at1 ∧
      (∀ a, some a ∈ l → 0 ≤ father.get_node_number (some a) →
        (node_at1 a).Obsolete = false) ∧
      (∀ a, ¬ (some a ∈ l ∧ 0 ≤ father.get_node_number (some a)) →
        node_at1 a = node_at a) ∧
      (∀ a, (node_at1 a).Obsolete = true → (node_at a).Obsolete = true) := by
  induction l generalizing node_at with
  | nil => exact ⟨node_at, rfl, by simp, by simp, by simp⟩
  | cons p rest ih =>
      have hrest : none ∉ rest := fun h => hbuilt (List.mem_cons_of_mem _ h)
      cases p with
      | none => exact absurd (List.mem_cons_self _ _) hbuilt
      | some a0 =>
          by_cases hsh : 0 ≤ father.get_node_number (some a0)
          · obtain ⟨n1, h1, h2, h3, h4⟩ :=
              ih (fun b => if b = a0 then (node_at a0).set_non_obsolete else node_at b) hrest
            refine ⟨n1, ?_, ?_, ?_, ?_⟩
            · simp only [unbuild_loop, ge_iff_le, hsh, if_true]
              exact h1
            · intro a ha hfa
              by_cases hin : some a ∈ rest
              · exact h2 a hin hfa
              · have ha0 : a = a0 := by
                  rcases List.mem_cons.mp ha with h | h
                  · exact Option.some.inj h
                  · exact absurd h hin
                subst ha0
                rw [h3 a (fun h => hin h.1)]
                simp [Node.set_non_obsolete]
            · intro a ha
              have hne : a ≠ a0 := by
                intro h
                subst h
                exact ha ⟨List.mem_cons_self _ _, hsh⟩
              rw [h3 a (fun h => ha ⟨List.mem_cons_of_mem _ h.1, h.2⟩)]
              simp [hne]
            · intro a ha
              have := h4 a ha
              by_cases hne : a = a0
              · subst hne
                simp [Node.set_non_obsolete] at this
              · simpa [hne] using this
          · obtain ⟨n1, h1, h2, h3, h4⟩ := ih node_at hrest
            refine ⟨n1, ?_, ?_, ?_, h4⟩
            · simp only [unbuild_loop, ge_iff_le, hsh, if_false]
              exact h1
            · intro a ha hfa
              rcases List.mem_cons.mp ha with h | h
              · cases h
                exact absurd hfa hsh
              · exact h2 a h hfa
            · intro a ha
              exact h3 a (fun h => ha ⟨List.mem_cons_of_mem _ h.1, h.2⟩)

/-- C3: for an element with a father element (and with its own node pointers
non-null), `unbuild()` returns, and afterwards every node of the element
that is also a node of the father (`get_node_number` of the father is not
negative) is non-obsolete, whatever it was before; for an element without
father element (no tree, or a tree without father) `unbuild()` returns the
store of nodes unchanged. -/
theorem unbuild_keeps_fathers_nodes {D : Type} (tree_at : Nat → Tree)
    (element_at : Nat → RefineableElement) (e : RefineableElement) (node_at : Nat → Node D) :
    (none ∉ e.Node_pt → ∀ father_pt, e.father_element_pt tree_at = some father_pt →
      ∃ node_at1, e.unbuild tree_at element_at node_at = .returned node_at1 ∧
        ∀ a, some a ∈ e.Node_pt → (element_at father_pt).get_node_number (some a) ≥ 0 →
          (node_at1 a).is_obsolete = false) ∧
    (e.father_element_pt tree_at = none →
      e.unbuild tree_at element_at node_at = .returned node_at) ∧
    (e.Tree_pt = none → e.unbuild tree_at element_at node_at = .returned node_at) ∧
    (∀ t, e.Tree_pt = some t → (tree_at t).Father_pt = none →
      e.unbuild tree_at element_at node_at = .returned node_at) := by
  have hnone : e.father_element_pt tree_at = none →
      e.unbuild tree_at element_at node_at = .returned node_at := by
    intro h
    simp [unbuild, h]
  refine ⟨?_, hnone, ?_, ?_⟩
  · intro hbuilt father_pt hf
    obtain ⟨n1, h1, h2, _, _⟩ := unbuild_loop_spec (element_at father_pt) e.Node_pt node_at hbuilt
    exact ⟨n1, by simp [unbuild, hf, h1], fun a ha hfa => h2 a ha hfa⟩
  · intro h
    exact hnone (by simp [father_element_pt, h])
  · intro t ht hft
    exact hnone (by simp [father_element_pt, ht, hft])

/-- Witness for C3: in the example the son shares node 3 with its father;
node 3 is obsolete before the call and non-obsolete after it. -/
theorem unbuild_keeps_fathers_nodes_witness :
    (Example.node_at 3).is_obsolete = true ∧
    ∃ node_at1, Example.son.unbuild Example.tree_at Example.element_at Example.node_at
        = .returned node_at1 ∧
      ∀ a, some a ∈ Example.son.Node_pt →
        (Example.element_at 20).get_node_number (some a) ≥ 0 →
          (node_at1 a).is_obsolete = false :=
  ⟨rfl, (unbuild_keeps_fathers_nodes Example.tree_at Example.element_at Example.son
      Example.node_at).1 (by decide) 20 rfl⟩

theorem unbuild_loop_never_marks {D : Type} (father : RefineableElement)
    (l : List (Option Nat)) (node_at node_at1 : Nat → Node D)
    (h : unbuild_loop father l node_at = .returned node_at1) (a : Nat)
    (ha : (node_at1 a).Obsolete = true) : (node_at a).Obsolete = true := by
  induction l generalizing node_at with
  | nil =>
      simp only [unbuild_loop, Outcome.returned.injEq] at h
      rw [h]; exact ha
  | cons p rest ih =>
      unfold unbuild_loop at h
      by_cases hsh : father.get_node_number p ≥ 0
      · rw [if_pos hsh] at h
        cases p with
        | none => simp at h
        | some a0 =>
            have := ih _ h
            by_cases hne : a = a0
            · subst hne
              simp [Node.set_non_obsolete] at this
            · simpa [hne] using this
      · rw [if_neg hsh] at h
        exact ih _ h

/-- C4: `unbuild()` never marks a node as obsolete: a node that is obsolete
after the call was obsolete before it. So a node of the element that is not
shared with the father and was not obsolete before the call is not obsolete
after it either. -/
theorem unbuild_never_marks_obsolete {D : Type} (tree_at : Nat → Tree)
    (element_at : Nat → RefineableElement) (e : RefineableElement)
    (node_at node_at1 : Nat → Node D)
    (h : e.unbuild tree_at element_at node_at = .returned node_at1) :
    ∀ a, (node_at1 a).is_obsolete = true → (node_at a).is_obsolete = true := by
  intro a ha
  unfold unbuild at h
  cases hf : e.father_element_pt tree_at with
  | none =>
      rw [hf] at h
      simp only [Outcome.returned.injEq] at h
      rw [h]; exact ha
  | some f =>
      rw [hf] at h
      exact unbuild_loop_never_marks _ _ _ _ h a ha

/-- Failing input for C4: the son of the example has a father element; its
node 5 is not a node of the father and is not obsolete before `unbuild()`;
it is not obsolete after the call. -/
theorem unbuild_never_marks_obsolete_witness :
    Example.son.father_element_pt Example.tree_at = some 20 ∧
    some 5 ∈ Example.son.Node_pt ∧
    (Example.element_at 20).get_node_number (some 5) = -1 ∧
    ∃ node_at1, Example.son.unbuild Example.tree_at Example.element_at Example.node_at
        = .returned node_at1 ∧ (node_at1 5).is_obsolete = false := by
  refine ⟨rfl, by decide, by decide, _, rfl, ?_⟩
  have h := unbuild_never_marks_obsolete Example.tree_at Example.element_at Example.son
    Example.node_at _ rfl 5
  by_contra hc
  have h2 := h (by simpa using hc)
  revert h2
  decide

/-! ### `assign_hanging_local_eqn_numbers` -/

theorem lookup_hang_eqn_set (maps : List (List (Nat × Int))) (j m : Nat) (v : Int)
    (map_j : List (Nat × Int)) (hj : maps[j]? = some map_j) (j1 m1 : Nat) :
    lookup_hang_eqn (maps.set j ((m, v) :: map_j)) j1 m1 =
      if j1 = j ∧ m1 = m then some v else lookup_hang_eqn maps j1 m1 := by
  have hlt : j < maps.length := by
    by_contra hc
    rw [List.getElem?_eq_none (by omega)] at hj
    cases hj
  unfold lookup_hang_eqn
  by_cases hjj : j1 = j
  · subst hjj
    by_cases hmm : m1 = m
    · subst hmm
      simp [List.getElem?_set, hlt, List.lookup_cons]
    · have hb : (m1 == m) = false := by simpa using hmm
      simp [List.getElem?_set, hlt, List.lookup_cons, hb, hmm, hj]
  · have hne : ¬ j = j1 := fun h => hjj h.symm
    simp [List.getElem?_set, hne, hjj]

/-- Entering a new master in the look-up scheme keeps it consistent. -/
theorem Hanging_numbering_ok_insert {D : Type} (e : RefineableElement) (node_at : Nat → Node D)
    (ordinary : Local_numbering) (ncont : Nat) (s : Hanging_numbering)
    (hs : Hanging_numbering_ok e node_at ordinary ncont s) (j m : Nat) (v : Int)
    (map_j : List (Nat × Int)) (hj : s.Local_hang_eqn[j]? = some map_j)
    (hnew : map_j.lookup m = none) (counter : Nat) (queue : List Int)
    (hcounter : s.local_eqn_number ≤ counter)
    (hlocal : some m ∈ e.Node_pt →
      v = ordinary.Nodal_local_eqn (find_local_node_index m e.Node_pt) j)
    (hfree : some m ∉ e.Node_pt → 0 ≤ (node_at m).Eqn_number j →
      v = (s.local_eqn_number : Int) ∧ counter = s.local_eqn_number + 1)
    (hpinned : some m ∉ e.Node_pt → (node_at m).Eqn_number j < 0 → v = -1) :
    Hanging_numbering_ok e node_at ordinary ncont
      { Local_hang_eqn := s.Local_hang_eqn.set j ((m, v) :: map_j),
        local_eqn_number := counter, global_eqn_number_queue := queue } := by
  have hold : lookup_hang_eqn s.Local_hang_eqn j m = none := by
    simp [lookup_hang_eqn, hj, hnew]
  have hndof := hs.first_free
  constructor
  · simp [hs.size]
  · exact le_trans hs.first_free hcounter
  · intro j1 m1 v1 h1
    simp only [lookup_hang_eqn_set _ _ _ _ _ hj] at h1
    by_cases hc : j1 = j ∧ m1 = m
    · obtain ⟨rfl, rfl⟩ := hc
      simp only [and_self, if_true, Option.some.injEq] at h1
      subst h1
      by_cases hin : some m1 ∈ e.Node_pt
      · exact Or.inl ⟨hin, hlocal hin⟩
      · by_cases hfr : 0 ≤ (node_at m1).Eqn_number j1
        · obtain ⟨e1, e2⟩ := hfree hin hfr
          refine Or.inr (Or.inl ⟨hin, hfr, ?_, ?_⟩)
          · rw [e1]; exact_mod_cast hndof
          · rw [e1, e2]; push_cast; omega
        · exact Or.inr (Or.inr ⟨hin, by omega, hpinned hin (by omega)⟩)
    · rw [if_neg hc] at h1
      rcases hs.entry j1 m1 v1 h1 with h | ⟨a, b, c, d⟩ | h
      · exact Or.inl h
      · refine Or.inr (Or.inl ⟨a, b, c, ?_⟩)
        have : (s.local_eqn_number : Int) ≤ (counter : Int) := by exact_mod_cast hcounter
        show v1 < (counter : Int)
        omega
      · exact Or.inr (Or.inr h)
  · intro j1 m1 j2 m2 v1 h1 h2 n1 n2 f1 f2
    simp only [lookup_hang_eqn_set _ _ _ _ _ hj] at h1 h2
    have hlt : ∀ j3 m3 v3, lookup_hang_eqn s.Local_hang_eqn j3 m3 = some v3 →
        some m3 ∉ e.Node_pt → 0 ≤ (node_at m3).Eqn_number j3 →
        v3 < (s.local_eqn_number : Int) := by
      intro j3 m3 v3 h3 n3 f3
      rcases hs.entry j3 m3 v3 h3 with h | ⟨_, _, _, d⟩ | ⟨_, c, _⟩
      · exact absurd h.1 n3
      · exact d
      · omega
    by_cases hc1 : j1 = j ∧ m1 = m
    · by_cases hc2 : j2 = j ∧ m2 = m
      · exact ⟨hc1.1.trans hc2.1.symm, hc1.2.trans hc2.2.symm⟩
      · rw [if_pos hc1] at h1
        rw [if_neg hc2] at h2
        obtain ⟨rfl, rfl⟩ := hc1
        have e1 := (hfree n1 f1).1
        have := hlt j2 m2 v1 h2 n2 f2
        simp only [Option.some.injEq] at h1
        omega
    · by_cases hc2 : j2 = j ∧ m2 = m
      · rw [if_neg hc1] at h1
        rw [if_pos hc2] at h2
        obtain ⟨rfl, rfl⟩ := hc2
        have e1 := (hfree n2 f2).1
        have := hlt j1 m1 v1 h1 n1 f1
        simp only [Option.some.injEq] at h2
        omega
      · rw [if_neg hc1] at h1
        rw [if_neg hc2] at h2
        exact hs.once j1 m1 j2 m2 v1 h1 h2 n1 n2 f1 f2

theorem find_local_node_index_lt (m : Nat) (l : List (Option Nat)) :
    find_local_node_index m l < l.length ↔ some m ∈ l := by
  induction l with
  | nil => simp [find_local_node_index]
  | cons p rest ih =>
      by_cases h : p = some m
      · simp [find_local_node_index, h]
      · have h2 : ¬ some m = p := fun hh => h hh.symm
        simp [find_local_node_index, h, h2, ih]

theorem find_local_node_index_get (m : Nat) (l : List (Option Nat)) (h : some m ∈ l) :
    l[find_local_node_index m l]? = some (some m) := by
  induction l with
  | nil => simp at h
  | cons p rest ih =>
      by_cases hp : p = some m
      · simp [find_local_node_index, hp]
      · have h2 : some m ∈ rest := by
          rcases List.mem_cons.mp h with hh | hh
          · exact absurd hh.symm hp
          · exact hh
        simp [find_local_node_index, hp, ih h2]

/-- One master: afterwards the look-up scheme is consistent, it has kept the
entries it had, and it has an entry for the master. -/
theorem assign_master_eqn_spec {D : Type} (e : RefineableElement) (node_at : Nat → Node D)
    (ordinary : Local_numbering) (ncont : Nat) (s : Hanging_numbering)
    (hs : Hanging_numbering_ok e node_at ordinary ncont s) (j m : Nat) (hj : j < ncont) :
    Hanging_numbering_ok e node_at ordinary ncont (assign_master_eqn e node_at ordinary j m s) ∧
    (∀ j1 m1 v1, lookup_hang_eqn s.Local_hang_eqn j1 m1 = some v1 →
      lookup_hang_eqn (assign_master_eqn e node_at ordinary j m s).Local_hang_eqn j1 m1
        = some v1) ∧
    ∃ v, lookup_hang_eqn (assign_master_eqn e node_at ordinary j m s).Local_hang_eqn j m
      = some v := by
  have hlt : j < s.Local_hang_eqn.length := by rw [hs.size]; exact hj
  have hget : s.Local_hang_eqn[j]? = some s.Local_hang_eqn[j] := List.getElem?_eq_getElem hlt
  generalize s.Local_hang_eqn[j] = map_j at hget
  cases hlook : map_j.lookup m with
  | some v =>
      have hsame : assign_master_eqn e node_at ordinary j m s = s := by
        simp [assign_master_eqn, hget, hlook]
      rw [hsame]
      exact ⟨hs, fun _ _ _ h => h, v, by simp [lookup_hang_eqn, hget, hlook]⟩
  | none =>
      have hold : lookup_hang_eqn s.Local_hang_eqn j m = none := by
        simp [lookup_hang_eqn, hget, hlook]
      have hmono : ∀ (v : Int) j1 m1 v1, lookup_hang_eqn s.Local_hang_eqn j1 m1 = some v1 →
          lookup_hang_eqn (s.Local_hang_eqn.set j ((m, v) :: map_j)) j1 m1 = some v1 := by
        intro v j1 m1 v1 h1
        rw [lookup_hang_eqn_set _ _ _ _ _ hget]
        have hne : ¬ (j1 = j ∧ m1 = m) := by
          rintro ⟨rfl, rfl⟩
          rw [hold] at h1
          cases h1
        rw [if_neg hne]
        exact h1
      have hnew : ∀ (v : Int),
          lookup_hang_eqn (s.Local_hang_eqn.set j ((m, v) :: map_j)) j m = some v := by
        intro v
        rw [lookup_hang_eqn_set _ _ _ _ _ hget]
        simp
      by_cases hloc : find_local_node_index m e.Node_pt < e.nnode
      · have hin : some m ∈ e.Node_pt := (find_local_node_index_lt m e.Node_pt).mp hloc
        have hres : assign_master_eqn e node_at ordinary j m s =
            { Local_hang_eqn := s.Local_hang_eqn.set j
                ((m, ordinary.Nodal_local_eqn (find_local_node_index m e.Node_pt) j) :: map_j),
              local_eqn_number := s.local_eqn_number,
              global_eqn_number_queue := s.global_eqn_number_queue } := by
          simp [assign_master_eqn, hget, hlook, hloc]
        rw [hres]
        exact ⟨Hanging_numbering_ok_insert e node_at ordinary ncont s hs j m _ map_j hget hlook _ _
            (le_refl _) (fun _ => rfl) (fun h => absurd hin h) (fun h => absurd hin h),
          hmono _, _, hnew _⟩
      · have hin : some m ∉ e.Node_pt := fun h => hloc ((find_local_node_index_lt m e.Node_pt).mpr h)
        by_cases hfr : (node_at m).Eqn_number j ≥ 0
        · have hres : assign_master_eqn e node_at ordinary j m s =
              { Local_hang_eqn := s.Local_hang_eqn.set j
                  ((m, (s.local_eqn_number : Int)) :: map_j),
                local_eqn_number := s.local_eqn_number + 1,
                global_eqn_number_queue :=
                  s.global_eqn_number_queue ++ [(node_at m).Eqn_number j] } := by
            simp [assign_master_eqn, hget, hlook, hloc, hfr]
          rw [hres]
          exact ⟨Hanging_numbering_ok_insert e node_at ordinary ncont s hs j m _ map_j hget hlook
              _ _ (Nat.le_succ _) (fun h => absurd h hin) (fun _ _ => ⟨rfl, rfl⟩)
              (fun _ h => by omega),
            hmono _, _, hnew _⟩
        · have hres : assign_master_eqn e node_at ordinary j m s =
              { Local_hang_eqn := s.Local_hang_eqn.set j ((m, -1) :: map_j),
                local_eqn_number := s.local_eqn_number,
                global_eqn_number_queue := s.global_eqn_number_queue } := by
            simp [assign_master_eqn, hget, hlook, hloc, hfr]
          rw [hres]
          exact ⟨Hanging_numbering_ok_insert e node_at ordinary ncont s hs j m _ map_j hget hlook
              _ _ (le_refl _) (fun h => absurd h hin) (fun _ h => by omega) (fun _ _ => rfl),
            hmono _, _, hnew _⟩

theorem master_loop_spec {D : Type} (e : RefineableElement) (node_at : Nat → Node D)
    (ordinary : Local_numbering) (ncont : Nat) (j : Nat) (hj : j < ncont)
    (hang_info : List (Nat × D)) (s : Hanging_numbering)
    (hs : Hanging_numbering_ok e node_at ordinary ncont s) :
    Hanging_numbering_ok e node_at ordinary ncont (master_loop e node_at ordinary j hang_info s) ∧
    (∀ j1 m1 v1, lookup_hang_eqn s.Local_hang_eqn j1 m1 = some v1 →
      lookup_hang_eqn (master_loop e node_at ordinary j hang_info s).Local_hang_eqn j1 m1
        = some v1) ∧
    ∀ master ∈ hang_info, ∃ v,
      lookup_hang_eqn (master_loop e node_at ordinary j hang_info s).Local_hang_eqn j master.1
        = some v := by
  induction hang_info generalizing s with
  | nil => exact ⟨hs, fun _ _ _ h => h, by simp⟩
  | cons mw rest ih =>
      obtain ⟨m, w⟩ := mw
      obtain ⟨a1, a2, v, a3⟩ := assign_master_eqn_spec e node_at ordinary ncont s hs j m hj
      obtain ⟨b1, b2, b3⟩ := ih (assign_master_eqn e node_at ordinary j m s) a1
      refine ⟨b1, fun j1 m1 v1 h => b2 j1 m1 v1 (a2 j1 m1 v1 h), ?_⟩
      intro master hmem
      rcases List.mem_cons.mp hmem with h | h
      · subst h
        exact ⟨v, b2 j m v a3⟩
      · exact b3 master h

theorem value_loop_spec {D : Type} (e : RefineableElement) (node_at : Nat → Node D)
    (ordinary : Local_numbering) (ncont : Nat) (nd : Node D) (todo j0 : Nat)
    (hj : j0 + todo ≤ ncont) (s : Hanging_numbering)
    (hs : Hanging_numbering_ok e node_at ordinary ncont s) :
    Hanging_numbering_ok e node_at ordinary ncont (value_loop e node_at ordinary nd todo j0 s) ∧
    (∀ j1 m1 v1, lookup_hang_eqn s.Local_hang_eqn j1 m1 = some v1 →
      lookup_hang_eqn (value_loop e node_at ordinary nd todo j0 s).Local_hang_eqn j1 m1
        = some v1) ∧
    ∀ j, j0 ≤ j → j < j0 + todo → ∀ hang_info, nd.Hanging_pt j = some hang_info →
      ∀ master ∈ hang_info, ∃ v,
        lookup_hang_eqn (value_loop e node_at ordinary nd todo j0 s).Local_hang_eqn j master.1
          = some v := by
  induction todo generalizing j0 s with
  | zero => exact ⟨hs, fun _ _ _ h => h, fun j h1 h2 => by omega⟩
  | succ k ih =>
      have hstep : Hanging_numbering_ok e node_at ordinary ncont
            (match nd.Hanging_pt j0 with
             | none => s
             | some hang_info => master_loop e node_at ordinary j0 hang_info s) ∧
          (∀ j1 m1 v1, lookup_hang_eqn s.Local_hang_eqn j1 m1 = some v1 →
            lookup_hang_eqn (match nd.Hanging_pt j0 with
              | none => s
              | some hang_info =>
                  master_loop e node_at ordinary j0 hang_info s).Local_hang_eqn j1 m1 = some v1) ∧
          ∀ hang_info, nd.Hanging_pt j0 = some hang_info → ∀ master ∈ hang_info, ∃ v,
            lookup_hang_eqn (match nd.Hanging_pt j0 with
              | none => s
              | some hang_info =>
                  master_loop e node_at ordinary j0 hang_info s).Local_hang_eqn j0 master.1
              = some v := by
        cases hh : nd.Hanging_pt j0 with
        | none => exact ⟨hs, fun _ _ _ h => h, fun _ h => by cases h⟩
        | some hang_info =>
            obtain ⟨a1, a2, a3⟩ :=
              master_loop_spec e node_at ordinary ncont j0 (by omega) hang_info s hs
            refine ⟨a1, a2, fun hi hhi => ?_⟩
            cases hhi
            exact a3
      obtain ⟨a1, a2, a3⟩ := hstep
      obtain ⟨b1, b2, b3⟩ := ih (j0 + 1) (by omega) _ a1
      refine ⟨b1, fun j1 m1 v1 h => b2 j1 m1 v1 (a2 j1 m1 v1 h), ?_⟩
      intro j hj1 hj2 hang_info hh master hmem
      by_cases hjj : j = j0
      · subst hjj
        obtain ⟨v, hv⟩ := a3 hang_info hh master hmem
        exact ⟨v, b2 _ _ _ hv⟩
      · exact b3 j (by omega) (by omega) hang_info hh master hmem

theorem node_loop_spec {D : Type} (e : RefineableElement) (node_at : Nat → Node D)
    (ordinary : Local_numbering) (ncont : Nat) (l : List (Option Nat)) (hbuilt : none ∉ l)
    (s : Hanging_numbering) (hs : Hanging_numbering_ok e node_at ordinary ncont s) :
    ∃ s1, node_loop e node_at ordinary ncont l s = .returned s1 ∧
      Hanging_numbering_ok e node_at ordinary ncont s1 ∧
      (∀ j1 m1 v1, lookup_hang_eqn s.Local_hang_eqn j1 m1 = some v1 →
        lookup_hang_eqn s1.Local_hang_eqn j1 m1 = some v1) ∧
      ∀ a, some a ∈ l → ∀ j, j < ncont → ∀ hang_info,
        (node_at a).Hanging_pt j = some hang_info → ∀ master ∈ hang_info, ∃ v,
          lookup_hang_eqn s1.Local_hang_eqn j master.1 = some v := by
  induction l generalizing s with
  | nil => exact ⟨s, rfl, hs, fun _ _ _ h => h, by simp⟩
  | cons p rest ih =>
      cases p with
      | none => exact absurd (List.mem_cons_self _ _) hbuilt
      | some a0 =>
          obtain ⟨a1, a2, a3⟩ :=
            value_loop_spec e node_at ordinary ncont (node_at a0) ncont 0 (by omega) s hs
          obtain ⟨s1, b0, b1, b2, b3⟩ :=
            ih (fun h => hbuilt (List.mem_cons_of_mem _ h)) _ a1
          refine ⟨s1, by simp only [node_loop]; exact b0, b1,
            fun j1 m1 v1 h => b2 j1 m1 v1 (a2 j1 m1 v1 h), ?_⟩
          intro a ha j hj hang_info hh master hmem
          rcases List.mem_cons.mp ha with h | h
          · cases h
            obtain ⟨v, hv⟩ := a3 j (Nat.zero_le _) (by omega) hang_info hh master hmem
            exact ⟨v, b2 _ _ _ hv⟩
          · exact b3 a h j hj hang_info hh master hmem

theorem mem_hanging_master_dofs {D : Type} (node_at : Nat → Node D) (ncont : Nat)
    (e : RefineableElement) (jm : Nat × Nat) (h : jm ∈ hanging_master_dofs node_at ncont e) :
    ∃ a, some a ∈ e.Node_pt ∧ jm.1 < ncont ∧ ∃ hang_info,
      (node_at a).Hanging_pt jm.1 = some hang_info ∧ ∃ master ∈ hang_info, master.1 = jm.2 := by
  unfold hanging_master_dofs at h
  obtain ⟨p, hp, h1⟩ := List.mem_flatMap.mp h
  cases p with
  | none => simp at h1
  | some a =>
      obtain ⟨j, hj, h2⟩ := List.mem_flatMap.mp h1
      cases hh : (node_at a).Hanging_pt j with
      | none => simp [hh] at h2
      | some hang_info =>
          simp only [hh, List.mem_map] at h2
          obtain ⟨master, hm, rfl⟩ := h2
          exact ⟨a, hp, List.mem_range.mp hj, hang_info, hh, master, hm, rfl⟩

theorem mem_free_master_dofs {D : Type} (node_at : Nat → Node D) (ncont : Nat)
    (e : RefineableElement) (jm : Nat × Nat) (h : jm ∈ free_master_dofs node_at ncont e) :
    jm ∈ hanging_master_dofs node_at ncont e ∧ 0 ≤ (node_at jm.2).Eqn_number jm.1 := by
  unfold free_master_dofs at h
  have h1 := List.mem_dedup.mp h
  have h2 := List.mem_filter.mp h1
  exact ⟨h2.1, by simpa using h2.2⟩

theorem local_hang_eqn_of_lookup (RANGE_CHECKING : Bool) (ncont : Nat) (e : RefineableElement)
    (maps : List (List (Nat × Int))) (he : e.Local_hang_eqn = some maps) (j m : Nat) (v : Int)
    (hj : j < ncont) (hv : lookup_hang_eqn maps j m = some v) :
    ∃ e2, e.local_hang_eqn RANGE_CHECKING ncont m j = .returned (v, e2) := by
  have hnot : ¬ j > ncont := by omega
  unfold lookup_hang_eqn at hv
  cases hm : maps[j]? with
  | none => simp [hm] at hv
  | some map_j =>
      simp only [hm] at hv
      refine ⟨{ e with Local_hang_eqn := some (maps.set j map_j) }, ?_⟩
      simp [local_hang_eqn, hnot, he, hm, map_index, hv]

/-- C2: when the nodes of the element are built and the ordinary local
numbering gives the free values at the element's own nodes pairwise distinct
non-negative local equation numbers below `Ndof`, the numbering pass returns
and the K genuinely free master degrees of freedom that the hanging nodes
reach have K pairwise distinct non-negative local equation numbers, each
returned by `local_hang_eqn(master_node, j)`. -/
theorem hanging_local_eqn_numbers_distinct {D : Type} (node_at : Nat → Node D) (ncont : Nat)
    (ordinary : Local_numbering) (e : RefineableElement) (RANGE_CHECKING : Bool)
    (hbuilt : none ∉ e.Node_pt)
    (hord_range : ∀ l a j, e.Node_pt[l]? = some (some a) → j < ncont →
      0 ≤ (node_at a).Eqn_number j →
      0 ≤ ordinary.Nodal_local_eqn l j ∧ ordinary.Nodal_local_eqn l j < (ordinary.Ndof : Int))
    (hord_inj : ∀ l a j l1 a1 j1, e.Node_pt[l]? = some (some a) →
      e.Node_pt[l1]? = some (some a1) → j < ncont → j1 < ncont →
      0 ≤ (node_at a).Eqn_number j → 0 ≤ (node_at a1).Eqn_number j1 →
      ordinary.Nodal_local_eqn l j = ordinary.Nodal_local_eqn l1 j1 → a = a1 ∧ j = j1) :
    ∃ e1 numbering queue,
      e.assign_all_generic_local_eqn_numbers node_at ncont ordinary
        = .returned (e1, numbering, queue) ∧
      ∃ eqns : List Int,
        List.Forall₂
          (fun jm v => ∃ e2, e1.local_hang_eqn RANGE_CHECKING ncont jm.2 jm.1 = .returned (v, e2))
          (free_master_dofs node_at ncont e) eqns ∧
        eqns.length = (free_master_dofs node_at ncont e).length ∧
        eqns.Nodup ∧ ∀ v ∈ eqns, 0 ≤ v := by
  by_cases hn : e.nnode > 0
  · have hinit : Hanging_numbering_ok e node_at ordinary ncont
        { Local_hang_eqn := List.replicate ncont [], local_eqn_number := ordinary.Ndof,
          global_eqn_number_queue := [] } := by
      have hnone : ∀ j m, lookup_hang_eqn (List.replicate ncont ([] : List (Nat × Int))) j m
          = none := by
        intro j m
        unfold lookup_hang_eqn
        by_cases hj : j < ncont
        · simp [List.getElem?_replicate, hj]
        · simp [List.getElem?_replicate, hj]
      constructor
      · simp
      · exact le_refl _
      · intro j m v h
        rw [hnone] at h
        cases h
      · intro j m j1 m1 v h
        rw [hnone] at h
        cases h
    obtain ⟨s1, r1, r2, _, r4⟩ := node_loop_spec e node_at ordinary ncont e.Node_pt hbuilt _ hinit
    have hcover : ∀ jm ∈ free_master_dofs node_at ncont e, ∃ v,
        lookup_hang_eqn s1.Local_hang_eqn jm.1 jm.2 = some v ∧ jm.1 < ncont ∧
        0 ≤ (node_at jm.2).Eqn_number jm.1 := by
      intro jm hjm
      obtain ⟨h1, h2⟩ := mem_free_master_dofs node_at ncont e jm hjm
      obtain ⟨a, ha, hj, hang_info, hh, master, hmem, hmm⟩ :=
        mem_hanging_master_dofs node_at ncont e jm h1
      obtain ⟨v, hv⟩ := r4 a ha jm.1 hj hang_info hh master hmem
      exact ⟨v, by rw [← hmm]; exact hv, hj, h2⟩
    -- the free masters have non-negative numbers, below `Ndof` exactly for local masters
    have hclass : ∀ j m v, lookup_hang_eqn s1.Local_hang_eqn j m = some v → j < ncont →
        0 ≤ (node_at m).Eqn_number j →
        0 ≤ v ∧ ((some m ∈ e.Node_pt ∧ v < (ordinary.Ndof : Int) ∧
            v = ordinary.Nodal_local_eqn (find_local_node_index m e.Node_pt) j) ∨
          (some m ∉ e.Node_pt ∧ (ordinary.Ndof : Int) ≤ v)) := by
      intro j m v hv hj hf
      rcases r2.entry j m v hv with ⟨c1, c2⟩ | ⟨c1, _, c3, _⟩ | ⟨_, c2, _⟩
      · have := hord_range _ m j (find_local_node_index_get m e.Node_pt c1) hj hf
        rw [← c2] at this
        exact ⟨this.1, Or.inl ⟨c1, this.2, c2⟩⟩
      · exact ⟨by omega, Or.inr ⟨c1, c3⟩⟩
      · omega
    refine ⟨{ e with Local_hang_eqn := some s1.Local_hang_eqn },
      { ordinary with Ndof := s1.local_eqn_number }, s1.global_eqn_number_queue, ?_,
      (free_master_dofs node_at ncont e).map
        (fun jm => (lookup_hang_eqn s1.Local_hang_eqn jm.1 jm.2).getD 0), ?_, by simp, ?_, ?_⟩
    · simp [assign_all_generic_local_eqn_numbers, assign_hanging_local_eqn_numbers, hn, r1,
        Outcome.bind]
    · rw [List.forall₂_map_right_iff, List.forall₂_same]
      intro jm hjm
      obtain ⟨v, hv, hj, _⟩ := hcover jm hjm
      rw [hv]
      exact local_hang_eqn_of_lookup RANGE_CHECKING ncont _ s1.Local_hang_eqn rfl jm.1 jm.2 v hj hv
    · apply List.Nodup.map_on _ (List.nodup_dedup _)
      intro x hx y hy hxy
      obtain ⟨v, hv, hj, hf⟩ := hcover x hx
      obtain ⟨w, hw, hj1, hf1⟩ := hcover y hy
      rw [hv, hw] at hxy
      simp only [Option.getD_some] at hxy
      subst hxy
      obtain ⟨_, cx⟩ := hclass _ _ _ hv hj hf
      obtain ⟨_, cy⟩ := hclass _ _ _ hw hj1 hf1
      rcases cx with ⟨x1, x2, x3⟩ | ⟨x1, x2⟩
      · rcases cy with ⟨y1, y2, y3⟩ | ⟨y1, y2⟩
        · have := hord_inj _ x.2 x.1 _ y.2 y.1 (find_local_node_index_get x.2 e.Node_pt x1)
            (find_local_node_index_get y.2 e.Node_pt y1) hj hj1 hf hf1 (by rw [← x3, ← y3])
          exact Prod.ext this.2 this.1
        · omega
      · rcases cy with ⟨y1, y2, y3⟩ | ⟨y1, y2⟩
        · omega
        · have := r2.once x.1 x.2 y.1 y.2 v hv hw x1 y1 hf hf1
          exact Prod.ext this.1 this.2
    · intro v hv
      obtain ⟨jm, hjm, rfl⟩ := List.mem_map.mp hv
      obtain ⟨w, hw, hj, hf⟩ := hcover jm hjm
      rw [hw]
      exact (hclass _ _ _ hw hj hf).1
  · have hnil : e.Node_pt = [] := by
      cases hl : e.Node_pt with
      | nil => rfl
      | cons p rest => exact absurd (by simp [nnode, hl]) hn
    have hF : free_master_dofs node_at ncont e = [] := by
      simp [free_master_dofs, hanging_master_dofs, hnil]
    refine ⟨e, ordinary, [], ?_, [], ?_, by simp [hF], List.nodup_nil, by simp⟩
    · simp [assign_all_generic_local_eqn_numbers, assign_hanging_local_eqn_numbers, hn]
    · rw [hF]
      exact List.Forall₂.nil

/-- Witness for C2: in the example the hanging node 2 reaches the three free
master degrees of freedom (0, node 1), (0, node 9) and (1, node 1); they get
three pairwise distinct non-negative local equation numbers. -/
theorem hanging_local_eqn_numbers_distinct_witness :
    free_master_dofs Example.hanging_node_at 2 Example.hanging_element = [(0, 1), (0, 9), (1, 1)] ∧
    ∃ e1 numbering queue,
      Example.hanging_element.assign_all_generic_local_eqn_numbers Example.hanging_node_at 2
        Example.ordinary = .returned (e1, numbering, queue) ∧
      ∃ eqns : List Int,
        List.Forall₂
          (fun jm v => ∃ e2, e1.local_hang_eqn true 2 jm.2 jm.1 = .returned (v, e2))
          (free_master_dofs Example.hanging_node_at 2 Example.hanging_element) eqns ∧
        eqns.length = (free_master_dofs Example.hanging_node_at 2 Example.hanging_element).length ∧
        eqns.Nodup ∧ ∀ v ∈ eqns, 0 ≤ v := by
  refine ⟨by decide, hanging_local_eqn_numbers_distinct Example.hanging_node_at 2
    Example.ordinary Example.hanging_element true (by decide) ?_ ?_⟩
  · intro l a j hl hj hf
    rcases l with _ | _ | l
    · cases hl
      have : j = 0 ∨ j = 1 := by omega
      rcases this with rfl | rfl <;> decide
    · cases hl
      revert hf
      simp [Example.hanging_node_at]
    · simp [Example.hanging_element, construct] at hl
  · intro l a j l1 a1 j1 hl hl1 hj hj1 hf hf1 heq
    rcases l with _ | _ | l
    · rcases l1 with _ | _ | l1
      · cases hl
        cases hl1
        have h1 : j = 0 ∨ j = 1 := by omega
        have h2 : j1 = 0 ∨ j1 = 1 := by omega
        rcases h1 with rfl | rfl <;> rcases h2 with rfl | rfl <;>
          simp [Example.ordinary] at heq ⊢
      · cases hl1
        revert hf1
        simp [Example.hanging_node_at]
      · simp [Example.hanging_element, construct] at hl1
    · cases hl
      revert hf
      simp [Example.hanging_node_at]
    · simp [Example.hanging_element, construct] at hl

end RefineableElement

namespace RefineableQSpectralElement

/-! ### `rebuild_from_sons` -/

@[simp] theorem bind_returned {α β : Type} (a : α) (f : α → Outcome β) :
    (Outcome.returned a).bind f = f a := rfl

@[simp] theorem bind_thrown {α β : Type} (e : OomphLibError) (f : α → Outcome β) :
    (Outcome.thrown e : Outcome α).bind f = .thrown e := rfl

@[simp] theorem bind_unchecked {α β : Type} (f : α → Outcome β) :
    (Outcome.unchecked : Outcome α).bind f = .unchecked := rfl

theorem bind_eq_returned {α β : Type} (x : Outcome α) (f : α → Outcome β) (b : β)
    (h : x.bind f = .returned b) : ∃ a, x = .returned a ∧ f a = .returned b := by
  cases x with
  | returned a => exact ⟨a, rfl, h⟩
  | thrown e => simp at h
  | unchecked => simp at h

theorem set_values_loop_spec {D : Type} (prev_values : List D) (t todo v : Nat) (nd : Node D)
    (hlen : v + todo ≤ prev_values.length) :
    ∃ nd1, set_values_loop prev_values t todo v nd = .returned nd1 ∧
      nd1.Nvalue = nd.Nvalue ∧ nd1.X = nd.X ∧
      (∀ v1, v ≤ v1 → v1 < v + todo → prev_values[v1]? = some (nd1.Value t v1)) ∧
      (∀ t1 v1, ¬ (t1 = t ∧ v ≤ v1 ∧ v1 < v + todo) → nd1.Value t1 v1 = nd.Value t1 v1) := by
  induction todo generalizing v nd with
  | zero => exact ⟨nd, rfl, rfl, rfl, fun v1 h1 h2 => by omega, fun _ _ _ => rfl⟩
  | succ k ih =>
      have hv : v < prev_values.length := by omega
      obtain ⟨nd1, h1, h2, h3, h4, h5⟩ :=
        ih (v + 1) (nd.set_value t v prev_values[v]) (by omega)
      refine ⟨nd1, ?_, ?_, ?_, ?_, ?_⟩
      · simp only [set_values_loop, List.getElem?_eq_getElem hv]
        exact h1
      · rw [h2]; rfl
      · rw [h3]; rfl
      · intro v1 hv1 hv2
        by_cases hvv : v1 = v
        · subst hvv
          rw [h5 t v1 (by omega)]
          simp [Node.set_value, List.getElem?_eq_getElem hv]
        · exact h4 v1 (by omega) (by omega)
      · intro t1 v1 hn
        rw [h5 t1 v1 (by omega)]
        have : ¬ (t1 = t ∧ v1 = v) := by omega
        simp [Node.set_value, this]

theorem history_loop_spec {D : Type} (env : Rebuild_environment D) (son : Nat) (s : D)
    (todo t : Nat) (nd : Node D)
    (hvals : ∀ t1, t ≤ t1 → t1 < t + todo →
      nd.Nvalue ≤ (env.get_interpolated_values son t1 s).length) :
    ∃ nd1, history_loop env (some son) s todo t nd = .returned nd1 ∧
      nd1.Nvalue = nd.Nvalue ∧
      (∀ t1, t ≤ t1 → t1 < t + todo →
        nd1.X t1 0 = env.get_x son t1 s ∧
        ∀ v, v < nd.Nvalue →
          (env.get_interpolated_values son t1 s)[v]? = some (nd1.Value t1 v)) ∧
      (∀ t1 i, ¬ (t ≤ t1 ∧ t1 < t + todo) →
        nd1.X t1 i = nd.X t1 i ∧ nd1.Value t1 i = nd.Value t1 i) := by
  induction todo generalizing t nd with
  | zero => exact ⟨nd, rfl, rfl, fun t1 h1 h2 => by omega, fun _ _ _ => ⟨rfl, rfl⟩⟩
  | succ k ih =>
      have hN : (nd.set_x t 0 (env.get_x son t s)).Nvalue = nd.Nvalue := rfl
      obtain ⟨nd2, g1, g2, g3, g4, g5⟩ :=
        set_values_loop_spec (env.get_interpolated_values son t s) t nd.Nvalue 0
          (nd.set_x t 0 (env.get_x son t s)) (by have := hvals t (le_refl _) (by omega); omega)
      have hN2 : nd2.Nvalue = nd.Nvalue := by rw [g2]; rfl
      obtain ⟨nd1, h1, h2, h3, h4⟩ := ih (t + 1) nd2
        (fun t1 ht1 ht2 => by rw [hN2]; exact hvals t1 (by omega) (by omega))
      refine ⟨nd1, ?_, ?_, ?_, ?_⟩
      · simp only [history_loop, Node.nvalue, hN, g1, bind_returned]
        exact h1
      · rw [h2, hN2]
      · intro t1 ht1 ht2
        by_cases htt : t1 = t
        · subst htt
          have hfr := h4 t1
          constructor
          · rw [(hfr 0 (by omega)).1, g3]
            simp [Node.set_x]
          · intro v hv
            rw [(hfr v (by omega)).2]
            exact g4 v (by omega) (by omega)
        · have := h3 t1 (by omega) (by omega)
          refine ⟨this.1, fun v hv => this.2 v (by rw [hN2]; exact hv)⟩
      · intro t1 i hn
        have hfr := h4 t1 i (by omega)
        rw [hfr.1, hfr.2, g3, g5 t1 i (by omega)]
        have : ¬ (t1 = t ∧ i = 0) := by omega
        simp [Node.set_x, Node.set_value, this]

theorem son_el_pt_congr {D : Type} (env : Rebuild_environment D) (e1 e2 : RefineableElement) (son : Nat)
    (h : e1.Tree_pt = e2.Tree_pt) : son_el_pt env e1 son = son_el_pt env e2 son := by
  simp only [son_el_pt, RefineableElement.tree_pt, h]

variable {D : Type} [OfScientific D] [Neg D] [Add D] [Sub D] [Mul D] [LT D]
  [DecidableRel (fun a b : D => a < b)]

/-- On built nodes the loop does nothing. -/
theorem rebuild_loop_of_built (env : Rebuild_environment D) (ts nt n_node todo n : Nat)
    (st : Rebuild_state D)
    (h : ∀ m, n ≤ m → m < n + todo → ∃ a, st.element.Node_pt[m]? = some (some a)) :
    rebuild_loop env ts nt n_node todo n st = .returned st := by
  induction todo generalizing n with
  | zero => rfl
  | succ k ih =>
      obtain ⟨a, ha⟩ := h n (le_refl _) (by omega)
      have h1 : rebuild_node env ts nt n_node n st = .returned st := by
        simp [rebuild_node, ha]
      rw [rebuild_loop, h1, bind_returned]
      exact ih (n + 1) (fun m hm1 hm2 => h m (by omega) (by omega))

/-- An algebraic element does not get past an unbuilt node. -/
theorem rebuild_node_algebraic (env : Rebuild_environment D) (ts nt n_node n : Nat)
    (st : Rebuild_state D) (halg : env.is_AlgebraicElementBase = true)
    (hn : st.element.Node_pt[n]? = some none) :
    (∀ st1, rebuild_node env ts nt n_node n st ≠ .returned st1) ∧
    (∀ st1, handle_unbuilt_node env ts nt n_node n (env.local_one_d_fraction_of_node n 0) st
        = .returned st1 →
      rebuild_node env ts nt n_node n st =
        .thrown .Not_implemented_for_algebraic_spectral_elements) := by
  constructor
  · intro st1 h
    simp only [rebuild_node, hn, halg, if_true] at h
    cases hh : handle_unbuilt_node env ts nt n_node n (env.local_one_d_fraction_of_node n 0) st with
    | returned a => rw [hh] at h; simp at h
    | thrown e => rw [hh] at h; simp at h
    | unchecked => rw [hh] at h; simp at h
  · intro st1 h
    simp [rebuild_node, hn, halg, h]

/-- For an algebraic element, a loop that returns has met built nodes only. -/
theorem rebuild_loop_algebraic_returned (env : Rebuild_environment D) (ts nt n_node todo n : Nat)
    (st st1 : Rebuild_state D) (halg : env.is_AlgebraicElementBase = true)
    (h : rebuild_loop env ts nt n_node todo n st = .returned st1) :
    st1 = st ∧ ∀ m, n ≤ m → m < n + todo → ∃ a, st.element.Node_pt[m]? = some (some a) := by
  induction todo generalizing n with
  | zero =>
      simp only [rebuild_loop, Outcome.returned.injEq] at h
      exact ⟨h.symm, fun m h1 h2 => by omega⟩
  | succ k ih =>
      rw [rebuild_loop] at h
      obtain ⟨s2, hs2, hrest⟩ := bind_eq_returned _ _ _ h
      cases hn : st.element.Node_pt[n]? with
      | none => simp [rebuild_node, hn] at hs2
      | some p =>
          cases p with
          | none => exact absurd hs2 ((rebuild_node_algebraic env ts nt n_node n st halg hn).1 s2)
          | some a =>
              have h1 : s2 = st := by
                simp only [rebuild_node, hn, Outcome.returned.injEq] at hs2
                exact hs2.symm
              subst h1
              obtain ⟨e1, e2⟩ := ih (n + 1) hrest
              refine ⟨e1, fun m hm1 hm2 => ?_⟩
              by_cases hmn : m = n
              · subst hmn; exact ⟨a, hn⟩
              · exact e2 m (by omega) (by omega)

theorem rebuild_loop_skip_built (env : Rebuild_environment D) (ts nt n_node k todo n : Nat)
    (st : Rebuild_state D)
    (h : ∀ m, n ≤ m → m < n + k → ∃ a, st.element.Node_pt[m]? = some (some a)) :
    rebuild_loop env ts nt n_node (k + todo) n st =
      rebuild_loop env ts nt n_node todo (n + k) st := by
  induction k generalizing n with
  | zero => simp
  | succ j ih =>
      obtain ⟨a, ha⟩ := h n (le_refl _) (by omega)
      have h1 : rebuild_node env ts nt n_node n st = .returned st := by
        simp [rebuild_node, ha]
      have e1 : j + 1 + todo = (j + todo) + 1 := by omega
      rw [e1, rebuild_loop, h1, bind_returned, ih (n + 1) (fun m hm1 hm2 => h m (by omega) (by omega))]
      congr 1
      omega

/-- The branch that builds node `n`: under the stated conditions it returns,
the new node sits at the next free address, carries the son's positions and
values, and is appended to the mesh. -/
theorem build_node_spec (env : Rebuild_environment D) (ts nt n_node n : Nat) (s_fraction : D)
    (st : Rebuild_state D) (son : Nat)
    (hson : son_el_pt env st.element (son_and_coordinate env s_fraction).1 = .returned (some son))
    (hpar : env.PARANOID = true →
      n ≠ 0 ∧ n ≠ (n_node + (UNSIGNED_RANGE - 1)) % UNSIGNED_RANGE)
    (hvals : ∀ t, t < nt → env.required_nvalue n ≤
      (env.get_interpolated_values son t (son_and_coordinate env s_fraction).2).length) :
    ∃ nd : Node D,
      build_node env ts nt n_node n s_fraction st = .returned
        { element := { st.element with Node_pt := st.element.Node_pt.set n (some st.next_node) },
          node_at := fun a => if a = st.next_node then nd else st.node_at a,
          next_node := st.next_node + 1,
          mesh_Node_pt := st.mesh_Node_pt ++ [some st.next_node] } ∧
      nd.Nvalue = env.required_nvalue n ∧
      ∀ t, t < nt →
        nd.X t 0 = env.get_x son t (son_and_coordinate env s_fraction).2 ∧
        ∀ v, v < env.required_nvalue n →
          (env.get_interpolated_values son t (son_and_coordinate env s_fraction).2)[v]? =
            some (nd.Value t v) := by
  obtain ⟨nd, h1, h2, h3, _⟩ :=
    history_loop_spec env son (son_and_coordinate env s_fraction).2 nt 0
      (constructed_node env n ts) (fun t _ ht => hvals t (by omega))
  have hN : nd.Nvalue = env.required_nvalue n := by rw [h2]; rfl
  refine ⟨nd, ?_, hN, fun t ht => ?_⟩
  · have hp : (env.PARANOID &&
        (n == 0 || n == (n_node + (UNSIGNED_RANGE - 1)) % UNSIGNED_RANGE)) = false := by
      cases hP : env.PARANOID with
      | false => rfl
      | true =>
          obtain ⟨p1, p2⟩ := hpar hP
          simp [p1, p2]
    simp only [build_node, hson, bind_returned, hp, h1]
    rfl
  · exact h3 t (by omega) (by omega)

/-- One pass of the loop body on node `n` of a non-algebraic element: it
returns; a built node is left alone, a node supplied by a (non-periodic)
neighbour is taken over, and a node the element has to construct is built at
the next free address and appended to the mesh. -/
theorem rebuild_node_spec (env : Rebuild_environment D) (ts nt n_node n : Nat)
    (st : Rebuild_state D) (halg : env.is_AlgebraicElementBase = false)
    (hlen : n < st.element.Node_pt.length)
    (hper : st.element.Node_pt[n]? = some none → ∀ c,
      env.node_created_by_neighbour (env.local_one_d_fraction_of_node n 0) ≠ (some c, true))
    (hbuild : st.element.Node_pt[n]? = some none →
      (env.node_created_by_neighbour (env.local_one_d_fraction_of_node n 0)).1 = none →
      (env.PARANOID = true → n ≠ 0 ∧ n ≠ (n_node + (UNSIGNED_RANGE - 1)) % UNSIGNED_RANGE) ∧
      ∃ son, son_el_pt env st.element
          (son_and_coordinate env (env.local_one_d_fraction_of_node n 0)).1 = .returned (some son) ∧
        ∀ t, t < nt → env.required_nvalue n ≤ (env.get_interpolated_values son t
          (son_and_coordinate env (env.local_one_d_fraction_of_node n 0)).2).length) :
    ∃ st1, rebuild_node env ts nt n_node n st = .returned st1 ∧
      st1.element.Tree_pt = st.element.Tree_pt ∧
      st1.element.Node_pt.length = st.element.Node_pt.length ∧
      (∀ m, m ≠ n → st1.element.Node_pt[m]? = st.element.Node_pt[m]?) ∧
      (∀ a, a < st.next_node → st1.node_at a = st.node_at a) ∧
      ((st1.next_node = st.next_node ∧ st1.mesh_Node_pt = st.mesh_Node_pt ∧
          ¬ (st.element.Node_pt[n]? = some none ∧
            (env.node_created_by_neighbour (env.local_one_d_fraction_of_node n 0)).1 = none)) ∨
       (st.element.Node_pt[n]? = some none ∧
        (env.node_created_by_neighbour (env.local_one_d_fraction_of_node n 0)).1 = none ∧
        st1.next_node = st.next_node + 1 ∧
        st1.mesh_Node_pt = st.mesh_Node_pt ++ [some st.next_node] ∧
        st1.element.Node_pt[n]? = some (some st.next_node) ∧
        (st1.node_at st.next_node).Nvalue = env.required_nvalue n ∧
        ∃ son, son_el_pt env st.element
            (son_and_coordinate env (env.local_one_d_fraction_of_node n 0)).1
              = .returned (some son) ∧
          ∀ t, t < nt →
            (st1.node_at st.next_node).X t 0 = env.get_x son t
              (son_and_coordinate env (env.local_one_d_fraction_of_node n 0)).2 ∧
            ∀ v, v < env.required_nvalue n →
              (env.get_interpolated_values son t
                (son_and_coordinate env (env.local_one_d_fraction_of_node n 0)).2)[v]? =
                some ((st1.node_at st.next_node).Value t v))) := by
  cases hn : st.element.Node_pt[n]? with
  | none =>
      have := List.getElem?_eq_none_iff.mp hn
      omega
  | some p =>
      cases p with
      | some a =>
          refine ⟨st, by simp [rebuild_node, hn], rfl, rfl, fun _ _ => rfl, fun _ _ => rfl, ?_⟩
          left
          exact ⟨rfl, rfl, by simp⟩
      | none =>
          cases hc : env.node_created_by_neighbour (env.local_one_d_fraction_of_node n 0) with
          | mk created is_periodic =>
              cases created with
              | some c =>
                  have hp : is_periodic = false := by
                    cases is_periodic with
                    | false => rfl
                    | true => exact absurd hc (hper hn c)
                  subst hp
                  refine ⟨{ st with element :=
                      { st.element with Node_pt := st.element.Node_pt.set n (some c) } },
                    by simp [rebuild_node, hn, handle_unbuilt_node, hc, halg], rfl, by simp,
                    fun m hm => ?_, fun _ _ => rfl, ?_⟩
                  · simp [List.getElem?_set, Ne.symm hm]
                  · left
                    exact ⟨rfl, rfl, by simp⟩
              | none =>
                  obtain ⟨hpar, son, hson, hvals⟩ := hbuild hn (by rw [hc])
                  obtain ⟨nd, b1, b2, b3⟩ := build_node_spec env ts nt n_node n
                    (env.local_one_d_fraction_of_node n 0) st son hson hpar hvals
                  have hr : rebuild_node env ts nt n_node n st = .returned
                      { element := { st.element with
                          Node_pt := st.element.Node_pt.set n (some st.next_node) },
                        node_at := fun a => if a = st.next_node then nd else st.node_at a,
                        next_node := st.next_node + 1,
                        mesh_Node_pt := st.mesh_Node_pt ++ [some st.next_node] } := by
                    simp [rebuild_node, hn, handle_unbuilt_node, hc, halg, b1]
                  refine ⟨_, hr, rfl, by simp, fun m hm => ?_, fun a ha => ?_, ?_⟩
                  · simp [List.getElem?_set, Ne.symm hm]
                  · have : a ≠ st.next_node := by omega
                    simp [this]
                  · right
                    refine ⟨rfl, rfl, rfl, rfl, ?_, ?_, son, hson, ?_⟩
                    · simp [List.getElem?_set, hlen]
                    · simpa using b2
                    · simpa using b3

/-- The loop over the nodes `n0 .. n0 + todo - 1` of a non-algebraic
element: it returns; every node the element has to construct is built at a
fresh address, carries the data of its son and is appended to the mesh once;
nothing below the first free address is touched. -/
theorem rebuild_loop_spec (env : Rebuild_environment D) (ts nt n_node : Nat)
    (halg : env.is_AlgebraicElementBase = false) (todo n0 : Nat) (st : Rebuild_state D)
    (hlen : n0 + todo ≤ st.element.Node_pt.length)
    (hper : ∀ n, n0 ≤ n → n < n0 + todo → st.element.Node_pt[n]? = some none → ∀ c,
      env.node_created_by_neighbour (env.local_one_d_fraction_of_node n 0) ≠ (some c, true))
    (hbuild : ∀ n, n0 ≤ n → n < n0 + todo → has_to_construct env st.element n →
      can_construct env st.element nt n_node n) :
    ∃ st1 added, rebuild_loop env ts nt n_node todo n0 st = .returned st1 ∧
      st1.element.Tree_pt = st.element.Tree_pt ∧
      st1.element.Node_pt.length = st.element.Node_pt.length ∧
      (∀ m, ¬ (n0 ≤ m ∧ m < n0 + todo) → st1.element.Node_pt[m]? = st.element.Node_pt[m]?) ∧
      st.next_node ≤ st1.next_node ∧
      (∀ a, a < st.next_node → st1.node_at a = st.node_at a) ∧
      st1.mesh_Node_pt = st.mesh_Node_pt ++ added ∧
      (∀ x ∈ added, ∃ a, x = some a ∧ st.next_node ≤ a ∧ a < st1.next_node) ∧
      (∀ n, n0 ≤ n → n < n0 + todo → has_to_construct env st.element n →
        ∃ a son, st1.element.Node_pt[n]? = some (some a) ∧
          st.next_node ≤ a ∧ a < st1.next_node ∧
          son_el_pt env st.element
            (son_and_coordinate env (env.local_one_d_fraction_of_node n 0)).1
              = .returned (some son) ∧
          (st1.node_at a).Nvalue = env.required_nvalue n ∧
          carries_son_data env nt (env.required_nvalue n) son
            (son_and_coordinate env (env.local_one_d_fraction_of_node n 0)).2 (st1.node_at a) ∧
          added.count (some a) = 1) := by
  induction todo generalizing n0 st with
  | zero =>
      exact ⟨st, [], rfl, rfl, rfl, fun _ _ => rfl, le_refl _, fun _ _ => rfl, by simp,
        by simp, fun n h1 h2 => by omega⟩
  | succ k ih =>
      obtain ⟨s1, r1, rT, rL, rN, rA, rcase⟩ := rebuild_node_spec env ts nt n_node n0 st halg
        (by omega) (hper n0 (le_refl _) (by omega))
        (fun h1 h2 => hbuild n0 (le_refl _) (by omega) ⟨h1, h2⟩)
      have hsame : ∀ n, n0 + 1 ≤ n → s1.element.Node_pt[n]? = st.element.Node_pt[n]? :=
        fun n hn => rN n (by omega)
      have hson : ∀ son, son_el_pt env s1.element son = son_el_pt env st.element son :=
        fun son => son_el_pt_congr env _ _ son rT
      obtain ⟨s2, added2, q1, qT, qL, qN, qX, qA, qM, qB, qC⟩ := ih (n0 + 1) s1
        (by rw [rL]; omega)
        (fun n h1 h2 hnn => hper n (by omega) (by omega) (by rw [← hsame n h1]; exact hnn))
        (fun n h1 h2 hc => by
          have hc2 : has_to_construct env st.element n := by
            unfold has_to_construct at hc ⊢
            rw [← hsame n h1]; exact hc
          have := hbuild n (by omega) (by omega) hc2
          unfold can_construct at this ⊢
          simpa only [hson] using this)
      -- what the first pass added to the mesh
      have hA : ∃ added1, s1.mesh_Node_pt = st.mesh_Node_pt ++ added1 ∧
          st.next_node ≤ s1.next_node ∧
          (∀ x ∈ added1, x = some st.next_node ∧ s1.next_node = st.next_node + 1) ∧
          (has_to_construct env st.element n0 → added1 = [some st.next_node]) := by
        rcases rcase with ⟨c1, c2, c3⟩ | ⟨c1, c2, c3, c4, _⟩
        · exact ⟨[], by simp [c2], by omega, by simp, fun h => absurd h c3⟩
        · exact ⟨[some st.next_node], c4, by omega, by simp [c3], fun _ => rfl⟩
      obtain ⟨added1, a1, a2, a3, a4⟩ := hA
      refine ⟨s2, added1 ++ added2, ?_, by rw [qT, rT], by rw [qL, rL], ?_, by omega, ?_, ?_, ?_, ?_⟩
      · rw [rebuild_loop, r1, bind_returned]; exact q1
      · intro m hm
        rw [qN m (by omega), rN m (by omega)]
      · intro a ha
        rw [qA a (by omega), rA a ha]
      · rw [qM, a1, List.append_assoc]
      · intro x hx
        rcases List.mem_append.mp hx with h | h
        · obtain ⟨e1, e2⟩ := a3 x h
          exact ⟨st.next_node, e1, le_refl _, by omega⟩
        · obtain ⟨a, e1, e2, e3⟩ := qB x h
          exact ⟨a, e1, by omega, e3⟩
      · intro n hn1 hn2 hc
        by_cases hn0 : n = n0
        · subst hn0
          rcases rcase with ⟨_, _, c3⟩ | ⟨_, _, c3, c4, c5, c6, son, c7, c8⟩
          · exact absurd hc c3
          · have hadd := a4 hc
            have hnode : s2.node_at st.next_node = s1.node_at st.next_node := qA _ (by omega)
            refine ⟨st.next_node, son, ?_, le_refl _, by omega, c7, ?_, ?_, ?_⟩
            · rw [qN n (by omega)]; exact c5
            · rw [hnode]; exact c6
            · rw [hnode]; exact c8
            · rw [List.count_append, hadd]
              have : added2.count (some st.next_node) = 0 := by
                apply List.count_eq_zero.mpr
                intro hmem
                obtain ⟨a, e1, e2, _⟩ := qB _ hmem
                cases e1
                omega
              simp [this]
        · have hc2 : has_to_construct env s1.element n := by
            unfold has_to_construct at hc ⊢
            rw [hsame n (by omega)]; exact hc
          obtain ⟨a, son, p1, p2, p3, p4, p5, p6, p7⟩ := qC n (by omega) (by omega) hc2
          refine ⟨a, son, p1, by omega, p3, by rw [← hson]; exact p4, p5, p6, ?_⟩
          rw [List.count_append, p7]
          have : added1.count (some a) = 0 := by
            apply List.count_eq_zero.mpr
            intro hmem
            obtain ⟨e1, e2⟩ := a3 _ hmem
            cases e1
            omega
          simp [this]

/-- C7: for a non-algebraic element whose node 0 exists, whose neighbours
supply no periodic node and whose nodes to construct can be constructed,
`rebuild_from_sons` returns, and every node `n` that the element has to
construct itself (not built, not supplied by a neighbour) is then a node at a
fresh address which holds, for every history value `t < ntstorage` and every
value `v < nvalue`, entry `v` of the selected son's
`get_interpolated_values(t,s_in_son)` as `value(t,v)` and the son's
`get_x(t,s_in_son)` as `x(t,0)`, and which the call has added to the mesh
exactly once. -/
theorem rebuild_from_sons_copies_son_data (env : Rebuild_environment D)
    (st : Rebuild_state D) (node_0 : Nat)
    (h0 : st.element.Node_pt[0]? = some (some node_0))
    (halg : env.is_AlgebraicElementBase = false)
    (hlen : env.nnode_1d ≤ st.element.Node_pt.length)
    (hper : ∀ n, n < env.nnode_1d → st.element.Node_pt[n]? = some none → ∀ c,
      env.node_created_by_neighbour (env.local_one_d_fraction_of_node n 0) ≠ (some c, true))
    (hbuild : ∀ n, n < env.nnode_1d → has_to_construct env st.element n →
      can_construct env st.element (env.ntstorage (st.node_at node_0).Time_stepper_pt)
        env.nnode_1d n) :
    ∃ st1 added, rebuild_from_sons env st = .returned st1 ∧
      st1.mesh_Node_pt = st.mesh_Node_pt ++ added ∧
      ∀ n, n < env.nnode_1d → st.element.Node_pt[n]? = some none →
        (env.node_created_by_neighbour (env.local_one_d_fraction_of_node n 0)).1 = none →
        ∃ a son_el, st1.element.Node_pt[n]? = some (some a) ∧
          st.next_node ≤ a ∧
          son_el_pt env st.element
            (son_and_coordinate env (env.local_one_d_fraction_of_node n 0)).1
              = .returned (some son_el) ∧
          (∀ t, t < env.ntstorage (st.node_at node_0).Time_stepper_pt →
            ∀ v, v < (st1.node_at a).nvalue →
              (env.get_interpolated_values son_el t
                (son_and_coordinate env (env.local_one_d_fraction_of_node n 0)).2)[v]? =
                some ((st1.node_at a).Value t v)) ∧
          (∀ t, t < env.ntstorage (st.node_at node_0).Time_stepper_pt →
            (st1.node_at a).X t 0 = env.get_x son_el t
              (son_and_coordinate env (env.local_one_d_fraction_of_node n 0)).2) ∧
          added.count (some a) = 1 ∧
          ((∀ b, some b ∈ st.mesh_Node_pt → b < st.next_node) →
            st1.mesh_Node_pt.count (some a) = 1) := by
  obtain ⟨st1, added, q1, _, _, _, _, _, qM, _, qC⟩ :=
    rebuild_loop_spec env (st.node_at node_0).Time_stepper_pt
      (env.ntstorage (st.node_at node_0).Time_stepper_pt) env.nnode_1d halg env.nnode_1d 0 st
      (by omega) (fun n _ h2 => hper n (by omega)) (fun n _ h2 => hbuild n (by omega))
  refine ⟨st1, added, by simp only [rebuild_from_sons, h0]; exact q1, qM, ?_⟩
  intro n hn hnull hnb
  obtain ⟨a, son, p1, p2, _, p4, p5, p6, p7⟩ := qC n (Nat.zero_le _) (by omega) ⟨hnull, hnb⟩
  refine ⟨a, son, p1, p2, p4, ?_, fun t ht => (p6 t ht).1, p7, ?_⟩
  · intro t ht v hv
    exact (p6 t ht).2 v (by rw [Node.nvalue, p5] at hv; exact hv)
  · intro hmesh
    rw [qM, List.count_append, p7]
    have : st.mesh_Node_pt.count (some a) = 0 := by
      apply List.count_eq_zero.mpr
      intro hmem
      have := hmesh a hmem
      omega
    simp [this]

/-- In the example the nodes 1 and 2 can be constructed: node 1 lives in the
left son (element 10), node 2 in the right son (element 11). -/
theorem example_can_construct (is_algebraic : Bool) (n : Nat)
    (hn : n < (Example.environment is_algebraic).nnode_1d)
    (hc : has_to_construct (Example.environment is_algebraic) Example.unbuilt_state.element n) :
    can_construct (Example.environment is_algebraic) Example.unbuilt_state.element
      ((Example.environment is_algebraic).ntstorage
        (Example.unbuilt_state.node_at 3).Time_stepper_pt)
      (Example.environment is_algebraic).nnode_1d n := by
  have hn4 : n < 4 := hn
  interval_cases n
  · simp [has_to_construct, Example.unbuilt_state] at hc
  · refine ⟨by simp [Example.environment], 10, ?_, ?_⟩
    · simp [son_el_pt, son_and_coordinate, Example.environment, Example.unbuilt_state,
        Example.father, RefineableElement.tree_pt, Example.tree_at]
      norm_num
    · intro t ht; simp [Example.environment]
  · refine ⟨by simp [Example.environment], 11, ?_, ?_⟩
    · simp [son_el_pt, son_and_coordinate, Example.environment, Example.unbuilt_state,
        Example.father, RefineableElement.tree_pt, Example.tree_at]
      norm_num
    · intro t ht; simp [Example.environment]
  · simp [has_to_construct, Example.unbuilt_state] at hc

/-- Witness for C7: the father of the example rebuilds its interior node 1
from its left son. -/
theorem rebuild_from_sons_copies_son_data_witness :
    ∃ st1 added,
      rebuild_from_sons (Example.environment false) Example.unbuilt_state = .returned st1 ∧
      st1.mesh_Node_pt = [some 3, some 6] ++ added ∧
      ∃ a son_el, st1.element.Node_pt[1]? = some (some a) ∧ 7 ≤ a ∧
        (∀ t, t < 2 → ∀ v, v < (st1.node_at a).nvalue →
          ((Example.environment false).get_interpolated_values son_el t
            (son_and_coordinate (Example.environment false) ((1 : Rat) / 3)).2)[v]? =
            some ((st1.node_at a).Value t v)) ∧
        (∀ t, t < 2 → (st1.node_at a).X t 0 = (Example.environment false).get_x son_el t
            (son_and_coordinate (Example.environment false) ((1 : Rat) / 3)).2) ∧
        added.count (some a) = 1 := by
  obtain ⟨st1, added, h1, h2, h3⟩ :=
    rebuild_from_sons_copies_son_data (Example.environment false) Example.unbuilt_state 3
      rfl rfl (by decide) (fun n _ _ c h => by simp [Example.environment] at h)
      (example_can_construct false)
  obtain ⟨a, son_el, p1, p2, _, p4, p5, p6, _⟩ := h3 1 (by decide) rfl rfl
  refine ⟨st1, added, h1, h2, a, son_el, p1, p2, ?_, ?_, p6⟩
  · intro t ht v hv
    have := p4 t ht v hv
    simpa [Example.environment] using this
  · intro t ht
    have := p5 t ht
    simpa [Example.environment] using this

theorem handle_unbuilt_node_returns (env : Rebuild_environment D) (ts nt n_node n : Nat)
    (st : Rebuild_state D)
    (hper : ∀ c,
      env.node_created_by_neighbour (env.local_one_d_fraction_of_node n 0) ≠ (some c, true))
    (hbuild : (env.node_created_by_neighbour (env.local_one_d_fraction_of_node n 0)).1 = none →
      can_construct env st.element nt n_node n) :
    ∃ st1, handle_unbuilt_node env ts nt n_node n (env.local_one_d_fraction_of_node n 0) st
      = .returned st1 := by
  cases hc : env.node_created_by_neighbour (env.local_one_d_fraction_of_node n 0) with
  | mk created is_periodic =>
      cases created with
      | some c =>
          have hp : is_periodic = false := by
            cases is_periodic with
            | false => rfl
            | true => exact absurd hc (hper c)
          subst hp
          refine ⟨{ st with element :=
            { st.element with Node_pt := st.element.Node_pt.set n (some c) } }, ?_⟩
          simp [handle_unbuilt_node, hc]
      | none =>
          obtain ⟨hpar, son, hson, hvals⟩ := hbuild (by rw [hc])
          obtain ⟨nd, b1, _, _⟩ := build_node_spec env ts nt n_node n
            (env.local_one_d_fraction_of_node n 0) st son hson hpar hvals
          exact ⟨_, by simp only [handle_unbuilt_node, hc]; exact b1⟩

/-- C8 (as amended): an algebraic spectral line element completes
`rebuild_from_sons` exactly when node 0 and all its other nodes are built
already, and then nothing is changed; when its first unbuilt node `n` has
been taken over from a non-periodic neighbour or has been constructed from
the son, the not-implemented error is thrown. -/
theorem rebuild_from_sons_algebraic (env : Rebuild_environment D) (st : Rebuild_state D)
    (halg : env.is_AlgebraicElementBase = true) :
    ((∃ st1, rebuild_from_sons env st = .returned st1) ↔
      ((∃ a, st.element.Node_pt[0]? = some (some a)) ∧
        ∀ n, n < env.nnode_1d → ∃ a, st.element.Node_pt[n]? = some (some a))) ∧
    (∀ st1, rebuild_from_sons env st = .returned st1 → st1 = st) ∧
    (∀ node_0 n, st.element.Node_pt[0]? = some (some node_0) → n < env.nnode_1d →
      (∀ m, m < n → ∃ a, st.element.Node_pt[m]? = some (some a)) →
      st.element.Node_pt[n]? = some none →
      (∀ c, env.node_created_by_neighbour (env.local_one_d_fraction_of_node n 0)
        ≠ (some c, true)) →
      (has_to_construct env st.element n →
        can_construct env st.element (env.ntstorage (st.node_at node_0).Time_stepper_pt)
          env.nnode_1d n) →
      rebuild_from_sons env st = .thrown .Not_implemented_for_algebraic_spectral_elements) := by
  have hret : ∀ st1, rebuild_from_sons env st = .returned st1 →
      st1 = st ∧ (∃ a, st.element.Node_pt[0]? = some (some a)) ∧
        ∀ n, n < env.nnode_1d → ∃ a, st.element.Node_pt[n]? = some (some a) := by
    intro st1 h
    unfold rebuild_from_sons at h
    cases h0 : st.element.Node_pt[0]? with
    | none => rw [h0] at h; simp at h
    | some p =>
        cases p with
        | none => rw [h0] at h; simp at h
        | some a0 =>
            rw [h0] at h
            obtain ⟨e1, e2⟩ := rebuild_loop_algebraic_returned env _ _ _ _ _ st st1 halg h
            exact ⟨e1, ⟨a0, rfl⟩, fun n hn => e2 n (Nat.zero_le _) (by omega)⟩
  refine ⟨⟨?_, ?_⟩, fun st1 h => (hret st1 h).1, ?_⟩
  · rintro ⟨st1, h⟩
    exact (hret st1 h).2
  · rintro ⟨⟨a0, h0⟩, hall⟩
    refine ⟨st, ?_⟩
    simp only [rebuild_from_sons, h0]
    exact rebuild_loop_of_built env _ _ _ _ _ st (fun m _ hm => hall m (by omega))
  · intro node_0 n h0 hn hbefore hnull hper hbuild
    obtain ⟨st1, hst1⟩ := handle_unbuilt_node_returns env (st.node_at node_0).Time_stepper_pt
      (env.ntstorage (st.node_at node_0).Time_stepper_pt) env.nnode_1d n st hper
      (fun h => hbuild ⟨hnull, h⟩)
    have hsplit : env.nnode_1d = n + ((env.nnode_1d - n - 1) + 1) := by omega
    simp only [rebuild_from_sons, h0]
    rw [hsplit, rebuild_loop_skip_built env _ _ _ n _ 0 st
      (fun m _ hm => hbefore m (by omega)), rebuild_loop, Nat.zero_add,
      (rebuild_node_algebraic env _ _ _ n st halg hnull).2 st1 (by rw [← hsplit]; exact hst1)]
    rfl

/-- Witness for C8: the algebraic variant of the example, with its interior
nodes missing, throws the not-implemented error. -/
theorem rebuild_from_sons_algebraic_witness :
    rebuild_from_sons (Example.environment true) Example.unbuilt_state =
      .thrown .Not_implemented_for_algebraic_spectral_elements :=
  (rebuild_from_sons_algebraic (Example.environment true) Example.unbuilt_state rfl).2.2 3 1
    rfl (by decide) (fun m hm => ⟨3, by interval_cases m; rfl⟩) rfl
    (fun c h => by simp [Example.environment] at h)
    (example_can_construct true 1 (by decide))

/-- Counterexample to C8 as stated: the algebraic variant of the example with
all its nodes built completes `rebuild_from_sons` without any error. -/
theorem rebuild_from_sons_algebraic_completes :
    (Example.environment true).is_AlgebraicElementBase = true ∧
    rebuild_from_sons (Example.environment true) Example.built_state =
      .returned Example.built_state ∧
    ¬ ∃ err, rebuild_from_sons (Example.environment true) Example.built_state = .thrown err := by
  have h : rebuild_from_sons (Example.environment true) Example.built_state =
      .returned Example.built_state := rfl
  refine ⟨rfl, h, ?_⟩
  rintro ⟨err, herr⟩
  rw [h] at herr
  cases herr

end RefineableQSpectralElement

namespace Time

/-! ### `Time::time(t)` and `Time::shift_dt()` -/

theorem time_loop_spec {D : Type} [Ring D] (Dt : List D) (todo i : Nat) (x : D)
    (h : i + todo ≤ Dt.length) :
    time_loop Dt todo i x = .returned (x - ((Dt.drop i).take todo).sum) := by
  induction todo generalizing i x with
  | zero => simp [time_loop]
  | succ k ih =>
      have hi : i < Dt.length := by omega
      have hdrop : Dt.drop i = Dt[i] :: Dt.drop (i + 1) := List.drop_eq_getElem_cons hi
      rw [time_loop, List.getElem?_eq_getElem hi]
      simp only
      rw [ih (i + 1) _ (by omega), hdrop, List.take_succ_cons, List.sum_cons, sub_sub]

/-- C16: for every `t <= ndt()`, `time(t)` returns the current time minus the
sum of the first `t` stored timesteps (exact arithmetic) and leaves the
object as it was; in particular `time(0)` is `time()`. -/
theorem time_subtracts_previous_timesteps {D : Type} [Ring D] (tm : Time D) (t : Nat)
    (ht : t ≤ tm.ndt) :
    tm.time t = .returned (tm.time_now - (tm.Dt.take t).sum, tm) ∧
    tm.time 0 = .returned (tm.time_now, tm) := by
  have h := time_loop_spec tm.Dt t 0 tm.Time_pt (by simpa [ndt] using ht)
  have h0 := time_loop_spec tm.Dt 0 0 tm.Time_pt (Nat.zero_le _)
  constructor
  · simp only [time, h, Outcome.bind, List.drop_zero, time_now]
  · simp [time, h0, Outcome.bind, time_now]

/-- Witness for C16: current time 10, timesteps 1, 2, 3: the time two levels
back is 7. -/
theorem time_subtracts_previous_timesteps_witness :
    (⟨10, [1, 2, 3]⟩ : Time Int).time 2 = .returned (7, ⟨10, [1, 2, 3]⟩) :=
  (time_subtracts_previous_timesteps (⟨10, [1, 2, 3]⟩ : Time Int) 2 (by decide)).1

theorem shift_dt_loop_spec {D : Type} (i : Nat) (Dt : List D) (h : i < Dt.length) :
    ∃ Dt1, shift_dt_loop i Dt = .returned Dt1 ∧ Dt1.length = Dt.length ∧
      ∀ k, Dt1[k]? = if 1 ≤ k ∧ k ≤ i then Dt[k - 1]? else Dt[k]? := by
  induction i generalizing Dt with
  | zero =>
      refine ⟨Dt, rfl, rfl, fun k => ?_⟩
      have : ¬ (1 ≤ k ∧ k ≤ 0) := by omega
      rw [if_neg this]
  | succ j ih =>
      have hj : j < Dt.length := by omega
      obtain ⟨Dt1, h1, h2, h3⟩ := ih (Dt.set (j + 1) Dt[j]) (by simp; omega)
      refine ⟨Dt1, ?_, by simpa using h2, fun k => ?_⟩
      · rw [shift_dt_loop, List.getElem?_eq_getElem hj]
        simp only [h, if_true]
        exact h1
      · rw [h3 k]
        by_cases hk : 1 ≤ k ∧ k ≤ j
        · have hk2 : 1 ≤ k ∧ k ≤ j + 1 := by omega
          have hne : ¬ j + 1 = k - 1 := by omega
          rw [if_pos hk, if_pos hk2, List.getElem?_set, if_neg hne]
        · rw [if_neg hk]
          by_cases hk3 : k = j + 1
          · subst hk3
            have hk2 : 1 ≤ j + 1 ∧ j + 1 ≤ j + 1 := by omega
            rw [if_pos hk2, List.getElem?_set]
            simp [h, List.getElem?_eq_getElem hj]
          · have hk2 : ¬ (1 ≤ k ∧ k ≤ j + 1) := by omega
            have hne : ¬ j + 1 = k := by omega
            rw [if_neg hk2, List.getElem?_set, if_neg hne]

/-- C17: `shift_dt()` returns; the number of stored timesteps, the timestep
`dt(0)` and the continuous time are as before, `dt(i)` is the former
`dt(i-1)` for every `1 <= i < ndt()`, and without stored timesteps the object
is returned as it was. -/
theorem shift_dt_shifts_every_timestep {D : Type} (tm : Time D) :
    ∃ tm1, tm.shift_dt = .returned tm1 ∧
      tm1.ndt = tm.ndt ∧ tm1.time_now = tm.time_now ∧ tm1.dt 0 = tm.dt 0 ∧
      (∀ i, 1 ≤ i → i < tm.ndt → tm1.dt i = tm.dt (i - 1)) ∧
      (tm.ndt = 0 → tm1 = tm) := by
  by_cases h0 : tm.Dt.length = 0
  · exact ⟨tm, by simp [shift_dt, h0], rfl, rfl, rfl,
      fun i _ hi => by simp [ndt, h0] at hi, fun _ => rfl⟩
  · obtain ⟨Dt1, h1, h2, h3⟩ := shift_dt_loop_spec (tm.Dt.length - 1) tm.Dt (by omega)
    refine ⟨{ tm with Dt := Dt1 }, by simp [shift_dt, h0, h1, Outcome.bind], h2, rfl, ?_, ?_, ?_⟩
    · have := h3 0
      simp only [dt]
      rw [this]
      simp
    · intro i hi1 hi2
      have hk : 1 ≤ i ∧ i ≤ tm.Dt.length - 1 := by
        simp only [ndt] at hi2
        omega
      have := h3 i
      rw [if_pos hk] at this
      simp only [dt]
      rw [this]
    · intro hn
      exact absurd hn h0

end Time

namespace TimeStepper

/-! ### `TimeStepper::make_steady()` -/

theorem zero_row_loop_spec {D : Type} [Zero D] (i todo j0 : Nat) (w : DenseMatrix D)
    (hi : i < w.N) (hj : j0 + todo ≤ w.M) :
    ∃ w1, zero_row_loop i todo j0 w = .returned w1 ∧ w1.N = w.N ∧ w1.M = w.M ∧
      ∀ i1 j1, w1.entry i1 j1 =
        if i1 = i ∧ j0 ≤ j1 ∧ j1 < j0 + todo then 0 else w.entry i1 j1 := by
  induction todo generalizing j0 w with
  | zero =>
      refine ⟨w, rfl, rfl, rfl, fun i1 j1 => ?_⟩
      have : ¬ (i1 = i ∧ j0 ≤ j1 ∧ j1 < j0 + 0) := by omega
      rw [if_neg this]
  | succ k ih =>
      have hin : i < w.N ∧ j0 < w.M := ⟨hi, by omega⟩
      obtain ⟨w1, h1, h2, h3, h4⟩ := ih (j0 + 1)
        { w with entry := fun i1 j1 => if i1 = i ∧ j1 = j0 then 0 else w.entry i1 j1 }
        hi (by simp only; omega)
      refine ⟨w1, ?_, h2, h3, fun i1 j1 => ?_⟩
      · simp only [zero_row_loop, DenseMatrix.assign, hin, and_self, if_true, Outcome.bind]
        exact h1
      · rw [h4 i1 j1]
        by_cases hc : i1 = i ∧ j0 + 1 ≤ j1 ∧ j1 < j0 + 1 + k
        · have hc2 : i1 = i ∧ j0 ≤ j1 ∧ j1 < j0 + (k + 1) := by omega
          rw [if_pos hc, if_pos hc2]
        · rw [if_neg hc]
          by_cases hc3 : i1 = i ∧ j1 = j0
          · have hc2 : i1 = i ∧ j0 ≤ j1 ∧ j1 < j0 + (k + 1) := by omega
            rw [if_pos hc2]
            simp only [hc3, and_self, if_true]
          · have hc2 : ¬ (i1 = i ∧ j0 ≤ j1 ∧ j1 < j0 + (k + 1)) := by omega
            rw [if_neg hc2]
            simp only [hc3, if_false]

theorem zero_rows_loop_spec {D : Type} [Zero D] (n_col todo i0 : Nat) (w : DenseMatrix D)
    (hi : i0 + todo ≤ w.N) (hj : n_col ≤ w.M) :
    ∃ w1, zero_rows_loop n_col todo i0 w = .returned w1 ∧ w1.N = w.N ∧ w1.M = w.M ∧
      ∀ i1 j1, w1.entry i1 j1 =
        if i0 ≤ i1 ∧ i1 < i0 + todo ∧ j1 < n_col then 0 else w.entry i1 j1 := by
  induction todo generalizing i0 w with
  | zero =>
      refine ⟨w, rfl, rfl, rfl, fun i1 j1 => ?_⟩
      have : ¬ (i0 ≤ i1 ∧ i1 < i0 + 0 ∧ j1 < n_col) := by omega
      rw [if_neg this]
  | succ k ih =>
      obtain ⟨w0, g1, g2, g3, g4⟩ := zero_row_loop_spec i0 n_col 0 w (by omega) (by omega)
      obtain ⟨w1, h1, h2, h3, h4⟩ := ih (i0 + 1) w0 (by omega) (by omega)
      refine ⟨w1, ?_, by omega, by omega, fun i1 j1 => ?_⟩
      · simp only [zero_rows_loop, g1, Outcome.bind]
        exact h1
      · rw [h4 i1 j1, g4 i1 j1]
        by_cases hc : i0 + 1 ≤ i1 ∧ i1 < i0 + 1 + k ∧ j1 < n_col
        · have hc2 : i0 ≤ i1 ∧ i1 < i0 + (k + 1) ∧ j1 < n_col := by omega
          rw [if_pos hc, if_pos hc2]
        · rw [if_neg hc]
          by_cases hc3 : i1 = i0 ∧ 0 ≤ j1 ∧ j1 < 0 + n_col
          · have hc2 : i0 ≤ i1 ∧ i1 < i0 + (k + 1) ∧ j1 < n_col := by omega
            rw [if_pos hc3, if_pos hc2]
          · have hc2 : ¬ (i0 ≤ i1 ∧ i1 < i0 + (k + 1) ∧ j1 < n_col) := by omega
            rw [if_neg hc3, if_neg hc2]

theorem time_derivative_loop_zero {D : Type} [Ring D] (ts : TimeStepper D) (i : Nat)
    (data : Data D) (j todo t0 : Nat) (hi : i < ts.Weight.N) (ht : t0 + todo ≤ ts.Weight.M)
    (hz : ∀ t, t < ts.Weight.M → ts.Weight.entry i t = 0) :
    time_derivative_loop ts i data j todo t0 0 = .returned 0 := by
  induction todo generalizing t0 with
  | zero => rfl
  | succ k ih =>
      have hin : i < ts.Weight.N ∧ t0 < ts.Weight.M := ⟨hi, by omega⟩
      simp only [time_derivative_loop, DenseMatrix.get, hin, and_self, if_true, Outcome.bind,
        hz t0 hin.2, zero_mul, add_zero]
      exact ih (t0 + 1) (by omega)

/-- C15: for a time stepper with at least one row of weights, `make_steady()`
returns; afterwards `is_steady()` is true, every `weight(i,j)` with
`1 <= i <= highest_derivative()` and `j < ntstorage()` is zero, the weights
of the zeroth derivative are as before, and `time_derivative(i, data, j)` is
zero for every `Data`, every value `j` and every `1 <= i <= highest_derivative()`
(exact arithmetic). -/
theorem make_steady_zeroes_time_derivatives {D : Type} [Ring D] (ts : TimeStepper D)
    (hrows : 0 < ts.Weight.nrow) (hrows2 : ts.Weight.nrow ≤ UNSIGNED_RANGE) :
    ∃ ts1, ts.make_steady = .returned ts1 ∧ ts1.is_steady = true ∧
      ts1.ntstorage = ts.ntstorage ∧ ts1.highest_derivative = ts.highest_derivative ∧
      (∀ i j, 1 ≤ i → i ≤ ts1.highest_derivative → j < ts1.ntstorage →
        ts1.weight i j = .returned 0) ∧
      (∀ j, ts1.weight 0 j = ts.weight 0 j) ∧
      (∀ (data : Data D) j i, 1 ≤ i → i ≤ ts1.highest_derivative →
        ts1.time_derivative i data j = .returned 0) := by
  have hN : 0 < ts.Weight.N := hrows
  have hN2 : ts.Weight.N ≤ UNSIGNED_RANGE := hrows2
  obtain ⟨w1, h1, h2, h3, h4⟩ :=
    zero_rows_loop_spec ts.Weight.M (ts.Weight.N - 1) 1 ts.Weight (by omega) (le_refl _)
  have hhd : ∀ n : Nat, 0 < n → n ≤ UNSIGNED_RANGE →
      (n + (UNSIGNED_RANGE - 1)) % UNSIGNED_RANGE = n - 1 := by
    intro n hn1 hn2
    unfold UNSIGNED_RANGE at *
    omega
  have hzero : ∀ i j, 1 ≤ i → i < ts.Weight.N → j < ts.Weight.M → w1.entry i j = 0 := by
    intro i j hi1 hi2 hj
    rw [h4 i j, if_pos (by omega)]
  refine ⟨{ ts with Weight := w1, Is_steady := true }, ?_, rfl, h3, ?_, ?_, ?_, ?_⟩
  · simp only [make_steady, DenseMatrix.nrow, ntstorage, DenseMatrix.ncol, h1, Outcome.bind]
  · simp only [highest_derivative, DenseMatrix.nrow, h2]
  · intro i j hi1 hi2 hj
    simp only [highest_derivative, DenseMatrix.nrow, h2] at hi2
    rw [hhd _ hN hN2] at hi2
    simp only [ntstorage, DenseMatrix.ncol, h3] at hj
    have hin : i < w1.N ∧ j < w1.M := by omega
    simp only [weight, DenseMatrix.get, hin, and_self, if_true]
    rw [hzero i j hi1 (by omega) hj]
  · intro j
    show DenseMatrix.get w1 0 j = DenseMatrix.get ts.Weight 0 j
    by_cases hj : j < ts.Weight.M
    · have hin1 : 0 < w1.N ∧ j < w1.M := by rw [h2, h3]; exact ⟨hN, hj⟩
      have hin2 : 0 < ts.Weight.N ∧ j < ts.Weight.M := ⟨hN, hj⟩
      have hne : ¬ (1 ≤ 0 ∧ 0 < 1 + (ts.Weight.N - 1) ∧ j < ts.Weight.M) := by omega
      simp only [DenseMatrix.get, hin1, hin2, and_self, if_true]
      rw [h4 0 j, if_neg hne]
    · have hin1 : ¬ (0 < w1.N ∧ j < w1.M) := by rw [h2, h3]; exact fun h => hj h.2
      have hin2 : ¬ (0 < ts.Weight.N ∧ j < ts.Weight.M) := fun h => hj h.2
      simp only [DenseMatrix.get, hin1, hin2, if_false]
  · intro data j i hi1 hi2
    simp only [highest_derivative, DenseMatrix.nrow, h2] at hi2
    rw [hhd _ hN hN2] at hi2
    exact time_derivative_loop_zero _ i data j _ 0 (by simp only [h2]; omega)
      (by simp [ntstorage, DenseMatrix.ncol])
      (fun t ht => hzero i t hi1 (by omega) (by simpa only [h3] using ht))

end TimeStepper

namespace TimeStepper

/-- Witness for C15: the example time stepper made steady. -/
theorem make_steady_zeroes_time_derivatives_witness :
    ∃ ts1, Example.time_stepper.make_steady = .returned ts1 ∧ ts1.is_steady = true ∧
      ts1.ntstorage = Example.time_stepper.ntstorage ∧
      ts1.highest_derivative = Example.time_stepper.highest_derivative ∧
      (∀ i j, 1 ≤ i → i ≤ ts1.highest_derivative → j < ts1.ntstorage →
        ts1.weight i j = .returned 0) ∧
      (∀ j, ts1.weight 0 j = Example.time_stepper.weight 0 j) ∧
      (∀ (data : Data Int) j i, 1 ≤ i → i ≤ ts1.highest_derivative →
        ts1.time_derivative i data j = .returned 0) :=
  make_steady_zeroes_time_derivatives Example.time_stepper (by decide) (by decide)

theorem construct_returns {D : Type} [Zero D] [One D] (tstorage max_deriv : Nat)
    (ht : 0 < tstorage) (hd : 0 < unsigned_add max_deriv 1) :
    ∃ ts : TimeStepper D, construct tstorage max_deriv = .returned ts ∧
      ts.Weight.N = unsigned_add max_deriv 1 ∧ ts.Weight.M = tstorage ∧
      ts.Adaptive_Flag = false ∧ ts.Is_steady = false := by
  have hin : 0 < unsigned_add max_deriv 1 ∧ 0 < tstorage := ⟨hd, ht⟩
  refine ⟨{ Time_pt := none,
            Weight :=
              { N := unsigned_add max_deriv 1, M := tstorage,
                entry := fun i1 j1 => if i1 = 0 ∧ j1 = 0 then 1
                  else ((DenseMatrix.empty (0 : D)).resize (unsigned_add max_deriv 1)
                    tstorage 0).entry i1 j1 },
            Type_ := "", Adaptive_Flag := false, Is_steady := false }, ?_, rfl, rfl, rfl, rfl⟩
  simp only [construct, DenseMatrix.assign, DenseMatrix.resize, hin, and_self, if_true,
    Outcome.bind]

end TimeStepper

namespace BDF

/-! ### `BDF<NSTEPS>` -/

theorem initialise_loop_eq {D : Type} [Zero D] (n_col todo i : Nat) (w : DenseMatrix D) :
    initialise_loop n_col todo i w = TimeStepper.zero_rows_loop n_col todo i w := by
  induction todo generalizing i w with
  | zero => rfl
  | succ k ih =>
      simp only [initialise_loop, TimeStepper.zero_rows_loop]
      cases TimeStepper.zero_row_loop i n_col 0 w with
      | returned w1 => simp only [Outcome.bind]; exact ih (i + 1) w1
      | thrown e => rfl
      | unchecked => rfl

theorem construct_of_storage {D : Type} [Zero D] [One D] (NSTEPS : Nat) (adaptive : Bool)
    (h1 : 0 < unsigned_add NSTEPS 1) (h3 : adaptive = true → 0 < unsigned_add NSTEPS 3) :
    ∃ bdf : BDF D, construct NSTEPS adaptive = .returned bdf ∧ bdf.NSTEPS = NSTEPS ∧
      bdf.Weight.M = if adaptive then unsigned_add NSTEPS 3 else unsigned_add NSTEPS 1 := by
  obtain ⟨ts, t1, t2, t3, t4, t5⟩ := TimeStepper.construct_returns (D := D)
    (unsigned_add NSTEPS 1) 1 h1 (by decide)
  cases adaptive with
  | false =>
      refine ⟨{ toTimeStepper := { ts with Type_ := "BDF" },
                NSTEPS := NSTEPS,
                Predictor_weight := [] }, ?_, rfl, ?_⟩
      · simp [construct, t1, Outcome.bind]
      · simp only [t3, Bool.false_eq_true, if_false]
  | true =>
      obtain ⟨w, w1, w2, w3, _⟩ := TimeStepper.zero_rows_loop_spec (unsigned_add NSTEPS 3) 2 0
        (ts.Weight.resize 2 (unsigned_add NSTEPS 3) 0) (by simp [DenseMatrix.resize])
        (by simp [DenseMatrix.resize])
      have hin : 0 < w.N ∧ 0 < w.M := by
        rw [w2, w3]
        exact ⟨by simp [DenseMatrix.resize], by simpa [DenseMatrix.resize] using h3 rfl⟩
      refine ⟨{ toTimeStepper :=
                  { ts with
                    Type_ := "BDF"
                    Adaptive_Flag := true
                    Weight :=
                      { w with
                        entry := fun i1 j1 => if i1 = 0 ∧ j1 = 0 then 1 else w.entry i1 j1 } },
                NSTEPS := NSTEPS,
                Predictor_weight := List.replicate (unsigned_add NSTEPS 2) 0 },
        ?_, rfl, ?_⟩
      · simp only [construct, t1, Outcome.bind, if_true, initialise_loop_eq, w1,
          DenseMatrix.assign, hin, and_self]
      · simp only [w3, DenseMatrix.resize, if_true]

theorem construct_without_storage {D : Type} [Zero D] [One D] (NSTEPS : Nat)
    (h : unsigned_add NSTEPS 1 = 0 ∨ unsigned_add NSTEPS 3 = 0) :
    (construct NSTEPS true : Outcome (BDF D)) = .unchecked := by
  by_cases h1 : unsigned_add NSTEPS 1 = 0
  · simp [construct, TimeStepper.construct, DenseMatrix.assign, DenseMatrix.resize, h1,
      Outcome.bind]
  · have h3 : unsigned_add NSTEPS 3 = 0 := by
      rcases h with h | h
      · exact absurd h h1
      · exact h
    obtain ⟨ts, t1, _⟩ := TimeStepper.construct_returns (D := D)
      (unsigned_add NSTEPS 1) 1 (by omega) (by decide)
    obtain ⟨w, w1, w2, w3, _⟩ := TimeStepper.zero_rows_loop_spec (unsigned_add NSTEPS 3) 2 0
      (ts.Weight.resize 2 (unsigned_add NSTEPS 3) 0) (by simp [DenseMatrix.resize])
      (by simp [DenseMatrix.resize])
    have hM : ¬ (0 < w.N ∧ 0 < w.M) := by
      rw [w3]
      simp [DenseMatrix.resize, h3]
    simp only [construct, t1, Outcome.bind, if_true, initialise_loop_eq, w1,
      DenseMatrix.assign, hM, if_false]

/-- C13: the constructor `BDF(adaptive)` with `adaptive` set resizes the
weights to `NSTEPS+3` columns (unsigned arithmetic), so every adaptive
`BDF<NSTEPS>` it returns has `nprev_values() = NSTEPS` and
`ntstorage() = NSTEPS+3` modulo `2^32`, and `nprev_values()` differs from
`ntstorage()-1`, which the class documentation of `TimeStepper` gives for BDF
schemes. The adaptive constructor returns exactly when `NSTEPS+1` and
`NSTEPS+3` are not zero as unsigneds. The non-adaptive constructor returns
whenever `NSTEPS+1` is not zero as an unsigned, and for `NSTEPS+1 < 2^32` its
result has `nprev_values() = ntstorage()-1`. -/
theorem nprev_values_of_constructed {D : Type} [Zero D] [One D] (NSTEPS : Nat) :
    (∀ bdf : BDF D, construct NSTEPS true = .returned bdf →
      bdf.nprev_values = NSTEPS ∧ bdf.ntstorage = unsigned_add NSTEPS 3 ∧
      bdf.nprev_values ≠ bdf.ntstorage - 1) ∧
    ((∃ bdf : BDF D, construct NSTEPS true = .returned bdf) ↔
      (0 < unsigned_add NSTEPS 1 ∧ 0 < unsigned_add NSTEPS 3)) ∧
    (0 < unsigned_add NSTEPS 1 →
      ∃ bdf : BDF D, construct NSTEPS false = .returned bdf ∧
        bdf.nprev_values = NSTEPS ∧ bdf.ntstorage = unsigned_add NSTEPS 1 ∧
        (NSTEPS + 1 < UNSIGNED_RANGE → bdf.nprev_values = bdf.ntstorage - 1)) := by
  have hiff : (∃ bdf : BDF D, construct NSTEPS true = .returned bdf) ↔
      (0 < unsigned_add NSTEPS 1 ∧ 0 < unsigned_add NSTEPS 3) := by
    constructor
    · rintro ⟨bdf, hb⟩
      by_contra hne
      have h0 : unsigned_add NSTEPS 1 = 0 ∨ unsigned_add NSTEPS 3 = 0 := by omega
      rw [construct_without_storage NSTEPS h0] at hb
      cases hb
    · rintro ⟨h1, h3⟩
      obtain ⟨bdf, b1, _⟩ := construct_of_storage (D := D) NSTEPS true h1 (fun _ => h3)
      exact ⟨bdf, b1⟩
  refine ⟨?_, hiff, ?_⟩
  · intro bdf hb
    obtain ⟨h1, h3⟩ := hiff.mp ⟨bdf, hb⟩
    obtain ⟨bdf1, b1, b2, b3⟩ := construct_of_storage (D := D) NSTEPS true h1 (fun _ => h3)
    have e : bdf1 = bdf := Outcome.returned.inj (b1.symm.trans hb)
    rw [← e]
    have hM : bdf1.ntstorage = unsigned_add NSTEPS 3 := by
      simpa [TimeStepper.ntstorage, DenseMatrix.ncol] using b3
    refine ⟨b2, hM, ?_⟩
    rw [hM, nprev_values, b2]
    unfold unsigned_add UNSIGNED_RANGE
    omega
  · intro h1
    obtain ⟨bdf, b1, b2, b3⟩ := construct_of_storage (D := D) NSTEPS false h1
      (fun h => by cases h)
    have hM : bdf.ntstorage = unsigned_add NSTEPS 1 := by
      simpa [TimeStepper.ntstorage, DenseMatrix.ncol] using b3
    refine ⟨bdf, b1, b2, hM, fun hlt => ?_⟩
    rw [hM, nprev_values, b2]
    have e1 : unsigned_add NSTEPS 1 = NSTEPS + 1 := Nat.mod_eq_of_lt hlt
    rw [e1]
    omega

/-- Witness for C13: the adaptive `BDF<2>` is constructed, with two previous
values and five history values in store. -/
theorem nprev_values_of_constructed_witness :
    ∃ bdf : BDF Int, construct 2 true = .returned bdf ∧
      bdf.nprev_values = 2 ∧ bdf.ntstorage = 5 ∧ bdf.nprev_values ≠ bdf.ntstorage - 1 := by
  obtain ⟨bdf, hb⟩ := (nprev_values_of_constructed (D := Int) 2).2.1.mpr
    ⟨by decide, by decide⟩
  exact ⟨bdf, hb, (nprev_values_of_constructed (D := Int) 2).1 bdf hb⟩

end BDF

namespace BDF

/-! ### `BDF<NSTEPS>::shift_time_values` -/

theorem shift_history_loop_spec {D : Type} (j t : Nat) (data : Data D) :
    (shift_history_loop j t data).Nvalue = data.Nvalue ∧
    (shift_history_loop j t data).Is_a_copy = data.Is_a_copy ∧
    ∀ t1 j1, (shift_history_loop j t data).Value t1 j1 =
      if j1 = j ∧ 1 ≤ t1 ∧ t1 ≤ t then data.Value (t1 - 1) j else data.Value t1 j1 := by
  induction t generalizing data with
  | zero =>
      refine ⟨rfl, rfl, fun t1 j1 => ?_⟩
      have : ¬ (j1 = j ∧ 1 ≤ t1 ∧ t1 ≤ 0) := by omega
      rw [if_neg this]
      rfl
  | succ k ih =>
      obtain ⟨h1, h2, h3⟩ := ih (data.set_value (k + 1) j (data.value k j))
      refine ⟨h1, h2, fun t1 j1 => ?_⟩
      rw [shift_history_loop, h3 t1 j1]
      by_cases hc : j1 = j ∧ 1 ≤ t1 ∧ t1 ≤ k
      · have hc2 : j1 = j ∧ 1 ≤ t1 ∧ t1 ≤ k + 1 := by omega
        have hne : ¬ (t1 - 1 = k + 1) := by omega
        rw [if_pos hc, if_pos hc2]
        simp [Data.set_value, hne]
      · rw [if_neg hc]
        by_cases hc3 : t1 = k + 1 ∧ j1 = j
        · have hc2 : j1 = j ∧ 1 ≤ t1 ∧ t1 ≤ k + 1 := by omega
          rw [if_pos hc2]
          obtain ⟨rfl, rfl⟩ := hc3
          simp [Data.set_value, Data.value]
        · have hc2 : ¬ (j1 = j ∧ 1 ≤ t1 ∧ t1 ≤ k + 1) := by omega
          rw [if_neg hc2]
          simp only [Data.set_value, hc3, if_false]

theorem time_derivative_loop_returns {D : Type} [Add D] [Mul D] (ts : TimeStepper D) (i : Nat)
    (data : Data D) (j todo t0 : Nat) (d0 : D) (hi : i < ts.Weight.N)
    (ht : t0 + todo ≤ ts.Weight.M) :
    ∃ d, TimeStepper.time_derivative_loop ts i data j todo t0 d0 = .returned d := by
  induction todo generalizing t0 d0 with
  | zero => exact ⟨d0, rfl⟩
  | succ k ih =>
      have hin : i < ts.Weight.N ∧ t0 < ts.Weight.M := ⟨hi, by omega⟩
      simp only [TimeStepper.time_derivative_loop, DenseMatrix.get, hin, and_self, if_true,
        Outcome.bind]
      exact ih (t0 + 1) _ (by omega)

theorem time_derivative_values_loop_spec {D : Type} [Zero D] [Add D] [Mul D]
    (ts : TimeStepper D) (i : Nat) (data : Data D) (todo j0 : Nat) (deriv : List D)
    (hi : i < ts.Weight.N) (hlen : j0 + todo ≤ deriv.length) :
    ∃ deriv1, TimeStepper.time_derivative_values_loop ts i data todo j0 deriv = .returned deriv1 ∧
      deriv1.length = deriv.length ∧
      (∀ j, j0 ≤ j → j < j0 + todo → ∃ d,
        ts.time_derivative i data j = .returned d ∧ deriv1[j]? = some d) ∧
      (∀ j, ¬ (j0 ≤ j ∧ j < j0 + todo) → deriv1[j]? = deriv[j]?) := by
  induction todo generalizing j0 deriv with
  | zero => exact ⟨deriv, rfl, rfl, fun j h1 h2 => by omega, fun _ _ => rfl⟩
  | succ k ih =>
      obtain ⟨d, hd⟩ := time_derivative_loop_returns ts i data j0 ts.ntstorage 0 0 hi
        (by simp [TimeStepper.ntstorage, DenseMatrix.ncol])
      have hj0 : j0 < deriv.length := by omega
      obtain ⟨deriv1, h1, h2, h3, h4⟩ := ih (j0 + 1) (deriv.set j0 d) (by simp; omega)
      refine ⟨deriv1, ?_, by simpa using h2, ?_, ?_⟩
      · simp only [TimeStepper.time_derivative_values_loop, hd, Outcome.bind, hj0, if_true]
        exact h1
      · intro j hj1 hj2
        by_cases hjj : j = j0
        · subst hjj
          refine ⟨d, hd, ?_⟩
          rw [h4 j (by omega)]
          simp [List.getElem?_set, hj0]
        · exact h3 j (by omega) (by omega)
      · intro j hj
        rw [h4 j (by omega)]
        have hne : ¬ j0 = j := by omega
        simp [List.getElem?_set, hne]

theorem shift_values_loop_spec {D : Type} (bdf : BDF D) (velocity : List D) (todo j0 : Nat)
    (data : Data D) (hsteps : bdf.NSTEPS + 1 < UNSIGNED_RANGE)
    (hvel : bdf.adaptive_flag = true → j0 + todo ≤ velocity.length) :
    ∃ data1, shift_values_loop bdf velocity todo j0 data = .returned data1 ∧
      data1.Nvalue = data.Nvalue ∧ data1.Is_a_copy = data.Is_a_copy ∧
      (∀ t j, ¬ (j0 ≤ j ∧ j < j0 + todo ∧ data.Is_a_copy j = false) →
        data1.Value t j = data.Value t j) ∧
      (∀ j, j0 ≤ j → j < j0 + todo → data.Is_a_copy j = false →
        data1.Value 0 j = data.Value 0 j ∧
        (∀ t, 1 ≤ t → t ≤ bdf.NSTEPS → data1.Value t j = data.Value (t - 1) j) ∧
        (bdf.adaptive_flag = true → velocity[j]? = some (data1.Value (bdf.NSTEPS + 1) j))) := by
  have e1 : unsigned_add bdf.NSTEPS 1 = bdf.NSTEPS + 1 := Nat.mod_eq_of_lt hsteps
  induction todo generalizing j0 data with
  | zero =>
      exact ⟨data, rfl, rfl, rfl, fun _ _ _ => rfl, fun j h1 h2 => by omega⟩
  | succ k ih =>
      by_cases hcopy : data.Is_a_copy j0 = false
      · obtain ⟨s1, s2, s3⟩ := shift_history_loop_spec j0 bdf.NSTEPS data
        by_cases had : bdf.adaptive_flag = true
        · have hj0 : j0 < velocity.length := by have := hvel had; omega
          obtain ⟨data1, h1, h2, h3, h4, h5⟩ := ih (j0 + 1)
            ((shift_history_loop j0 bdf.NSTEPS data).set_value (bdf.NSTEPS + 1) j0 velocity[j0])
            (fun h => by have := hvel h; omega)
          have hval : ∀ t j, ((shift_history_loop j0 bdf.NSTEPS data).set_value
              (bdf.NSTEPS + 1) j0 velocity[j0]).Value t j =
              if t = bdf.NSTEPS + 1 ∧ j = j0 then velocity[j0]
              else if j = j0 ∧ 1 ≤ t ∧ t ≤ bdf.NSTEPS then data.Value (t - 1) j0
              else data.Value t j := by
            intro t j
            simp only [Data.set_value, s3 t j]
          refine ⟨data1, ?_, by rw [h2]; exact s1, by rw [h3]; exact s2, ?_, ?_⟩
          · simp only [shift_values_loop, Data.is_a_copy, hcopy, if_true, had, e1,
              List.getElem?_eq_getElem hj0]
            exact h1
          · intro t j hn
            have hne : j ≠ j0 := by
              intro h
              subst h
              exact hn ⟨le_refl _, by omega, hcopy⟩
            rw [h4 t j (by
              intro hh
              exact hn ⟨by omega, by omega, by
                have := hh.2.2
                simpa [Data.set_value, s2] using this⟩), hval t j]
            simp [hne]
          · intro j hj1 hj2 hjc
            by_cases hjj : j = j0
            · subst hjj
              have hfr : ∀ t, data1.Value t j = ((shift_history_loop j bdf.NSTEPS data).set_value
                  (bdf.NSTEPS + 1) j velocity[j]).Value t j :=
                fun t => h4 t j (by omega)
              refine ⟨?_, ?_, ?_⟩
              · rw [hfr 0, hval 0 j]
                simp
              · intro t ht1 ht2
                rw [hfr t, hval t j]
                have hne : ¬ (t = bdf.NSTEPS + 1 ∧ j = j) := by omega
                rw [if_neg hne, if_pos ⟨rfl, ht1, ht2⟩]
              · intro _
                rw [hfr (bdf.NSTEPS + 1), hval (bdf.NSTEPS + 1) j]
                simp [List.getElem?_eq_getElem hj0]
            · have hjc2 : ((shift_history_loop j0 bdf.NSTEPS data).set_value
                  (bdf.NSTEPS + 1) j0 velocity[j0]).Is_a_copy j = false := by
                simpa [Data.set_value, s2] using hjc
              obtain ⟨p1, p2, p3⟩ := h5 j (by omega) (by omega) hjc2
              refine ⟨?_, ?_, p3⟩
              · rw [p1, hval 0 j]
                simp [hjj]
              · intro t ht1 ht2
                rw [p2 t ht1 ht2, hval (t - 1) j]
                simp [hjj]
        · have had2 : bdf.adaptive_flag = false := by simpa using had
          obtain ⟨data1, h1, h2, h3, h4, h5⟩ := ih (j0 + 1)
            (shift_history_loop j0 bdf.NSTEPS data) (fun h => absurd h had)
          refine ⟨data1, ?_, by rw [h2]; exact s1, by rw [h3]; exact s2, ?_, ?_⟩
          · simp only [shift_values_loop, Data.is_a_copy, hcopy, if_true, had2,
              Bool.false_eq_true, if_false]
            exact h1
          · intro t j hn
            have hne : j ≠ j0 := by
              intro h
              subst h
              exact hn ⟨le_refl _, by omega, hcopy⟩
            rw [h4 t j (by
              intro hh
              exact hn ⟨by omega, by omega, by
                have := hh.2.2
                simpa [s2] using this⟩), s3 t j]
            simp [hne]
          · intro j hj1 hj2 hjc
            by_cases hjj : j = j0
            · subst hjj
              have hfr : ∀ t, data1.Value t j = (shift_history_loop j bdf.NSTEPS data).Value t j :=
                fun t => h4 t j (by omega)
              refine ⟨?_, ?_, fun h => absurd h had⟩
              · rw [hfr 0, s3 0 j]
                simp
              · intro t ht1 ht2
                rw [hfr t, s3 t j, if_pos ⟨rfl, ht1, ht2⟩]
            · have hjc2 : (shift_history_loop j0 bdf.NSTEPS data).Is_a_copy j = false := by
                simpa [s2] using hjc
              obtain ⟨p1, p2, p3⟩ := h5 j (by omega) (by omega) hjc2
              refine ⟨?_, ?_, p3⟩
              · rw [p1, s3 0 j]
                simp [hjj]
              · intro t ht1 ht2
                rw [p2 t ht1 ht2, s3 (t - 1) j]
                simp [hjj]
      · have hcopy2 : data.Is_a_copy j0 = true := by simpa using hcopy
        obtain ⟨data1, h1, h2, h3, h4, h5⟩ := ih (j0 + 1) data (fun h => by have := hvel h; omega)
        refine ⟨data1, ?_, h2, h3, ?_, ?_⟩
        · simp only [shift_values_loop, Data.is_a_copy, hcopy2, Bool.true_eq_false, if_false]
          exact h1
        · intro t j hn
          exact h4 t j (fun hh => hn ⟨by omega, by omega, hh.2.2⟩)
        · intro j hj1 hj2 hjc
          have hjj : j ≠ j0 := by
            intro h
            subst h
            rw [hcopy2] at hjc
            cases hjc
          exact h5 j (by omega) (by omega) hjc

end BDF

namespace BDF

/-- C14: `shift_time_values` returns (in the adaptive case the weights have a
row for the first derivative); for every value `j` that is not a copy,
`value(t,j)` is afterwards the former `value(t-1,j)` for `1 <= t <= NSTEPS`,
`value(0,j)` is as before and, in the adaptive case, `value(NSTEPS+1,j)` is
the first time-derivative of the former history; values that are copies are
as before at every history level. -/
theorem shift_time_values_pushes_back {D : Type} [Zero D] [Add D] [Mul D] (bdf : BDF D)
    (data : Data D) (hsteps : bdf.NSTEPS + 1 < UNSIGNED_RANGE)
    (hrows : bdf.adaptive_flag = true → 1 < bdf.Weight.nrow) :
    ∃ data1, bdf.shift_time_values data = .returned data1 ∧
      data1.nvalue = data.nvalue ∧
      (∀ j, j < data.nvalue → data.is_a_copy j = false →
        data1.value 0 j = data.value 0 j ∧
        (∀ t, 1 ≤ t → t ≤ bdf.NSTEPS → data1.value t j = data.value (t - 1) j) ∧
        (bdf.adaptive_flag = true →
          bdf.toTimeStepper.time_derivative 1 data j
            = .returned (data1.value (bdf.NSTEPS + 1) j))) ∧
      (∀ j, data.is_a_copy j = true → ∀ t, data1.value t j = data.value t j) ∧
      (∀ j, data.nvalue ≤ j → ∀ t, data1.value t j = data.value t j) := by
  have hvelocity : ∃ velocity : List D,
      (if bdf.adaptive_flag then
          bdf.toTimeStepper.time_derivative_values 1 data (List.replicate data.nvalue 0)
        else .returned (List.replicate data.nvalue 0)) = .returned velocity ∧
      velocity.length = data.nvalue ∧
      (bdf.adaptive_flag = true → ∀ j, j < data.nvalue → ∃ d,
        bdf.toTimeStepper.time_derivative 1 data j = .returned d ∧ velocity[j]? = some d) := by
    by_cases had : bdf.adaptive_flag = true
    · obtain ⟨v, v1, v2, v3, _⟩ := time_derivative_values_loop_spec bdf.toTimeStepper 1 data
        data.nvalue 0 (List.replicate data.nvalue 0) (hrows had) (by simp)
      refine ⟨v, by simp only [had, if_true]; exact v1, by simpa using v2, fun _ j hj => ?_⟩
      exact v3 j (Nat.zero_le _) (by omega)
    · have had2 : bdf.adaptive_flag = false := by simpa using had
      exact ⟨List.replicate data.nvalue 0, by simp [had2], by simp, fun h => absurd h had⟩
  obtain ⟨velocity, q1, q2, q3⟩ := hvelocity
  obtain ⟨data1, h1, h2, _, h4, h5⟩ := shift_values_loop_spec bdf velocity data.nvalue 0 data
    hsteps (fun _ => by omega)
  refine ⟨data1, ?_, h2, ?_, ?_, ?_⟩
  · simp only [shift_time_values, q1, Outcome.bind]
    exact h1
  · intro j hj hcopy
    obtain ⟨p1, p2, p3⟩ := h5 j (Nat.zero_le _) (by omega) hcopy
    refine ⟨p1, p2, fun had => ?_⟩
    obtain ⟨d, d1, d2⟩ := q3 had j hj
    have := p3 had
    rw [d2] at this
    rw [d1, Option.some.inj this]
    rfl
  · intro j hcopy t
    exact h4 t j (fun hh => by
      have := hh.2.2
      simp only [Data.is_a_copy] at hcopy
      rw [hcopy] at this
      cases this)
  · intro j hj t
    exact h4 t j (fun hh => by
      have h7 : j < 0 + data.Nvalue := hh.2.1
      have h8 : data.Nvalue ≤ j := hj
      omega)

/-- Witness for C14: the adaptive `BDF<1>` of the example applied to the
example `Data`. -/
theorem shift_time_values_pushes_back_witness :
    ∃ data1, Example.adaptive_bdf.shift_time_values Example.data = .returned data1 ∧
      data1.nvalue = Example.data.nvalue ∧
      (∀ j, j < Example.data.nvalue → Example.data.is_a_copy j = false →
        data1.value 0 j = Example.data.value 0 j ∧
        (∀ t, 1 ≤ t → t ≤ Example.adaptive_bdf.NSTEPS →
          data1.value t j = Example.data.value (t - 1) j) ∧
        (Example.adaptive_bdf.adaptive_flag = true →
          Example.adaptive_bdf.toTimeStepper.time_derivative 1 Example.data j
            = .returned (data1.value (Example.adaptive_bdf.NSTEPS + 1) j))) ∧
      (∀ j, Example.data.is_a_copy j = true → ∀ t, data1.value t j = Example.data.value t j) ∧
      (∀ j, Example.data.nvalue ≤ j → ∀ t, data1.value t j = Example.data.value t j) :=
  shift_time_values_pushes_back Example.adaptive_bdf Example.data (by decide)
    (fun _ => by decide)

end BDF

namespace LinearAlgebraDistribution

/-! ### `global_to_local_row_map` and `rank_of_global_row` -/

theorem sum_take_succ (l : List Nat) (p : Nat) (hp : p < l.length) :
    (l.take (p + 1)).sum = (l.take p).sum + l.getD p 0 := by
  induction l generalizing p with
  | nil => simp at hp
  | cons a rest ih =>
      cases p with
      | zero => simp
      | succ k =>
          have hk : k < rest.length := by simpa using hp
          have := ih k hk
          simp only [List.take_succ_cons, List.sum_cons, List.getD_cons_succ] at this ⊢
          omega

theorem sum_take_le (l : List Nat) (p : Nat) : (l.take p).sum ≤ l.sum := by
  have h : ((l.take p) ++ (l.drop p)).sum = l.sum := by rw [List.take_append_drop]
  rw [List.sum_append] at h
  omega

/-- The processor that owns row `i`: the first one whose block ends after
`i`. -/
theorem exists_owner (l : List Nat) (i : Nat) (hi : i < l.sum) :
    ∃ q, q < l.length ∧ (l.take q).sum ≤ i ∧ i < (l.take q).sum + l.getD q 0 ∧
      ∀ p, p < q → (l.take (p + 1)).sum ≤ i := by
  induction l generalizing i with
  | nil => simp at hi
  | cons a rest ih =>
      by_cases ha : i < a
      · exact ⟨0, by simp, by simp, by simpa using ha, fun p hp => by omega⟩
      · have hi2 : i - a < rest.sum := by
          simp only [List.sum_cons] at hi
          omega
        obtain ⟨q, q1, q2, q3, q4⟩ := ih (i - a) hi2
        refine ⟨q + 1, by simpa using q1, ?_, ?_, ?_⟩
        · simp only [List.take_succ_cons, List.sum_cons]
          omega
        · simp only [List.take_succ_cons, List.sum_cons, List.getD_cons_succ]
          omega
        · intro p hp
          cases p with
          | zero => simp; omega
          | succ k =>
              have := q4 k (by omega)
              simp only [List.take_succ_cons, List.sum_cons] at this ⊢
              omega

theorem first_row_eq_sum (d : LinearAlgebraDistribution) (nproc : Nat)
    (hb : contiguous_blocks d nproc) (p : Nat) (hp : p < nproc) :
    d.First_row.getD p 0 = (d.Nrow_local.take p).sum := by
  induction p with
  | zero =>
      have := hb.first_row_zero
      simp [List.getD, this]
  | succ k ih =>
      rw [hb.first_row_next k hp, ih (by omega),
        sum_take_succ d.Nrow_local k (by rw [hb.nrow_local_size]; omega)]

theorem nrow_local_of_distributed (PARANOID : Bool) (d : LinearAlgebraDistribution)
    (comm : OomphCommunicator) (hbuilt : d.Comm_pt = some comm) (hdist : d.Distributed = true)
    (hb : contiguous_blocks d comm.nproc) (p : Nat) (hp : p < comm.nproc) :
    d.nrow_local PARANOID true p = .returned (d.Nrow_local.getD p 0) := by
  have hlt : p < d.Nrow_local.length := by rw [hb.nrow_local_size]; exact hp
  have hget : d.Nrow_local[p]? = some d.Nrow_local[p] := List.getElem?_eq_getElem hlt
  have hgetD : d.Nrow_local.getD p 0 = d.Nrow_local[p] := by
    rw [List.getD_eq_getElem?_getD, hget]
    rfl
  have hnot : ¬ p ≥ comm.nproc := by omega
  rw [hgetD]
  cases PARANOID <;>
    simp only [nrow_local, hbuilt, hdist, hget, hnot, Bool.and_self, if_true, if_false,
      Bool.false_eq_true]

theorem first_row_of_distributed (PARANOID : Bool) (d : LinearAlgebraDistribution)
    (comm : OomphCommunicator) (hbuilt : d.Comm_pt = some comm) (hdist : d.Distributed = true)
    (hb : contiguous_blocks d comm.nproc) (p : Nat) (hp : p < comm.nproc) :
    d.first_row PARANOID true p = .returned ((d.Nrow_local.take p).sum) := by
  have hlt : p < d.First_row.length := by rw [hb.first_row_size]; exact hp
  have hget : d.First_row[p]? = some d.First_row[p] := List.getElem?_eq_getElem hlt
  have hgetD : d.First_row.getD p 0 = d.First_row[p] := by
    rw [List.getD_eq_getElem?_getD, hget]
    rfl
  have hnot : ¬ p ≥ comm.nproc := by omega
  rw [← first_row_eq_sum d comm.nproc hb p hp, hgetD]
  cases PARANOID <;>
    simp only [first_row, hbuilt, hdist, hget, hnot, Bool.and_self, if_true, if_false,
      Bool.false_eq_true]

theorem unsigned_of_int_natCast (n : Nat) (h : n < UNSIGNED_RANGE) :
    unsigned_of_int (n : Int) = n := by
  unfold unsigned_of_int UNSIGNED_RANGE at *
  omega

theorem int_of_unsigned_small (n : Nat) (h : n < 2 ^ 31) : int_of_unsigned n = (n : Int) := by
  unfold int_of_unsigned UNSIGNED_RANGE
  have h1 : n % 2 ^ 32 = n := Nat.mod_eq_of_lt (by omega)
  rw [h1, if_pos h]

theorem global_to_local_row_map_loop_spec (PARANOID : Bool) (d : LinearAlgebraDistribution)
    (comm : OomphCommunicator) (hbuilt : d.Comm_pt = some comm) (hdist : d.Distributed = true)
    (hb : contiguous_blocks d comm.nproc) (hint : d.Nrow < 2 ^ 31)
    (hnproc : comm.nproc < 2 ^ 31) (i q : Nat) (hq : q < comm.nproc)
    (hq2 : (d.Nrow_local.take q).sum ≤ i)
    (hq3 : i < (d.Nrow_local.take q).sum + d.Nrow_local.getD q 0)
    (hq4 : ∀ p, p < q → (d.Nrow_local.take (p + 1)).sum ≤ i) (hi : i < d.Nrow)
    (k p fuel : Nat) (hk : p + k = q) (hfuel : k + 1 ≤ fuel) :
    global_to_local_row_map_loop PARANOID true d fuel
        (((i - (d.Nrow_local.take p).sum : Nat) : Int)) (p : Int)
      = some (.returned (i - (d.Nrow_local.take q).sum)) := by
  induction k generalizing p fuel with
  | zero =>
      have hpq : p = q := by omega
      subst hpq
      obtain ⟨fuel1, rfl⟩ : ∃ f, fuel = f + 1 := ⟨fuel - 1, by omega⟩
      have hn := nrow_local_of_distributed PARANOID d comm hbuilt hdist hb p hq
      have hN : d.Nrow_local.getD p 0 < 2 ^ 31 := by
        have h1 := sum_take_succ d.Nrow_local p (by rw [hb.nrow_local_size]; exact hq)
        have h2 := sum_take_le d.Nrow_local (p + 1)
        have h3 := hb.nrow_local_sum
        omega
      have hdiff : int_sub ((i - (d.Nrow_local.take p).sum : Nat) : Int)
          (d.Nrow_local.getD p 0 : Int) = .returned
            (((i - (d.Nrow_local.take p).sum : Nat) : Int) - (d.Nrow_local.getD p 0 : Int)) := by
        unfold int_sub
        rw [if_pos]
        omega
      have hneg : ¬ (((i - (d.Nrow_local.take p).sum : Nat) : Int)
          - (d.Nrow_local.getD p 0 : Int) ≥ 0) := by omega
      simp only [global_to_local_row_map_loop, unsigned_of_int_natCast p (by
        unfold UNSIGNED_RANGE; omega), hn, int_of_unsigned_small _ hN, hdiff, hneg, if_false]
      rw [unsigned_of_int_natCast _ (by unfold UNSIGNED_RANGE; omega)]
  | succ j ih =>
      have hpq : p < q := by omega
      obtain ⟨fuel1, rfl⟩ : ∃ f, fuel = f + 1 := ⟨fuel - 1, by omega⟩
      have hp : p < comm.nproc := by omega
      have hn := nrow_local_of_distributed PARANOID d comm hbuilt hdist hb p hp
      have hsucc := sum_take_succ d.Nrow_local p (by rw [hb.nrow_local_size]; exact hp)
      have hle := hq4 p hpq
      have hN : d.Nrow_local.getD p 0 < 2 ^ 31 := by omega
      have hdiff : int_sub ((i - (d.Nrow_local.take p).sum : Nat) : Int)
          (d.Nrow_local.getD p 0 : Int) = .returned
            (((i - (d.Nrow_local.take (p + 1)).sum : Nat) : Int)) := by
        unfold int_sub
        rw [if_pos (by omega)]
        congr 1
        omega
      have hpos : (((i - (d.Nrow_local.take (p + 1)).sum : Nat) : Int)) ≥ 0 := by omega
      have hp1 : (p : Int) + 1 < 2 ^ 31 := by omega
      simp only [global_to_local_row_map_loop, unsigned_of_int_natCast p (by
        unfold UNSIGNED_RANGE; omega), hn, int_of_unsigned_small _ hN, hdiff, hpos, if_true, hp1]
      have := ih (p + 1) fuel1 (by omega) (by omega)
      simpa using this

end LinearAlgebraDistribution

namespace LinearAlgebraDistribution

/-- C11 (as amended): for a built distribution with fewer than `2^31` rows
and every global row `i < nrow`: when the distribution is distributed and
its blocks are contiguous and cover the rows, the loop of
`global_to_local_row_map` ends and the result is `i - first_row(q)` for the
processor `q` that owns row `i`, hence below `nrow_local(q)`; when it is not
distributed the result is `i` itself. -/
theorem global_to_local_row_map_of_owner (PARANOID : Bool) (d : LinearAlgebraDistribution)
    (comm : OomphCommunicator) (i : Nat) (hbuilt : d.Comm_pt = some comm)
    (hint : d.Nrow < 2 ^ 31) (hnproc : comm.nproc < 2 ^ 31) (hi : i < d.Nrow) :
    (d.Distributed = true → contiguous_blocks d comm.nproc →
      ∃ q first n, q < comm.nproc ∧
        d.first_row PARANOID true q = .returned first ∧
        d.nrow_local PARANOID true q = .returned n ∧
        first ≤ i ∧ i < first + n ∧ i - first < n ∧
        ∀ fuel, comm.nproc ≤ fuel →
          d.global_to_local_row_map PARANOID true fuel i = some (.returned (i - first))) ∧
    (∀ OOMPH_HAS_MPI, (OOMPH_HAS_MPI && d.Distributed) = false → 0 < comm.nproc →
      ∀ fuel, 1 ≤ fuel →
        d.global_to_local_row_map PARANOID OOMPH_HAS_MPI fuel i = some (.returned i)) := by
  have hnotout : (PARANOID && decide (i ≥ d.Nrow)) = false := by
    have : ¬ i ≥ d.Nrow := by omega
    simp [this]
  have hi31 : i < 2 ^ 31 := by omega
  constructor
  · intro hdist hb
    obtain ⟨q, q1, q2, q3, q4⟩ := exists_owner d.Nrow_local i (by rw [hb.nrow_local_sum]; exact hi)
    have hq : q < comm.nproc := by rw [← hb.nrow_local_size]; exact q1
    refine ⟨q, _, _, hq, first_row_of_distributed PARANOID d comm hbuilt hdist hb q hq,
      nrow_local_of_distributed PARANOID d comm hbuilt hdist hb q hq, q2, q3, by omega, ?_⟩
    intro fuel hfuel
    have := global_to_local_row_map_loop_spec PARANOID d comm hbuilt hdist hb hint hnproc i q hq
      q2 q3 q4 hi q 0 fuel (by omega) (by omega)
    simp only [global_to_local_row_map, hnotout, int_of_unsigned_small i hi31]
    simpa using this
  · intro mpi hnd hproc fuel hfuel
    obtain ⟨fuel1, rfl⟩ : ∃ f, fuel = f + 1 := ⟨fuel - 1, by omega⟩
    have hn : d.nrow_local PARANOID mpi 0 = .returned d.Nrow := by
      have hnot : ¬ 0 ≥ comm.nproc := by omega
      cases PARANOID <;>
        simp only [nrow_local, hbuilt, hnd, hnot, if_true, if_false, Bool.false_eq_true]
    have hdiff : int_sub (i : Int) (d.Nrow : Int) = .returned ((i : Int) - (d.Nrow : Int)) := by
      unfold int_sub
      rw [if_pos]
      omega
    have hneg : ¬ ((i : Int) - (d.Nrow : Int) ≥ 0) := by omega
    have h0 : unsigned_of_int 0 = 0 := by decide
    simp only [global_to_local_row_map, hnotout, int_of_unsigned_small i hi31,
      global_to_local_row_map_loop, h0, hn, int_of_unsigned_small _ hint, hdiff, hneg, if_false,
      Bool.false_eq_true]
    rw [unsigned_of_int_natCast i (by unfold UNSIGNED_RANGE; omega)]

theorem example_contiguous_blocks : contiguous_blocks Example.distribution 3 := by
  constructor
  · rfl
  · rfl
  · rfl
  · intro p hp
    have : p = 0 ∨ p = 1 := by omega
    rcases this with rfl | rfl <;> rfl
  · rfl

/-- Witness for C11: row 7 of the example distribution is row 3 of processor
2. -/
theorem global_to_local_row_map_of_owner_witness :
    ∃ q first n, q < 3 ∧
      Example.distribution.first_row true true q = .returned first ∧
      Example.distribution.nrow_local true true q = .returned n ∧
      first ≤ 7 ∧ 7 < first + n ∧ 7 - first < n ∧
      ∀ fuel, 3 ≤ fuel →
        Example.distribution.global_to_local_row_map true true fuel 7
          = some (.returned (7 - first)) :=
  (global_to_local_row_map_of_owner true Example.distribution ⟨3, 0⟩ 7 rfl (by decide)
    (by decide) (by decide)).1 rfl example_contiguous_blocks

/-- Counterexample to C11 as stated: with `2^31 + 6` rows in contiguous
blocks of 1 and `2^31 + 5` rows, the global row `2^31 + 1` is row `2^31` of
processor 1, but `global_to_local_row_map` returns `2^31 + 1`. -/
theorem global_to_local_row_map_beyond_int :
    contiguous_blocks Example.large_distribution 2 ∧
    2147483649 < Example.large_distribution.Nrow ∧
    Example.large_distribution.first_row false true 1 = .returned 1 ∧
    Example.large_distribution.nrow_local false true 1 = .returned 2147483653 ∧
    (∀ fuel, Example.large_distribution.global_to_local_row_map false true (fuel + 1) 2147483649
      = some (.returned 2147483649)) ∧
    ¬ ∃ fuel, Example.large_distribution.global_to_local_row_map false true fuel 2147483649
      = some (.returned (2147483649 - 1)) := by
  have hrun : ∀ fuel,
      Example.large_distribution.global_to_local_row_map false true (fuel + 1) 2147483649
        = some (.returned 2147483649) := by
    intro fuel
    have h0 : unsigned_of_int 0 = 0 := by decide
    have h1 : nrow_local false true Example.large_distribution 0 = .returned 1 := by decide
    have h2 : int_of_unsigned 2147483649 = -2147483647 := by decide
    have h3 : int_sub (-2147483647) (int_of_unsigned 1) = .returned (-2147483648) := by decide
    have h4 : ¬ ((-2147483648 : Int) ≥ 0) := by decide
    have h5 : unsigned_of_int (-2147483647) = 2147483649 := by decide
    simp only [global_to_local_row_map, global_to_local_row_map_loop, Bool.false_and,
      Bool.false_eq_true, if_false, h0, h1, h2, h3, h4, h5]
  refine ⟨?_, by decide, by decide, by decide, hrun, ?_⟩
  · constructor
    · rfl
    · rfl
    · rfl
    · intro p hp
      have : p = 0 := by omega
      subst this
      rfl
    · rfl
  · rintro ⟨fuel, hfuel⟩
    cases fuel with
    | zero => simp [global_to_local_row_map, global_to_local_row_map_loop] at hfuel
    | succ k =>
        rw [hrun k] at hfuel
        revert hfuel
        decide

end LinearAlgebraDistribution

namespace LinearAlgebraDistribution

theorem rank_of_global_row_loop_spec (PARANOID : Bool) (d : LinearAlgebraDistribution)
    (comm : OomphCommunicator) (hbuilt : d.Comm_pt = some comm) (hdist : d.Distributed = true)
    (hb : contiguous_blocks d comm.nproc) (hrows : d.Nrow < UNSIGNED_RANGE)
    (hnproc : comm.nproc < 2 ^ 31) (i q : Nat) (hq : q < comm.nproc)
    (hq2 : (d.Nrow_local.take q).sum ≤ i)
    (hq3 : i < (d.Nrow_local.take q).sum + d.Nrow_local.getD q 0)
    (hq4 : ∀ p, p < q → (d.Nrow_local.take (p + 1)).sum ≤ i)
    (k p fuel : Nat) (hk : p + k = q) (hfuel : k + 1 ≤ fuel) :
    rank_of_global_row_loop PARANOID true d i fuel p = some (.returned q) := by
  induction k generalizing p fuel with
  | zero =>
      have hpq : p = q := by omega
      subst hpq
      obtain ⟨fuel1, rfl⟩ : ∃ f, fuel = f + 1 := ⟨fuel - 1, by omega⟩
      have hn := nrow_local_of_distributed PARANOID d comm hbuilt hdist hb p hq
      have hf := first_row_of_distributed PARANOID d comm hbuilt hdist hb p hq
      have hend : (d.Nrow_local.take p).sum + d.Nrow_local.getD p 0 ≤ d.Nrow := by
        have h1 := sum_take_succ d.Nrow_local p (by rw [hb.nrow_local_size]; exact hq)
        have h2 := sum_take_le d.Nrow_local (p + 1)
        have h3 := hb.nrow_local_sum
        omega
      have hadd : unsigned_add (d.Nrow_local.take p).sum (d.Nrow_local.getD p 0) =
          (d.Nrow_local.take p).sum + d.Nrow_local.getD p 0 :=
        Nat.mod_eq_of_lt (by omega)
      have hc1 : ¬ i < (d.Nrow_local.take p).sum := by omega
      have hc2 : ¬ i ≥ (d.Nrow_local.take p).sum + d.Nrow_local.getD p 0 := by omega
      simp only [rank_of_global_row_loop, hf, hn, hc1, if_false, hadd, hc2]
  | succ j ih =>
      have hpq : p < q := by omega
      obtain ⟨fuel1, rfl⟩ : ∃ f, fuel = f + 1 := ⟨fuel - 1, by omega⟩
      have hp : p < comm.nproc := by omega
      have hn := nrow_local_of_distributed PARANOID d comm hbuilt hdist hb p hp
      have hf := first_row_of_distributed PARANOID d comm hbuilt hdist hb p hp
      have hsucc := sum_take_succ d.Nrow_local p (by rw [hb.nrow_local_size]; exact hp)
      have hle := hq4 p hpq
      have hend : (d.Nrow_local.take p).sum + d.Nrow_local.getD p 0 ≤ d.Nrow := by
        have h2 := sum_take_le d.Nrow_local (p + 1)
        have h3 := hb.nrow_local_sum
        omega
      have hadd : unsigned_add (d.Nrow_local.take p).sum (d.Nrow_local.getD p 0) =
          (d.Nrow_local.take p).sum + d.Nrow_local.getD p 0 :=
        Nat.mod_eq_of_lt (by omega)
      have hp1 : unsigned_add p 1 = p + 1 :=
        Nat.mod_eq_of_lt (by unfold UNSIGNED_RANGE; omega)
      have hc1 : ¬ i < (d.Nrow_local.take p).sum := by omega
      have hc2 : i ≥ (d.Nrow_local.take p).sum + d.Nrow_local.getD p 0 := by omega
      simp only [rank_of_global_row_loop, hf, hn, hc1, if_false, hadd, hc2, if_true, hp1]
      exact ih (p + 1) fuel1 (by omega) (by omega)

/-- C12: for a built distribution and every global row `i < nrow`: when the
distribution is distributed and its blocks are contiguous and cover the rows,
the search of `rank_of_global_row` ends and returns a rank `q` below the
number of processors with `first_row(q) <= i < first_row(q)+nrow_local(q)`;
when it is not distributed it returns rank 0. With `PARANOID`, under which
`first_row(p)` and `nrow_local(p)` throw for a processor beyond the last one,
nothing is thrown. -/
theorem rank_of_global_row_is_owner (PARANOID : Bool) (d : LinearAlgebraDistribution)
    (comm : OomphCommunicator) (i : Nat) (hbuilt : d.Comm_pt = some comm)
    (hrows : d.Nrow < UNSIGNED_RANGE) (hnproc : comm.nproc < 2 ^ 31) (hi : i < d.Nrow) :
    (d.Distributed = true → contiguous_blocks d comm.nproc →
      ∃ q first n, q < comm.nproc ∧
        d.first_row PARANOID true q = .returned first ∧
        d.nrow_local PARANOID true q = .returned n ∧
        first ≤ i ∧ i < first + n ∧
        ∀ fuel, comm.nproc ≤ fuel →
          d.rank_of_global_row PARANOID true fuel i = some (.returned q)) ∧
    (∀ OOMPH_HAS_MPI, (OOMPH_HAS_MPI && d.Distributed) = false → 0 < comm.nproc →
      d.first_row PARANOID OOMPH_HAS_MPI 0 = .returned 0 ∧
      d.nrow_local PARANOID OOMPH_HAS_MPI 0 = .returned d.Nrow ∧
      ∀ fuel, 1 ≤ fuel →
        d.rank_of_global_row PARANOID OOMPH_HAS_MPI fuel i = some (.returned 0)) := by
  constructor
  · intro hdist hb
    obtain ⟨q, q1, q2, q3, q4⟩ := exists_owner d.Nrow_local i (by rw [hb.nrow_local_sum]; exact hi)
    have hq : q < comm.nproc := by rw [← hb.nrow_local_size]; exact q1
    refine ⟨q, _, _, hq, first_row_of_distributed PARANOID d comm hbuilt hdist hb q hq,
      nrow_local_of_distributed PARANOID d comm hbuilt hdist hb q hq, q2, q3, ?_⟩
    intro fuel hfuel
    exact rank_of_global_row_loop_spec PARANOID d comm hbuilt hdist hb hrows hnproc i q hq
      q2 q3 q4 q 0 fuel (by omega) (by omega)
  · intro mpi hnd hproc
    have hnot : ¬ 0 ≥ comm.nproc := by omega
    have hn : d.nrow_local PARANOID mpi 0 = .returned d.Nrow := by
      cases PARANOID <;>
        simp only [nrow_local, hbuilt, hnd, hnot, if_true, if_false, Bool.false_eq_true]
    have hf : d.first_row PARANOID mpi 0 = .returned 0 := by
      cases PARANOID <;>
        simp only [first_row, hbuilt, hnd, hnot, if_true, if_false, Bool.false_eq_true]
    refine ⟨hf, hn, fun fuel hfuel => ?_⟩
    obtain ⟨fuel1, rfl⟩ : ∃ f, fuel = f + 1 := ⟨fuel - 1, by omega⟩
    have hadd : unsigned_add 0 d.Nrow = d.Nrow := by
      unfold unsigned_add
      rw [Nat.zero_add]
      exact Nat.mod_eq_of_lt hrows
    have hc1 : ¬ i < 0 := by omega
    have hc2 : ¬ i ≥ d.Nrow := by omega
    simp only [rank_of_global_row, rank_of_global_row_loop, hf, hn, hc1, if_false, hadd, hc2]

/-- Witness for C12: row 7 of the example distribution lives on processor
2; the empty block of processor 1 is passed over. -/
theorem rank_of_global_row_is_owner_witness :
    ∃ q first n, q < 3 ∧
      Example.distribution.first_row true true q = .returned first ∧
      Example.distribution.nrow_local true true q = .returned n ∧
      first ≤ 7 ∧ 7 < first + n ∧
      ∀ fuel, 3 ≤ fuel →
        Example.distribution.rank_of_global_row true true fuel 7 = some (.returned q) :=
  (rank_of_global_row_is_owner true Example.distribution ⟨3, 0⟩ 7 rfl (by decide)
    (by decide) (by decide)).1 rfl example_contiguous_blocks

end LinearAlgebraDistribution

namespace DiskLikeGeomObjectWithBoundaries

theorem add_region_coordinates_of_unsigned_length {D : Type}
    (g : DiskLikeGeomObjectWithBoundaries D) (r : Nat) (zeta : List D) (hr : r ≠ 0)
    (hn : zeta.length % UNSIGNED_RANGE = 2) :
    (g.add_region_coordinates r zeta).outcome = .returned () ∧
    (g.add_region_coordinates r zeta).object.zeta_in_region r = some zeta := by
  constructor
  · simp [add_region_coordinates, hr, hn]
  · simp [add_region_coordinates, zeta_in_region, hr, hn]

/-- C18 (amended): `add_region_coordinates(r, zeta)` throws and leaves the
stored region map as it was whenever `r = 0` or the number of coordinates of
`zeta`, as the `unsigned` the function stores it in (that is modulo `2^32`),
is not 2; for `r > 0` not yet in use and `zeta` of length 2 it throws nothing,
issues no warning, and afterwards `zeta_in_region()` maps `r` to `zeta` with
every other region unchanged. -/
theorem add_region_coordinates_contract {D : Type} (g : DiskLikeGeomObjectWithBoundaries D)
    (r : Nat) (zeta : List D) :
    (r = 0 →
      (g.add_region_coordinates r zeta).outcome = .thrown .Region_id_zero ∧
      (g.add_region_coordinates r zeta).object = g) ∧
    (r ≠ 0 → zeta.length % UNSIGNED_RANGE ≠ 2 →
      (g.add_region_coordinates r zeta).outcome =
        .thrown (.Zeta_in_region_length (zeta.length % UNSIGNED_RANGE)) ∧
      (g.add_region_coordinates r zeta).object = g) ∧
    (0 < r → g.zeta_in_region r = none → zeta.length = 2 →
      (g.add_region_coordinates r zeta).outcome = .returned () ∧
      (g.add_region_coordinates r zeta).warning_issued = false ∧
      (g.add_region_coordinates r zeta).object.zeta_in_region r = some zeta ∧
      ∀ k, k ≠ r →
        (g.add_region_coordinates r zeta).object.zeta_in_region k = g.zeta_in_region k) := by
  refine ⟨?_, ?_, ?_⟩
  · intro hr
    simp [add_region_coordinates, hr]
  · intro hr hn
    simp [add_region_coordinates, hr, hn]
  · intro hr hfree hlen
    have hr0 : r ≠ 0 := by omega
    have hn : zeta.length % UNSIGNED_RANGE = 2 := by rw [hlen]; decide
    have hfree1 : g.Zeta_in_region r = none := hfree
    refine ⟨?_, ?_, ?_, ?_⟩
    · simp [add_region_coordinates, hr0, hn]
    · simp [add_region_coordinates, hr0, hn, hfree1]
    · simp [add_region_coordinates, zeta_in_region, hr0, hn]
    · intro k hk
      simp [add_region_coordinates, zeta_in_region, hr0, hn, hk]

/-- Witness for C18: region 2 with the point `(1/2, 1/3)` is added to the
example disk, whose region 1 stays as it is. -/
theorem add_region_coordinates_contract_witness :
    (Example.disk.add_region_coordinates 2 [1 / 2, 1 / 3]).outcome = .returned () ∧
    (Example.disk.add_region_coordinates 2 [1 / 2, 1 / 3]).warning_issued = false ∧
    (Example.disk.add_region_coordinates 2 [1 / 2, 1 / 3]).object.zeta_in_region 2 =
      some [1 / 2, 1 / 3] ∧
    ∀ k, k ≠ 2 →
      (Example.disk.add_region_coordinates 2 [1 / 2, 1 / 3]).object.zeta_in_region k =
        Example.disk.zeta_in_region k :=
  (add_region_coordinates_contract Example.disk 2 [1 / 2, 1 / 3]).2.2 (by decide) rfl rfl

/-- Counterexample to C18 as stated: a vector of `2^32 + 2` coordinates does
not have length 2, yet its length stored in an `unsigned` is 2, so nothing is
thrown and the vector is stored for region 1. -/
theorem add_region_coordinates_accepts_long_vector :
    (List.replicate (UNSIGNED_RANGE + 2) (0 : Rat)).length ≠ 2 ∧
    (Example.plain_disk.add_region_coordinates 1
      (List.replicate (UNSIGNED_RANGE + 2) 0)).outcome = .returned () ∧
    (Example.plain_disk.add_region_coordinates 1
      (List.replicate (UNSIGNED_RANGE + 2) 0)).object.zeta_in_region 1 =
        some (List.replicate (UNSIGNED_RANGE + 2) 0) :=
  ⟨by rw [List.length_replicate]; decide,
    add_region_coordinates_of_unsigned_length Example.plain_disk 1
      (List.replicate (UNSIGNED_RANGE + 2) 0) (by decide)
      (by rw [List.length_replicate]; decide)⟩

end DiskLikeGeomObjectWithBoundaries

namespace RefineableQSpectralElement

variable {D : Type} [OfScientific D] [Neg D] [Add D] [Sub D] [Mul D] [LT D]
  [DecidableRel (fun a b : D => a < b)]

theorem rebuild_loop_exit_state_of_returned (env : Rebuild_environment D)
    (time_stepper_pt ntstorage n_node : Nat) (todo n : Nat) (st st1 : Rebuild_state D)
    (h : rebuild_loop env time_stepper_pt ntstorage n_node todo n st = .returned st1) :
    rebuild_loop_exit_state env time_stepper_pt ntstorage n_node todo n st = some st1 := by
  induction todo generalizing n st with
  | zero =>
      simp only [rebuild_loop, Outcome.returned.injEq] at h
      simp only [rebuild_loop_exit_state, h]
  | succ k ih =>
      simp only [rebuild_loop] at h
      cases hnode : rebuild_node env time_stepper_pt ntstorage n_node n st with
      | returned st2 =>
          rw [hnode] at h
          simp only [rebuild_loop_exit_state, hnode]
          exact ih (n + 1) st2 h
      | thrown e =>
          rw [hnode] at h
          simp [Outcome.bind] at h
      | unchecked =>
          rw [hnode] at h
          simp [Outcome.bind] at h

/-- The objects at the end of a call that returns are the returned ones. -/
theorem rebuild_from_sons_exit_state_of_returned (env : Rebuild_environment D)
    (st st1 : Rebuild_state D) (h : rebuild_from_sons env st = .returned st1) :
    rebuild_from_sons_exit_state env st = some st1 := by
  unfold rebuild_from_sons at h
  unfold rebuild_from_sons_exit_state
  cases h0 : st.element.Node_pt[0]? with
  | none => rw [h0] at h; simp at h
  | some p =>
      cases p with
      | none => rw [h0] at h; simp at h
      | some node_0 =>
          rw [h0] at h
          exact rebuild_loop_exit_state_of_returned env _ _ _ _ _ st st1 h

/-- C19: whenever the vertex node 0 of the element does not exist,
`rebuild_from_sons` throws the error "The vertex node (0) does not exist",
whatever the neighbours, the sons, the time steppers and the other objects
are, and the element, the store of nodes and the mesh are at the throw what
they were at the call: no node has been constructed and none added to the
mesh. -/
theorem rebuild_from_sons_without_vertex_node (env : Rebuild_environment D)
    (st : Rebuild_state D) (h : st.element.Node_pt[0]? = some none) :
    rebuild_from_sons env st = .thrown .Vertex_node_does_not_exist ∧
    rebuild_from_sons_exit_state env st = some st := by
  unfold rebuild_from_sons rebuild_from_sons_exit_state
  rw [h]
  exact ⟨rfl, rfl⟩

/-- Witness for C19: the father of the example without its vertex node 0. -/
theorem rebuild_from_sons_without_vertex_node_witness :
    Example.vertexless_state.element.Node_pt[0]? = some none ∧
    rebuild_from_sons (Example.environment false) Example.vertexless_state =
      .thrown .Vertex_node_does_not_exist ∧
    rebuild_from_sons_exit_state (Example.environment false) Example.vertexless_state =
      some Example.vertexless_state :=
  ⟨rfl, rebuild_from_sons_without_vertex_node (Example.environment false)
    Example.vertexless_state rfl⟩

end RefineableQSpectralElement

end oomph
